import Mathlib

/-!
# gimxpoll: source registry and dispatch loops

A shallow embedding of `src/posix/gpoll.c` (readiness-bitmask polling) and
`src/windows/gpoll.c` (multi-object wait), followed by theorems about them.

Conventions of the embedding.

* The file-scope variables (`sources`, `nb_sources`, `polling`, ...) are the
  fields of a `State` that every function takes and returns.
* A pointer is a natural number, `NULL` is `0`.  A list node carries the
  address `calloc` returned for it in the field `addr`; dereferencing a node
  pointer is a lookup by address in the linked list.
* Everything the program cannot decide by itself is read from a `World`:
  whether an allocation fails, what the operating system reports, and what a
  callback does.  Each such question is asked at the current value of
  `State.clock`, which is advanced by the question, so that a world can give a
  different answer every time.
* A callback is a program that may call back into the registration API and
  finally returns an `int`.
* `State.trace` is a ghost log of the callbacks the loop invoked and of the API
  calls made from inside callbacks.  `State.fault` is a ghost flag raised when
  the loop calls through a null function pointer or dereferences a node that is
  no longer linked.
* `unsigned int` arithmetic is arithmetic modulo `2 ^ 32`.
-/

namespace Gpoll

/-- The null pointer. -/
def NULL : Nat := 0

/-- The callback bundle `GPOLL_CALLBACKS` of `gpoll.h`: three function pointers. -/
structure GPOLL_CALLBACKS where
  fp_read : Nat
  fp_write : Nat
  fp_close : Nat
deriving DecidableEq, Repr

/-- The slot of a source through which the loop made a call. -/
inductive Slot where
  | read
  | write
  | close
deriving DecidableEq, Repr

/-- Decrement of an `unsigned int`. -/
def udec (n : Nat) : Nat := (n + 2 ^ 32 - 1) % 2 ^ 32

/-- Increment of an `unsigned int`. -/
def uinc (n : Nat) : Nat := (n + 1) % 2 ^ 32

/-! ## The bitmask-polling backend (`src/posix/gpoll.c`) -/

namespace Posix

/-- Event bit `POLLIN` of `<poll.h>` (Linux value). -/
def POLLIN : Nat := 0x001
/-- Event bit `POLLOUT` of `<poll.h>` (Linux value). -/
def POLLOUT : Nat := 0x004
/-- Event bit `POLLERR` of `<poll.h>` (Linux value). -/
def POLLERR : Nat := 0x008
/-- Event bit `POLLHUP` of `<poll.h>` (Linux value). -/
def POLLHUP : Nat := 0x010
/-- Event bit `POLLNVAL` of `<poll.h>` (Linux value). -/
def POLLNVAL : Nat := 0x020

/-- The list node `struct poll_source`; `addr` is the address of the node. -/
structure poll_source where
  addr : Nat
  fd : Int
  user : Nat
  fp_read : Nat
  fp_write : Nat
  fp_close : Nat
  events : Nat
  removed : Nat
deriving DecidableEq, Repr

/-- An entry of the ghost log. -/
inductive Event where
  /-- The loop called `fp` with argument `user` through `slot` of the node at
  `source`, and the call returned `ret`. -/
  | call (source : Nat) (slot : Slot) (fp : Nat) (user : Nat) (ret : Int)
  /-- A callback called `gpoll_register_fd`. -/
  | register_fd (fd : Int) (ret : Int)
  /-- A callback called `gpoll_remove_fd`. -/
  | remove_fd (fd : Int) (ret : Int)
deriving DecidableEq, Repr

/-- The file-scope variables of `gpoll.c`, the allocation/oracle clock and the
ghost log. -/
structure State where
  sources : List poll_source
  nb_sources : Nat
  polling : Nat
  clock : Nat
  fault : Bool
  trace : List Event
deriving DecidableEq, Repr

/-- A callback body: it returns, or calls the API and continues with the value
the API returned. -/
inductive Callback where
  | ret (r : Int)
  | register_fd (fd : Int) (user : Nat) (callbacks : GPOLL_CALLBACKS) (k : Int → Callback)
  | remove_fd (fd : Int) (k : Int → Callback)

/-- The `struct pollfd` of `<poll.h>`. -/
structure pollfd where
  fd : Int
  events : Nat
  revents : Nat
deriving DecidableEq, Repr

/-- What the program reads from outside, each indexed by the clock:
whether `calloc` fails, the body of the function behind a function pointer
(given the pointer and its `user` argument), and the result of `poll`
(return value and the `revents` it stored, by position). -/
structure World where
  calloc_fails : Nat → Bool
  callback : Nat → Nat → Nat → Callback
  poll : Nat → List pollfd → Int × List Nat

/-- The registry with nothing registered and the loop not running. -/
def State.init : State :=
  { sources := [], nb_sources := 0, polling := 0, clock := 0, fault := false, trace := [] }

/-- Modelled from the spec: `GLIST_ADD` of `gimxcommon/include/glist.h`, which
is not among the sources; the spec's registry operation is
"`add(source)` (append, increment count)", insertion order preserved. -/
def GLIST_ADD (sources : List poll_source) (source : poll_source) : List poll_source :=
  sources ++ [source]

/-- Modelled from the spec: `GLIST_REMOVE` of `gimxcommon/include/glist.h`,
which is not among the sources; the spec's registry operation is
"`remove(source)` (unlink ...)": the node is taken out, the others keep their
order. -/
def GLIST_REMOVE (sources : List poll_source) (source : poll_source) : List poll_source :=
  sources.erase source

/-- `calloc(1, sizeof(*source))`: null on failure, otherwise a fresh address. -/
def calloc (w : World) (s : State) : Option Nat × State :=
  (if w.calloc_fails s.clock then none else some (s.clock + 1),
   { s with clock := s.clock + 1 })

/-- `gpoll_close_internal`, lines 36-41. -/
def gpoll_close_internal (s : State) (source : poll_source) : State :=
  { s with sources := GLIST_REMOVE s.sources source, nb_sources := udec s.nb_sources }

/-- `gpoll_register_fd`, lines 43-72. -/
def gpoll_register_fd (w : World) (s : State) (fd : Int) (user : Nat)
    (callbacks : GPOLL_CALLBACKS) : State × Int :=
  if callbacks.fp_close = NULL then (s, -1)
  else if callbacks.fp_read = NULL ∧ callbacks.fp_write = NULL then (s, -1)
  else
    match calloc w s with
    | (none, s1) => (s1, -1)
    | (some p, s1) =>
      let ev0 : Nat := 0
      let ev1 := if callbacks.fp_read ≠ NULL then ev0 ||| POLLIN else ev0
      let ev2 := if callbacks.fp_write ≠ NULL then ev1 ||| POLLOUT else ev1
      let source : poll_source :=
        { addr := p, fd := fd, user := user, fp_read := callbacks.fp_read,
          fp_write := callbacks.fp_write, fp_close := callbacks.fp_close,
          events := ev2, removed := 0 }
      ({ s1 with sources := GLIST_ADD s1.sources source, nb_sources := uinc s1.nb_sources }, 0)

/-- `gpoll_remove_fd`, lines 74-88: the first node whose `fd` matches is
tombstoned when polling and unlinked otherwise. -/
def gpoll_remove_fd (s : State) (fd : Int) : State × Int :=
  match s.sources.find? (fun current => fd == current.fd) with
  | some current =>
    if s.polling ≠ 0 then
      ({ s with sources := s.sources.replace current { current with removed := 1 } }, 0)
    else
      (gpoll_close_internal s current, 0)
  | none => (s, -1)

/-- `fill_fds`, lines 90-103: the two arrays `fds` and `sources`, filled in
lock step, are one list of pairs; `pos` is its length. -/
def fill_fds : Nat → List poll_source → List (pollfd × Nat)
  | 0, _ => []
  | _ + 1, [] => []
  | nfds + 1, current :: rest =>
    ({ fd := current.fd, events := current.events, revents := 0 }, current.addr)
      :: fill_fds nfds rest

/-- `gpoll_remove_fd_defered`, lines 105-115: every node of the list is visited
once, in order, and the tombstoned ones are closed. -/
def gpoll_remove_fd_defered (s : State) : State :=
  s.sources.foldl
    (fun st current => if current.removed ≠ 0 then gpoll_close_internal st current else st) s

/-- Run a callback body against the registry. -/
def run_callback (w : World) : Callback → State → State × Int
  | .ret r, s => (s, r)
  | .register_fd fd user callbacks k, s =>
    let (s1, r) := gpoll_register_fd w s fd user callbacks
    run_callback w (k r) { s1 with trace := s1.trace ++ [Event.register_fd fd r] }
  | .remove_fd fd k, s =>
    let (s1, r) := gpoll_remove_fd s fd
    run_callback w (k r) { s1 with trace := s1.trace ++ [Event.remove_fd fd r] }

/-- Dereference of a node pointer. -/
def deref (s : State) (p : Nat) : Option poll_source :=
  s.sources.find? (fun n => n.addr == p)

/-- What a read through a dangling pointer yields in the model. -/
def null_source : poll_source :=
  { addr := 0, fd := 0, user := 0, fp_read := 0, fp_write := 0, fp_close := 0,
    events := 0, removed := 0 }

/-- The function pointer stored in a slot of a node. -/
def poll_source.fp (n : poll_source) : Slot → Nat
  | .read => n.fp_read
  | .write => n.fp_write
  | .close => n.fp_close

/-- The call `sources[i]->fp_xxx(sources[i]->user)`, `p` being `sources[i]`. -/
def invoke (w : World) (s : State) (p : Nat) (slot : Slot) : State × Int :=
  let node := (deref s p).getD null_source
  let fp := node.fp slot
  let s0 : State :=
    { s with clock := s.clock + 1,
             fault := s.fault || (deref s p).isNone || fp == NULL }
  let (s1, r) := run_callback w (w.callback s.clock fp node.user) s0
  ({ s1 with trace := s1.trace ++ [Event.call p slot fp node.user r] }, r)

/-- The test `revents & (POLLERR | POLLHUP | POLLNVAL)`. -/
def has_error (revents : Nat) : Bool := revents &&& (POLLERR ||| POLLHUP ||| POLLNVAL) != 0

/-- The test `revents & POLLIN`. -/
def has_in (revents : Nat) : Bool := revents &&& POLLIN != 0

/-- The test `revents & POLLOUT`. -/
def has_out (revents : Nat) : Bool := revents &&& POLLOUT != 0

/-- The body of the `for` loop of `gpoll`, lines 132-149, for the entry
`fds[i]`, `sources[i]`.  The boolean tells whether the body ended in `break`. -/
def gpoll_entry (w : World) (pfd : pollfd) (p : Nat) (s : State) : State × Bool :=
  if has_error pfd.revents then
    let (s1, res) := invoke w s p Slot.close
    let s2 := (gpoll_remove_fd s1 pfd.fd).1
    (s2, decide (res ≠ 0))
  else
    let (s1, stop1) :=
      if has_in pfd.revents then
        let (s1, r) := invoke w s p Slot.read
        (s1, decide (r ≠ 0))
      else (s, false)
    if stop1 then (s1, true)
    else if has_out pfd.revents then
      let (s2, r) := invoke w s1 p Slot.write
      (s2, decide (r ≠ 0))
    else (s1, false)

/-- The `for` loop of `gpoll`, lines 131-150, over the entries from `i` on.
The boolean tells whether the loop was left by `break`, that is whether
`i < nfds` holds after it. -/
def gpoll_dispatch (w : World) : List (pollfd × Nat) → State → State × Bool
  | [], s => (s, false)
  | (pfd, p) :: rest, s =>
    let (s1, brk) := gpoll_entry w pfd p s
    if brk then (s1, true) else gpoll_dispatch w rest s1

/-- The `revents` fields after `poll` stored its answer. -/
def store_revents : List (pollfd × Nat) → List Nat → List (pollfd × Nat)
  | [], _ => []
  | (pfd, p) :: rest, rs =>
    ({ pfd with revents := rs.headD 0 }, p) :: store_revents rest rs.tail

/-- One turn of the `while (1)` loop of `gpoll`, lines 126-160.  The boolean
tells whether the loop is left after this turn. -/
def gpoll_iteration (w : World) (s : State) : State × Bool :=
  let snapshot := fill_fds s.nb_sources s.sources
  let answer := w.poll s.clock (snapshot.map Prod.fst)
  let s1 : State := { s with clock := s.clock + 1 }
  if answer.1 > 0 then
    let (s2, brk) := gpoll_dispatch w (store_revents snapshot answer.2) s1
    (gpoll_remove_fd_defered s2, brk)
  else
    (s1, false)

/-- The `while (1)` loop, cut off after `fuel` turns: `none` when the loop is
still running then. -/
def gpoll_loop (w : World) : Nat → State → Option State
  | 0, _ => none
  | fuel + 1, s =>
    let (s1, brk) := gpoll_iteration w s
    if brk then some s1 else gpoll_loop w fuel s1

/-- `gpoll`, lines 117-164. -/
def gpoll (w : World) (fuel : Nat) (s : State) : Option State :=
  (gpoll_loop w fuel { s with polling := 1 }).map fun s1 => { s1 with polling := 0 }

end Posix

/-! ## The multi-object-wait backend (`src/windows/gpoll.c`) -/

namespace Windows

/-- Limit `MAXIMUM_WAIT_OBJECTS` of `<winnt.h>`. -/
def MAXIMUM_WAIT_OBJECTS : Nat := 64
/-- `MAX_SOURCES`, line 17. -/
def MAX_SOURCES : Nat := MAXIMUM_WAIT_OBJECTS - 1
/-- The handle `INVALID_HANDLE_VALUE`, that is `(HANDLE)-1`. -/
def INVALID_HANDLE_VALUE : Int := -1
/-- Return value `SOCKET_ERROR` of `<winsock2.h>`. -/
def SOCKET_ERROR : Int := -1
/-- Wait result `WAIT_FAILED`, that is `(DWORD)0xFFFFFFFF`. -/
def WAIT_FAILED : Nat := 0xFFFFFFFF
/-- Wait result `WAIT_OBJECT_0`. -/
def WAIT_OBJECT_0 : Nat := 0
/-- Network event bit `FD_READ` (`1 << FD_READ_BIT`, `FD_READ_BIT` being 0). -/
def FD_READ : Nat := 1
/-- Wake mask `QS_RAWINPUT` of `<winuser.h>`. -/
def QS_RAWINPUT : Nat := 0x400

/-- The list node `struct poll_source`; `addr` is the address of the node. -/
structure poll_source where
  addr : Nat
  fd : Int
  user : Nat
  handle : Int
  fp_read : Nat
  fp_write : Nat
  fp_cleanup : Nat
  removed : Nat
deriving DecidableEq, Repr

/-- An entry of the ghost log. -/
inductive Event where
  /-- The loop called `fp` with argument `user` through `slot` of the node at
  `source`, and the call returned `ret`. -/
  | call (source : Nat) (slot : Slot) (fp : Nat) (user : Nat) (ret : Int)
  /-- The loop probed the handle of the node at `source` with
  `WaitForSingleObject(handle, 0)`, which returned `result`. -/
  | probe (source : Nat) (result : Nat)
  /-- The loop called the raw-input callback `fp`, which returned `ret`. -/
  | rawinput (fp : Nat) (ret : Int)
  /-- `gpoll_close_internal` called `WSACloseEvent` on a handle. -/
  | WSACloseEvent (handle : Int)
  /-- A callback called `gpoll_register_fd`. -/
  | register_fd (fd : Int) (ret : Int)
  /-- A callback called `gpoll_register_handle`. -/
  | register_handle (handle : Int) (ret : Int)
  /-- A callback called `gpoll_remove_fd`. -/
  | remove_fd (fd : Int) (ret : Int)
  /-- A callback called `gpoll_remove_handle`. -/
  | remove_handle (handle : Int) (ret : Int)
  /-- A callback called `gpoll_set_rawinput_callback`. -/
  | set_rawinput_callback (callback : Nat)
deriving DecidableEq, Repr

/-- The file-scope variables of `gpoll.c`, the allocation/oracle clock and the
ghost log. -/
structure State where
  sources : List poll_source
  nb_sources : Nat
  polling : Nat
  rawinput_callback : Nat
  clock : Nat
  fault : Bool
  trace : List Event
deriving DecidableEq, Repr

/-- A callback body: it returns, or calls the API and continues with the value
the API returned. -/
inductive Callback where
  | ret (r : Int)
  | register_fd (fd : Int) (user : Nat) (callbacks : GPOLL_CALLBACKS) (k : Int → Callback)
  | register_handle (handle : Int) (user : Nat) (callbacks : GPOLL_CALLBACKS)
      (k : Int → Callback)
  | remove_fd (fd : Int) (k : Int → Callback)
  | remove_handle (handle : Int) (k : Int → Callback)
  | set_rawinput_callback (callback : Nat) (k : Callback)

/-- What the program reads from outside, each indexed by the clock:
whether `calloc` fails; the handle `CreateEvent` returns; the return value of
`WSAEventSelect(fd, evt, ...)`; the result of
`MsgWaitForMultipleObjects(count, handles, ..., dwWakeMask)`; the value of
`GetQueueStatus(QS_RAWINPUT)`; the result of `WaitForSingleObject(handle, 0)`;
for `WSAEnumNetworkEvents(fd, handle, ...)` its return value, `lNetworkEvents`
and `iErrorCode[FD_READ_BIT]`; the body of the function behind a function
pointer (given the pointer and its `user` argument); the body of the raw-input
callback (given the pointer). -/
structure World where
  calloc_fails : Nat → Bool
  CreateEvent : Nat → Int
  WSAEventSelect : Nat → Int → Int → Int
  MsgWaitForMultipleObjects : Nat → List Int → Nat → Nat
  GetQueueStatus : Nat → Nat
  WaitForSingleObject : Nat → Int → Nat
  WSAEnumNetworkEvents : Nat → Int → Int → Int × Nat × Int
  callback : Nat → Nat → Nat → Callback
  rawinput : Nat → Nat → Callback

/-- The registry with nothing registered and the loop not running. -/
def State.init : State :=
  { sources := [], nb_sources := 0, polling := 0, rawinput_callback := NULL, clock := 0,
    fault := false, trace := [] }

/-- Modelled from the spec: `GLIST_ADD` of `gimxcommon/include/glist.h`, which
is not among the sources; the spec's registry operation is
"`add(source)` (append, increment count)", insertion order preserved. -/
def GLIST_ADD (sources : List poll_source) (source : poll_source) : List poll_source :=
  sources ++ [source]

/-- Modelled from the spec: `GLIST_REMOVE` of `gimxcommon/include/glist.h`,
which is not among the sources; the spec's registry operation is
"`remove(source)` (unlink ...)": the node is taken out, the others keep their
order. -/
def GLIST_REMOVE (sources : List poll_source) (source : poll_source) : List poll_source :=
  sources.erase source

/-- `calloc(1, sizeof(*source))`: null on failure, otherwise a fresh address. -/
def calloc (w : World) (s : State) : Option Nat × State :=
  (if w.calloc_fails s.clock then none else some (s.clock + 1),
   { s with clock := s.clock + 1 })

/-- `gpoll_close_internal`, lines 47-56. -/
def gpoll_close_internal (s : State) (source : poll_source) : State :=
  let s1 : State :=
    if source.fd ≥ 0 then { s with trace := s.trace ++ [Event.WSACloseEvent source.handle] }
    else s
  { s1 with sources := GLIST_REMOVE s1.sources source, nb_sources := udec s1.nb_sources }

/-- `gpoll_register_fd`, lines 64-102. -/
def gpoll_register_fd (w : World) (s : State) (fd : Int) (user : Nat)
    (callbacks : GPOLL_CALLBACKS) : State × Int :=
  if fd < 0 then (s, -1)
  else if callbacks.fp_close = NULL then (s, -1)
  else if callbacks.fp_read = NULL then (s, -1)
  else if s.nb_sources = MAX_SOURCES then (s, -1)
  else
    match calloc w s with
    | (none, s1) => (s1, -1)
    | (some p, s1) =>
      let evt := w.CreateEvent s1.clock
      let s2 : State := { s1 with clock := s1.clock + 1 }
      let s3 : State := { s2 with clock := s2.clock + 1 }
      if w.WSAEventSelect s2.clock fd evt = SOCKET_ERROR then (s3, -1)
      else
        let source : poll_source :=
          { addr := p, fd := fd, user := user, handle := evt,
            fp_read := callbacks.fp_read, fp_write := NULL,
            fp_cleanup := callbacks.fp_close, removed := 0 }
        ({ s3 with sources := GLIST_ADD s3.sources source,
                   nb_sources := uinc s3.nb_sources }, 0)

/-- `gpoll_register_handle`, lines 104-137. -/
def gpoll_register_handle (w : World) (s : State) (handle : Int) (user : Nat)
    (callbacks : GPOLL_CALLBACKS) : State × Int :=
  if handle = INVALID_HANDLE_VALUE then (s, -1)
  else if callbacks.fp_close = NULL then (s, -1)
  else if callbacks.fp_read = NULL ∧ callbacks.fp_write = NULL then (s, -1)
  else if s.nb_sources = MAX_SOURCES then (s, -1)
  else
    match calloc w s with
    | (none, s1) => (s1, -1)
    | (some p, s1) =>
      let source : poll_source :=
        { addr := p, fd := -1, user := user, handle := handle,
          fp_read := callbacks.fp_read, fp_write := callbacks.fp_write,
          fp_cleanup := callbacks.fp_close, removed := 0 }
      ({ s1 with sources := GLIST_ADD s1.sources source,
                 nb_sources := uinc s1.nb_sources }, 0)

/-- `gpoll_remove_handle`, lines 139-153. -/
def gpoll_remove_handle (s : State) (handle : Int) : State × Int :=
  match s.sources.find? (fun current => handle == current.handle) with
  | some current =>
    if s.polling ≠ 0 then
      ({ s with sources := s.sources.replace current { current with removed := 1 } }, 0)
    else
      (gpoll_close_internal s current, 0)
  | none => (s, -1)

/-- `gpoll_remove_fd`, lines 155-169. -/
def gpoll_remove_fd (s : State) (fd : Int) : State × Int :=
  match s.sources.find? (fun current => fd == current.fd) with
  | some current =>
    if s.polling ≠ 0 then
      ({ s with sources := s.sources.replace current { current with removed := 1 } }, 0)
    else
      (gpoll_close_internal s current, 0)
  | none => (s, -1)

/-- `gpoll_remove_deferred`, lines 171-181: every node of the list is visited
once, in order, and the tombstoned ones are closed. -/
def gpoll_remove_deferred (s : State) : State :=
  s.sources.foldl
    (fun st current => if current.removed ≠ 0 then gpoll_close_internal st current else st) s

/-- `fill_handles`, lines 183-192; `pos` is the length of the result. -/
def fill_handles : Nat → List poll_source → List Int
  | 0, _ => []
  | _ + 1, [] => []
  | nhandles + 1, current :: rest => current.handle :: fill_handles nhandles rest

/-- `gpoll_set_rawinput_callback`, lines 307-310. -/
def gpoll_set_rawinput_callback (s : State) (callback : Nat) : State :=
  { s with rawinput_callback := callback }

/-- Run a callback body against the registry. -/
def run_callback (w : World) : Callback → State → State × Int
  | .ret r, s => (s, r)
  | .register_fd fd user callbacks k, s =>
    let (s1, r) := gpoll_register_fd w s fd user callbacks
    run_callback w (k r) { s1 with trace := s1.trace ++ [Event.register_fd fd r] }
  | .register_handle handle user callbacks k, s =>
    let (s1, r) := gpoll_register_handle w s handle user callbacks
    run_callback w (k r) { s1 with trace := s1.trace ++ [Event.register_handle handle r] }
  | .remove_fd fd k, s =>
    let (s1, r) := gpoll_remove_fd s fd
    run_callback w (k r) { s1 with trace := s1.trace ++ [Event.remove_fd fd r] }
  | .remove_handle handle k, s =>
    let (s1, r) := gpoll_remove_handle s handle
    run_callback w (k r) { s1 with trace := s1.trace ++ [Event.remove_handle handle r] }
  | .set_rawinput_callback callback k, s =>
    let s1 := gpoll_set_rawinput_callback s callback
    run_callback w k { s1 with trace := s1.trace ++ [Event.set_rawinput_callback callback] }

/-- Dereference of a node pointer. -/
def deref (s : State) (p : Nat) : Option poll_source :=
  s.sources.find? (fun n => n.addr == p)

/-- What a read through a dangling pointer yields in the model. -/
def null_source : poll_source :=
  { addr := 0, fd := 0, user := 0, handle := 0, fp_read := 0, fp_write := 0,
    fp_cleanup := 0, removed := 0 }

/-- The function pointer stored in a slot of a node. -/
def poll_source.fp (n : poll_source) : Slot → Nat
  | .read => n.fp_read
  | .write => n.fp_write
  | .close => n.fp_cleanup

/-- The call `current->fp_xxx(current->user)`, `p` being `current`. -/
def invoke (w : World) (s : State) (p : Nat) (slot : Slot) : State × Int :=
  let node := (deref s p).getD null_source
  let fp := node.fp slot
  let s0 : State :=
    { s with clock := s.clock + 1,
             fault := s.fault || (deref s p).isNone || fp == NULL }
  let (s1, r) := run_callback w (w.callback s.clock fp node.user) s0
  ({ s1 with trace := s1.trace ++ [Event.call p slot fp node.user r] }, r)

/-- The call `rawinput_callback()`. -/
def invoke_rawinput (w : World) (s : State) : State × Int :=
  let fp := s.rawinput_callback
  let s0 : State := { s with clock := s.clock + 1, fault := s.fault || fp == NULL }
  let (s1, r) := run_callback w (w.rawinput s.clock fp) s0
  ({ s1 with trace := s1.trace ++ [Event.rawinput fp r] }, r)

/-- `GLIST_BEGIN(sources)`: the first node, `none` standing for
`GLIST_END(sources)`. -/
def GLIST_BEGIN (sources : List poll_source) : Option Nat :=
  sources.head?.map fun n => n.addr

/-- The pointer `current->next` of the node at `p`, `none` standing for
`GLIST_END(sources)`. -/
def GLIST_NEXT : List poll_source → Nat → Option Nat
  | [], _ => none
  | n :: rest, p => if n.addr = p then GLIST_BEGIN rest else GLIST_NEXT rest p

/-- The local variables of `gpoll` that live across turns of the loop. -/
structure Locals where
  done : Nat
  rawinput_processed : Nat
deriving DecidableEq, Repr

/-- Lines 238-249 of the body of the `for` loop of `gpoll`, for the node
`current` at address `p`: the object that won the wait is taken as signaled,
any other is probed.  The boolean tells whether the body goes on (no
`continue`). -/
def gpoll_probe (w : World) (result : Nat) (handles : List Int) (p : Nat)
    (current : poll_source) (s : State) : State × Bool :=
  if result ≥ handles.length ∨ some current.handle ≠ handles.get? result then
    let lresult := w.WaitForSingleObject s.clock current.handle
    let s1 : State :=
      { s with clock := s.clock + 1, trace := s.trace ++ [Event.probe p lresult] }
    if lresult = WAIT_FAILED then (s1, false)
    else if lresult ≠ WAIT_OBJECT_0 then (s1, false)
    else (s1, true)
  else (s, true)

/-- Lines 251-269 of the body of the `for` loop of `gpoll`: a network source. -/
def gpoll_network (w : World) (p : Nat) (current : poll_source) (s : State) (done : Nat) :
    State × Nat :=
  let answer := w.WSAEnumNetworkEvents s.clock current.fd current.handle
  let s1 : State := { s with clock := s.clock + 1 }
  if answer.1 ≠ 0 then ((invoke w s1 p Slot.close).1, done)
  else if answer.2.1 &&& FD_READ ≠ 0 then
    if answer.2.2 ≠ 0 then ((invoke w s1 p Slot.close).1, done)
    else
      let (s2, r) := invoke w s1 p Slot.read
      (s2, if r ≠ 0 then 1 else done)
  else (s1, done)

/-- Lines 271-283 of the body of the `for` loop of `gpoll`: any other source
(timers, COM port, HID...). -/
def gpoll_other (w : World) (p : Nat) (current : poll_source) (s : State) (done : Nat) :
    State × Nat :=
  let (s1, done1) :=
    if current.fp_read ≠ NULL then
      let (s1, r) := invoke w s p Slot.read
      (s1, if r ≠ 0 then 1 else done)
    else (s, done)
  if current.fp_write ≠ NULL then
    let (s2, r) := invoke w s1 p Slot.write
    (s2, if r ≠ 0 then 1 else done1)
  else (s1, done1)

/-- The body of the `for` loop of `gpoll`, lines 235-284, for the node at
`p`; `handles` is the snapshot of the turn, `result` the result of the wait. -/
def gpoll_body (w : World) (result : Nat) (handles : List Int) (p : Nat)
    (s : State) (done : Nat) : State × Nat :=
  let current := (deref s p).getD null_source
  let s0 : State := { s with fault := s.fault || (deref s p).isNone }
  if current.fp_read = NULL ∧ current.fp_write = NULL then (s0, done)
  else
    let probed := gpoll_probe w result handles p current s0
    if probed.2 = false then (probed.1, done)
    else if current.fd ≥ 0 then gpoll_network w p current probed.1 done
    else gpoll_other w p current probed.1 done

/-- The `for` loop of `gpoll`, lines 232-285, from the node `current` on and
cut off after `fuel` nodes.  The pointer returned is the value of `current`
when the loop stopped: `none`, that is `GLIST_END(sources)`, unless the fuel
ran out. -/
def gpoll_walk (w : World) (result : Nat) (handles : List Int) :
    Nat → Option Nat → State → Nat → State × Nat × Option Nat
  | _, none, s, done => (s, done, none)
  | 0, some p, s, done => (s, done, some p)
  | fuel + 1, some p, s, done =>
    let (s1, done1) := gpoll_body w result handles p s done
    gpoll_walk w result handles fuel (GLIST_NEXT s1.sources p) s1 done1

/-- The number of registrations that can still succeed: increments of
`nb_sources` until it equals `MAX_SOURCES`. -/
def headroom (nb_sources : Nat) : Nat :=
  (MAX_SOURCES + 2 ^ 32 - nb_sources % 2 ^ 32) % 2 ^ 32

/-- A number of nodes the `for` loop of `gpoll` cannot exceed: those linked
now and those that callbacks can still register. -/
def walk_fuel (s : State) : Nat := s.sources.length + headroom s.nb_sources

/-- The first part of a turn of the `do ... while (!done)` loop of `gpoll`,
lines 203-230: snapshot, wait, raw input.  The result is `none` when the wait
failed, and otherwise the state, the locals, the result of the wait and the
snapshot. -/
def gpoll_wait (w : World) (s : State) (l : Locals) :
    Option (State × Locals × Nat × List Int) :=
  let handles := fill_handles s.nb_sources s.sources
  let dwWakeMask := if s.rawinput_callback ≠ NULL then QS_RAWINPUT else 0
  let result := w.MsgWaitForMultipleObjects s.clock handles dwWakeMask
  let s1 : State := { s with clock := s.clock + 1 }
  if result = WAIT_FAILED then none
  else if s1.rawinput_callback ≠ NULL then
    let status := w.GetQueueStatus s1.clock
    let s2 : State := { s1 with clock := s1.clock + 1 }
    if status ≠ 0 then
      let (s3, r) := invoke_rawinput w s2
      some (s3, { l with rawinput_processed := 1, done := if r ≠ 0 then 1 else l.done },
            result, handles)
    else some (s2, l, result, handles)
  else some (s1, l, result, handles)

/-- One turn of the `do ... while (!done)` loop of `gpoll`, lines 203-289. -/
def gpoll_iteration (w : World) (s : State) (l : Locals) : State × Locals :=
  match gpoll_wait w s l with
  | none => ({ s with clock := s.clock + 1 }, l)
  | some (s1, l1, result, handles) =>
    let (s2, done, _) :=
      gpoll_walk w result handles (walk_fuel s1) (GLIST_BEGIN s1.sources) s1 l1.done
    (gpoll_remove_deferred s2, { l1 with done := done })

/-- The `do ... while (!done)` loop, cut off after `fuel` turns: `none` when the
loop is still running then. -/
def gpoll_loop (w : World) : Nat → State → Locals → Option (State × Locals)
  | 0, _, _ => none
  | fuel + 1, s, l =>
    let (s1, l1) := gpoll_iteration w s l
    if l1.done = 0 then gpoll_loop w fuel s1 l1 else some (s1, l1)

/-- `gpoll`, lines 194-305. -/
def gpoll (w : World) (fuel : Nat) (s : State) : Option State :=
  match gpoll_loop w fuel { s with polling := 1 } { done := 0, rawinput_processed := 0 } with
  | none => none
  | some (s1, l1) =>
    let s2 :=
      if l1.rawinput_processed = 0 ∧ s1.rawinput_callback ≠ NULL then (invoke_rawinput w s1).1
      else s1
    some { s2 with polling := 0 }

end Windows

/-! ## Vocabulary of the statements -/

namespace Posix

/-- Successive `gpoll_register_fd` calls, one per triple of fd, user pointer
and callbacks; the result is the final state and the list of return values. -/
def register_all (w : World) : List (Int × Nat × GPOLL_CALLBACKS) → State → State × List Int
  | [], s => (s, [])
  | (fd, user, callbacks) :: rest, s =>
    let (s1, r) := gpoll_register_fd w s fd user callbacks
    let (s2, rs) := register_all w rest s1
    (s2, r :: rs)

/-- Successive `gpoll_remove_fd` calls, one per fd; the result is the final
state and the list of return values. -/
def remove_all : List Int → State → State × List Int
  | [], s => (s, [])
  | fd :: rest, s =>
    let (s1, r) := gpoll_remove_fd s fd
    let (s2, rs) := remove_all rest s1
    (s2, r :: rs)

/-- The fds of the registry, in list order. -/
def State.fds (s : State) : List Int := s.sources.map fun n => n.fd

/-- The addresses of the nodes of the registry, in list order. -/
def State.addrs (s : State) : List Nat := s.sources.map fun n => n.addr

/-- The counter `nb_sources` agrees with the number of linked nodes. -/
def State.counted (s : State) : Prop := s.nb_sources = s.sources.length % 2 ^ 32


/-- The callback invocation an entry of the log records, if it records one:
the node, the slot and the value returned. -/
def Event.call? : Event → Option (Nat × Slot × Int)
  | .call source slot _ _ ret => some (source, slot, ret)
  | .register_fd _ _ => none
  | .remove_fd _ _ => none

/-- The callback invocations recorded in a piece of the log, in order. -/
def calls (evs : List Event) : List (Nat × Slot × Int) := evs.filterMap Event.call?

/-- The invocations that the readiness bits of a snapshot without error bits
ask for: for each entry in order the read callback if `POLLIN` is set, then the
write callback if `POLLOUT` is set. -/
def planned : List (pollfd × Nat) → List (Nat × Slot)
  | [] => []
  | (pfd, p) :: rest =>
    (if has_in pfd.revents then [(p, Slot.read)] else []) ++
      ((if has_out pfd.revents then [(p, Slot.write)] else []) ++ planned rest)

/-- The node `b` is the node `a`, possibly tombstoned since. -/
def poll_source.later (a b : poll_source) : Prop := b = a ∨ b = { a with removed := 1 }

/-- The list `l2` is the list `l1` after registrations and tombstoning
removals: the nodes of `l1` are in place, possibly tombstoned, and new nodes
may follow. -/
def Grows : List poll_source → List poll_source → Prop
  | [], _ => True
  | _ :: _, [] => False
  | a :: l1, b :: l2 => a.later b ∧ Grows l1 l2

/-- The nodes of the registry have pairwise distinct addresses, all handed
out by `calloc` already. -/
def State.wf (s : State) : Prop := s.addrs.Nodup ∧ ∀ n ∈ s.sources, n.addr ≤ s.clock

/-- The state `s2` comes after `s1` within one run of the loop: same
`polling`, the registry grown, the clock not turned back, distinct addresses
kept distinct. -/
def Keeps (s1 s2 : State) : Prop :=
  s2.polling = s1.polling ∧ Grows s1.sources s2.sources ∧ s1.clock ≤ s2.clock ∧
    (s1.wf → s2.wf)

/-- The node at address `p` is linked and tombstoned. -/
def State.flagged (s : State) (p : Nat) : Prop :=
  ∃ n ∈ s.sources, n.addr = p ∧ n.removed ≠ 0

/-- The entries logged between the state `s1` and the later state `s2`. -/
def State.since (s2 s1 : State) : List Event := s2.trace.drop s1.trace.length

/-- The invocations `cs` carry out the plan `pl` in order, up to and including
the first one that returned non-zero, `brk` telling whether there was one:
without a stop the whole plan was invoked and every call returned 0; with a
stop the calls are an initial part of the plan, the last call returned non-zero
and the calls before it returned 0. -/
def Runs (cs : List (Nat × Slot × Int)) (pl : List (Nat × Slot)) (brk : Bool) : Prop :=
  (brk = false ∧ cs.map (fun c => (c.1, c.2.1)) = pl ∧ ∀ c ∈ cs, c.2.2 = 0) ∨
  (brk = true ∧ ∃ before last rest, cs = before ++ [last] ∧ last.2.2 ≠ 0 ∧
    (∀ c ∈ before, c.2.2 = 0) ∧ cs.map (fun c => (c.1, c.2.1)) ++ rest = pl)


/-- The fds of the entries of a snapshot that carry an error bit: the fds the
loop itself passes to `gpoll_remove_fd`. -/
def error_fds (snap : List (pollfd × Nat)) : List Int :=
  (snap.filter fun e => has_error e.1.revents).map fun e => e.1.fd

/-- A stretch of one turn of the loop, from `s1` to `s2`, during which the loop
called only through nodes at the addresses `A` and itself removed only fds of
`F`: the log was extended; every invocation logged went through a node of `A`;
while polling the registry only grew; and a node whose fd is outside `F` and
was not removed from inside a callback is still linked, untouched. -/
def Step (A : List Nat) (F : List Int) (s1 s2 : State) : Prop :=
  (∃ evs, s2.trace = s1.trace ++ evs) ∧
  (∀ c ∈ calls (s2.since s1), c.1 ∈ A) ∧
  (s1.polling ≠ 0 → Keeps s1 s2) ∧
  (∀ n ∈ s1.sources, n.fd ∉ F → (∀ x, Event.remove_fd n.fd x ∉ s2.since s1) →
    n ∈ s2.sources)


/-- The answer of `poll` in the turn of the loop that starts in state `s`. -/
def poll_answer (w : World) (s : State) : Int × List Nat :=
  w.poll s.clock ((fill_fds s.nb_sources s.sources).map Prod.fst)

/-- The snapshot of the turn of the loop that starts in state `s`, with the
`revents` that `poll` stored. -/
def wake (w : World) (s : State) : List (pollfd × Nat) :=
  store_revents (fill_fds s.nb_sources s.sources) (poll_answer w s).2

/-- The state in which the `for` loop of the turn that starts in `s` begins. -/
def State.polled (s : State) : State := { s with clock := s.clock + 1 }


/-- The callback that the readiness bits of an entry ask for first: close on
an error bit, otherwise read on `POLLIN`, otherwise write on `POLLOUT`. -/
def first_slot (revents : Nat) : Option Slot :=
  if has_error revents then some Slot.close
  else if has_in revents then some Slot.read
  else if has_out revents then some Slot.write
  else none

end Posix

namespace Windows

/-- The fds of the registry, in list order. -/
def State.fds (s : State) : List Int := s.sources.map fun n => n.fd

/-- The addresses of the nodes of the registry, in list order. -/
def State.addrs (s : State) : List Nat := s.sources.map fun n => n.addr

/-- The entries logged between the state `s1` and the later state `s2`. -/
def State.since (s2 s1 : State) : List Event := s2.trace.drop s1.trace.length

/-- What the loop did with a node: it probed its handle and got `result`, or
it called through one of its slots. -/
inductive Visit where
  | probe (result : Nat)
  | call (slot : Slot)
deriving DecidableEq, Repr

/-- The visit of a node that an entry of the log records, if it records one,
with the address of the node. -/
def Event.visit? : Event → Option (Nat × Visit)
  | .call source slot _ _ _ => some (source, Visit.call slot)
  | .probe source result => some (source, Visit.probe result)
  | .rawinput _ _ => none
  | .WSACloseEvent _ => none
  | .register_fd _ _ => none
  | .register_handle _ _ => none
  | .remove_fd _ _ => none
  | .remove_handle _ _ => none
  | .set_rawinput_callback _ => none

/-- The visits recorded in a piece of the log, in order. -/
def visits (evs : List Event) : List (Nat × Visit) := evs.filterMap Event.visit?

/-- The calls due to a handle-only source that is ready: its read callback if
it has one, then its write callback if it has one. -/
def callbacks_of (c : poll_source) : List Visit :=
  (if c.fp_read ≠ NULL then [Visit.call Slot.read] else []) ++
    (if c.fp_write ≠ NULL then [Visit.call Slot.write] else [])

/-- The node holds the winning object `handles[result]` of the wait. -/
def Winner (result : Nat) (handles : List Int) (c : poll_source) : Prop :=
  result < handles.length ∧ handles.get? result = some c.handle

/-- What starvation avoidance promises a handle-only source (fd < 0) with at
least one of its read and write callbacks, the visits `blk` being those the
loop paid to it in one turn: if it holds the winning object it was not probed
and each of its callbacks was called once, read before write; otherwise it was
probed once, and each of its callbacks was called once after the probe if the
probe returned `WAIT_OBJECT_0`, and none was called if it returned anything
else. -/
def Served (result : Nat) (handles : List Int) (c : poll_source) (blk : List Visit) : Prop :=
  c.fd < 0 → ¬ (c.fp_read = NULL ∧ c.fp_write = NULL) →
    (Winner result handles c → blk = callbacks_of c) ∧
    (¬ Winner result handles c →
      ∃ r, blk = Visit.probe r :: (if r = WAIT_OBJECT_0 then callbacks_of c else []))

/-- The visits of a turn, given node by node: each node's visits tagged with
its address, the nodes in order. -/
def log_of : List (poll_source × List Visit) → List (Nat × Visit)
  | [] => []
  | (c, blk) :: rest => blk.map (fun v => (c.addr, v)) ++ log_of rest

/-- The node `b` is the node `a`, possibly tombstoned since. -/
def poll_source.later (a b : poll_source) : Prop := b = a ∨ b = { a with removed := 1 }

/-- The list `l2` is the list `l1` after registrations and tombstoning
removals: the nodes of `l1` are in place, possibly tombstoned, and new nodes
may follow. -/
def Grows : List poll_source → List poll_source → Prop
  | [], _ => True
  | _ :: _, [] => False
  | a :: l1, b :: l2 => a.later b ∧ Grows l1 l2

/-- The nodes of the registry have pairwise distinct addresses, all handed
out by `calloc` already, and `nb_sources` is an `unsigned int`. -/
def State.wf (s : State) : Prop :=
  s.addrs.Nodup ∧ (∀ n ∈ s.sources, n.addr ≤ s.clock) ∧ s.nb_sources < 2 ^ 32

/-- The state `s2` comes after `s1` within one run of the loop: same
`polling`, the registry grown, the clock not turned back, well-formedness
kept, and no more room for nodes than before. -/
def Keeps (s1 s2 : State) : Prop :=
  s2.polling = s1.polling ∧ Grows s1.sources s2.sources ∧ s1.clock ≤ s2.clock ∧
    (s1.wf → s2.wf ∧ walk_fuel s2 ≤ walk_fuel s1)

/-- A stretch of one turn of the loop, from `s1` to `s2`, spent on the node
at address `p`: the log was extended, the registry only grew, and the visits
logged are the visits `blk`, all of that node. -/
def Stretch (p : Nat) (s1 s2 : State) (blk : List Visit) : Prop :=
  (∃ evs, s2.trace = s1.trace ++ evs) ∧ Keeps s1 s2 ∧
    visits (s2.since s1) = blk.map fun v => (p, v)

/-- The state after the `for` loop of the turn, the value of `done` and the
final value of `current`, the turn having passed the wait in state `s1` with
`done`, the wait result and the snapshot given. -/
def walked (w : World) (s1 : State) (done : Nat) (result : Nat) (handles : List Int) :
    State × Nat × Option Nat :=
  gpoll_walk w result handles (walk_fuel s1) (GLIST_BEGIN s1.sources) s1 done

end Windows

namespace Posix

/-- No source of the registry is tombstoned. -/
def State.clean (s : State) : Prop := ∀ n ∈ s.sources, n.removed = 0

/-- The state after `n` turns of the `while (1)` loop of `gpoll` (whether or
not one of them would have ended the loop). -/
def turns (w : World) : Nat → State → State
  | 0, s => s
  | n + 1, s => turns w n (gpoll_iteration w s).1

end Posix

namespace Posix

/-- The node `n` after `gpoll_remove_fd` was called, while polling, for each
fd of `fds`: tombstoned if its fd is among them. -/
def mark (fds : List Int) (n : poll_source) : poll_source :=
  if n.fd ∈ fds then { n with removed := 1 } else n

end Posix

namespace Posix

/-- An operation on the registry: a registration, a removal with the loop
idle (immediate), a removal with the loop polling (tombstoning), or a
deferred-removal pass. -/
inductive Op where
  | register (fd : Int) (user : Nat) (callbacks : GPOLL_CALLBACKS)
  | remove_idle (fd : Int)
  | remove_polling (fd : Int)
  | defered

/-- The state after an operation. -/
def Op.apply (w : World) (s : State) : Op → State
  | .register fd user callbacks => (gpoll_register_fd w s fd user callbacks).1
  | .remove_idle fd => (gpoll_remove_fd { s with polling := 0 } fd).1
  | .remove_polling fd => (gpoll_remove_fd { s with polling := 1 } fd).1
  | .defered => gpoll_remove_fd_defered s

/-- The state after a sequence of operations. -/
def run_ops (w : World) (ops : List Op) (s : State) : State := ops.foldl (Op.apply w) s

end Posix

namespace Windows

/-- An operation on the registry: a registration of a socket or of a handle, a
removal by fd or by handle with the loop idle (immediate) or polling
(tombstoning), or a deferred-removal pass. -/
inductive Op where
  | register_fd (fd : Int) (user : Nat) (callbacks : GPOLL_CALLBACKS)
  | register_handle (handle : Int) (user : Nat) (callbacks : GPOLL_CALLBACKS)
  | remove_fd_idle (fd : Int)
  | remove_fd_polling (fd : Int)
  | remove_handle_idle (handle : Int)
  | remove_handle_polling (handle : Int)
  | deferred

/-- The state after an operation. -/
def Op.apply (w : World) (s : State) : Op → State
  | .register_fd fd user callbacks => (gpoll_register_fd w s fd user callbacks).1
  | .register_handle handle user callbacks => (gpoll_register_handle w s handle user callbacks).1
  | .remove_fd_idle fd => (gpoll_remove_fd { s with polling := 0 } fd).1
  | .remove_fd_polling fd => (gpoll_remove_fd { s with polling := 1 } fd).1
  | .remove_handle_idle handle => (gpoll_remove_handle { s with polling := 0 } handle).1
  | .remove_handle_polling handle => (gpoll_remove_handle { s with polling := 1 } handle).1
  | .deferred => gpoll_remove_deferred s

/-- The state after a sequence of operations. -/
def run_ops (w : World) (ops : List Op) (s : State) : State := ops.foldl (Op.apply w) s

end Windows

namespace Windows

/-- The count invariant of the wait backend: the counter is the number of
linked nodes, and at most `MAX_SOURCES`. -/
def State.counted (s : State) : Prop :=
  s.nb_sources = s.sources.length ∧ s.sources.length ≤ MAX_SOURCES

end Windows

namespace Windows

/-- Whether an entry of the log records a call of the API by a callback or a
`WSACloseEvent`, as opposed to something the loop did itself (a call through a
slot, a probe, a call of the raw-input callback). -/
def Event.api : Event → Bool
  | .call _ _ _ _ _ => false
  | .probe _ _ => false
  | .rawinput _ _ => false
  | .WSACloseEvent _ => true
  | .register_fd _ _ => true
  | .register_handle _ _ => true
  | .remove_fd _ _ => true
  | .remove_handle _ _ => true
  | .set_rawinput_callback _ => true

/-- The call of the raw-input callback that an entry of the log records, if it
records one: the function pointer and the value returned. -/
def Event.rawinput? : Event → Option (Nat × Int)
  | .call _ _ _ _ _ => none
  | .probe _ _ => none
  | .rawinput fp ret => some (fp, ret)
  | .WSACloseEvent _ => none
  | .register_fd _ _ => none
  | .register_handle _ _ => none
  | .remove_fd _ _ => none
  | .remove_handle _ _ => none
  | .set_rawinput_callback _ => none

/-- The calls of the raw-input callback recorded in a piece of the log, in
order. -/
def rawinputs (evs : List Event) : List (Nat × Int) := evs.filterMap Event.rawinput?

/-- From the state `s1` to the state `s2` the log was extended, by entries
that all satisfy `P`. -/
def Logs (P : Event → Prop) (s1 s2 : State) : Prop :=
  ∃ evs, s2.trace = s1.trace ++ evs ∧ ∀ e ∈ evs, P e

/-- The entry does not record a call of the raw-input callback. -/
def Event.unserviced (e : Event) : Prop := e.rawinput? = none

/-- The locals of `gpoll` when the loop is entered, lines 199-200. -/
def Locals.init : Locals := { done := 0, rawinput_processed := 0 }

end Windows

namespace Windows

/-- Whether an entry of the log records a stop signal: a read or a write
callback of a source, or the raw-input callback, that returned non-zero (the
value a close callback returns is not looked at). -/
def Event.stop : Event → Bool
  | .call _ slot _ _ ret => slot != Slot.close && ret != 0
  | .probe _ _ => false
  | .rawinput _ ret => ret != 0
  | .WSACloseEvent _ => false
  | .register_fd _ _ => false
  | .register_handle _ _ => false
  | .remove_fd _ _ => false
  | .remove_handle _ _ => false
  | .set_rawinput_callback _ => false

/-- From the state `s1` with `done` at `d1` to the state `s2` with `done` at
`d2` the log was extended, and `done` is set at the end if it was set at the
start or a stop signal was logged in between. -/
def Sticks (s1 : State) (d1 : Nat) (s2 : State) (d2 : Nat) : Prop :=
  ∃ evs, s2.trace = s1.trace ++ evs ∧ ((d1 ≠ 0 ∨ ∃ e ∈ evs, e.stop = true) → d2 ≠ 0)

end Windows

namespace Posix

/-- What registration guarantees of a node: its close callback is not null,
and it has the callback of each event of its interest mask. -/
def poll_source.sound (n : poll_source) : Prop :=
  n.fp_close ≠ NULL ∧ (has_in n.events = true → n.fp_read ≠ NULL) ∧
    (has_out n.events = true → n.fp_write ≠ NULL)

/-- Every linked node is as registration leaves it. -/
def State.sound (s : State) : Prop := ∀ n ∈ s.sources, n.sound

/-- The function pointer called, if the entry of the log records a call. -/
def Event.fp? : Event → Option Nat
  | .call _ _ fp _ _ => some fp
  | .register_fd _ _ => none
  | .remove_fd _ _ => none

/-- Nothing went wrong so far: the nodes have distinct addresses and are as
registration leaves them, no call went through a pointer to a node that was
not linked or through a null function pointer (the ghost flag `fault` is
down), and no call in the log went through a null function pointer. -/
def State.safe (s : State) : Prop :=
  s.wf ∧ s.sound ∧ s.fault = false ∧ ∀ e ∈ s.trace, e.fp? ≠ some NULL

/-- The readiness bits `poll` reported for an entry are among the bits of its
interest mask and `POLLERR`, `POLLHUP`, `POLLNVAL`. -/
def pollfd.within_mask (pfd : pollfd) : Prop :=
  pfd.revents &&& (pfd.events ||| (POLLERR ||| POLLHUP ||| POLLNVAL)) = pfd.revents

end Posix

/-! ## Scenarios -/

namespace Scenario

/-- Callbacks of a source that is read and closed. -/
def read_close : GPOLL_CALLBACKS := { fp_read := 1, fp_write := NULL, fp_close := 9 }

/-- Callbacks of a second source that is read and closed. -/
def read_close2 : GPOLL_CALLBACKS := { fp_read := 2, fp_write := NULL, fp_close := 9 }

/-- Callbacks of a source that is written and closed. -/
def write_close : GPOLL_CALLBACKS := { fp_read := NULL, fp_write := 3, fp_close := 9 }

/-- Callbacks without a close callback. -/
def read_only : GPOLL_CALLBACKS := { fp_read := 1, fp_write := NULL, fp_close := NULL }

/-- A world of the polling backend where allocation succeeds, callbacks return
0 and `poll` reports nothing. -/
def quiet : Posix.World :=
  { calloc_fails := fun _ => false
    callback := fun _ _ _ => .ret 0
    poll := fun _ _ => (0, []) }

/-- A world of the wait backend where every system call succeeds, nothing is
signaled (`WAIT_TIMEOUT`) and callbacks return 0. -/
def calm : Windows.World :=
  { calloc_fails := fun _ => false
    CreateEvent := fun c => 1000 + c
    WSAEventSelect := fun _ _ _ => 0
    MsgWaitForMultipleObjects := fun _ _ _ => 0x102
    GetQueueStatus := fun _ => 0
    WaitForSingleObject := fun _ _ => 0x102
    WSAEnumNetworkEvents := fun _ _ _ => (0, 0, 0)
    callback := fun _ _ _ => .ret 0
    rawinput := fun _ _ => .ret 0 }

/-- The wait backend after `gpoll_register_handle(7, 20, read_close)`. -/
def one_handle : Windows.State :=
  (Windows.gpoll_register_handle calm Windows.State.init 7 20 read_close).1

/-- Three registrations, two of them of the same fd. -/
def three_regs : List (Int × Nat × GPOLL_CALLBACKS) :=
  [(3, 10, read_close), (4, 20, write_close), (3, 30, read_close2)]

/-- The polling backend after registering A (fd 3, read and close) and then B
(fd 4, write and close); A is the node at address 1, B the node at address 2. -/
def a_then_b : Posix.State :=
  (Posix.register_all quiet [(3, 10, read_close), (4, 20, write_close)] Posix.State.init).1

/-- A world of the polling backend where every wake reports `POLLIN` on the
first entry only, and the read callback of A returns 0 the first time it is
called (at clock 3) and 1 afterwards; other callbacks return 0. -/
def read_twice : Posix.World :=
  { calloc_fails := fun _ => false
    callback := fun clock fp _ => if fp = 1 ∧ 3 < clock then .ret 1 else .ret 0
    poll := fun _ _ => (1, [Posix.POLLIN, 0]) }

/-- The polling backend, polling, with A (fd 3, read and close, at address 1)
and B (fd 4, read and close, at address 2) registered. -/
def two_readers : Posix.State :=
  { (Posix.register_all quiet [(3, 10, read_close), (4, 20, read_close2)]
      Posix.State.init).1 with polling := 1 }

/-- A world of the polling backend where the wake reports `POLLIN` on both
entries and the read callback of A calls `gpoll_remove_fd(4)` and returns 0;
other callbacks return 0. -/
def remover : Posix.World :=
  { calloc_fails := fun _ => false
    callback := fun _ fp _ => if fp = 1 then .remove_fd 4 (fun _ => .ret 0) else .ret 0
    poll := fun _ _ => (2, [Posix.POLLIN, Posix.POLLIN]) }

/-- The polling backend, polling, with two sources registered on the same
fd 5: A at address 1 and B at address 2, both read and close. -/
def same_fd_twice : Posix.State :=
  { (Posix.register_all quiet [(5, 10, read_close), (5, 20, read_close2)]
      Posix.State.init).1 with polling := 1 }

/-- A world of the polling backend where the wake reports `POLLHUP` on the
second entry and nothing on the first, and callbacks return 0. -/
def hangup_second : Posix.World :=
  { calloc_fails := fun _ => false
    callback := fun _ _ _ => .ret 0
    poll := fun _ _ => (1, [0, Posix.POLLHUP]) }

/-- The polling backend, polling, with A (fd 3, read and close, at address 1)
and B (fd 4, write and close, at address 2) registered. -/
def polling_a_b : Posix.State := { a_then_b with polling := 1 }

/-- The wait backend, polling, with two handle-only sources: the first on
handle 7 with a read callback, the second on handle 8 with a write callback,
at addresses 1 and 2. -/
def two_handles : Windows.State :=
  { (Windows.gpoll_register_handle calm
      (Windows.gpoll_register_handle calm Windows.State.init 7 10 read_close).1
      8 20 write_close).1 with polling := 1 }

/-- A world of the wait backend where the wait reports object 0 as the winner
and the probe finds every handle signaled; callbacks return 0. -/
def both_signaled : Windows.World :=
  { calm with
    MsgWaitForMultipleObjects := fun _ _ _ => 0
    WaitForSingleObject := fun _ _ => Windows.WAIT_OBJECT_0 }

/-- The state `two_handles` after the wait of the turn. -/
def two_handles_waited : Windows.State := { two_handles with clock := 3 }

/-- The wait backend with `nb_sources` at `MAX_SOURCES` (the list itself is
left out, the registration functions read the counter only). -/
def full_house : Windows.State := { Windows.State.init with nb_sources := 63 }

/-- The wait backend, polling, with one socket source registered through
`gpoll_register_fd(3, 10, read_close)`: the node at address 1, with the event
handle 1001. -/
def one_socket : Windows.State :=
  { (Windows.gpoll_register_fd calm Windows.State.init 3 10 read_close).1 with polling := 1 }

/-- A world of the wait backend where the wait reports object 0 as the winner
and the network-event query reports `FD_READ` with error code 10054 for the
read bit; callbacks return 0 and call nothing. -/
def read_error : Windows.World :=
  { calm with
    MsgWaitForMultipleObjects := fun _ _ _ => 0
    WSAEnumNetworkEvents := fun _ _ _ => (0, Windows.FD_READ, 10054) }

/-- A world of the wait backend where the wait reports object 0 as the winner
and the network-event query itself fails; callbacks return 0 and call
nothing. -/
def query_fails : Windows.World :=
  { calm with
    MsgWaitForMultipleObjects := fun _ _ _ => 0
    WSAEnumNetworkEvents := fun _ _ _ => (-1, 0, 0) }

/-- The wait backend after `gpoll_register_handle(7, 20, read_close)` and
`gpoll_set_rawinput_callback(5)`. -/
def raw_and_handle : Windows.State := Windows.gpoll_set_rawinput_callback one_handle 5

/-- A world of the wait backend where raw input is pending in the first turn
only (`GetQueueStatus` at clock 2): the first wait returns `WAIT_OBJECT_0 +
count` (a message) and the later ones `WAIT_OBJECT_0` (the first handle), the
probes time out, the raw-input callback returns 0 and the callbacks of the
sources return 1. -/
def raw_once : Windows.World :=
  { calm with
    MsgWaitForMultipleObjects := fun c _ _ => if c = 1 then 1 else 0
    GetQueueStatus := fun c => if c = 2 then 1 else 0
    callback := fun _ _ _ => .ret 1 }

/-- The first turn of the loop of `gpoll` on `raw_and_handle` in the world
`raw_once`. -/
def raw_turn1 : Windows.State × Windows.Locals :=
  Windows.gpoll_iteration raw_once { raw_and_handle with polling := 1 } Windows.Locals.init

/-- The second turn of the loop of `gpoll` on `raw_and_handle` in the world
`raw_once`. -/
def raw_turn2 : Windows.State × Windows.Locals :=
  Windows.gpoll_iteration raw_once raw_turn1.1 raw_turn1.2

/-- A world of the wait backend where raw input is never pending: every wait
returns `WAIT_OBJECT_0` (the first handle) and the callbacks of the sources
return 1. -/
def raw_never : Windows.World :=
  { calm with
    MsgWaitForMultipleObjects := fun _ _ _ => 0
    callback := fun _ _ _ => .ret 1 }

/-- The only turn of the loop of `gpoll` on `raw_and_handle` in the world
`raw_never`. -/
def raw_never_turn : Windows.State × Windows.Locals :=
  Windows.gpoll_iteration raw_never { raw_and_handle with polling := 1 } Windows.Locals.init

/-- Callbacks of a source registered late: read and close. -/
def late_callbacks : GPOLL_CALLBACKS := { fp_read := 4, fp_write := NULL, fp_close := 9 }

/-- The wait backend after `gpoll_register_handle(7, 10, read_close)` and
`gpoll_register_handle(8, 20, read_close2)`. -/
def stopper_and_host : Windows.State :=
  (Windows.gpoll_register_handle calm
    (Windows.gpoll_register_handle calm Windows.State.init 7 10 read_close).1
    8 20 read_close2).1

/-- A world of the wait backend where the wait reports object 0 as the winner
and the probe finds every handle signaled; the read callback 1 returns 1 (the
stop signal), the read callback 2 calls
`gpoll_register_handle(9, 30, late_callbacks)` and returns 0, and every other
callback returns 0. -/
def late_guest : Windows.World :=
  { both_signaled with
    callback := fun _ fp _ =>
      if fp = 1 then .ret 1
      else if fp = 2 then .register_handle 9 30 late_callbacks (fun _ => .ret 0)
      else .ret 0 }

/-- The only turn of the loop of `gpoll` on `stopper_and_host` in the world
`late_guest`. -/
def late_turn : Windows.State × Windows.Locals :=
  Windows.gpoll_iteration late_guest { stopper_and_host with polling := 1 } Windows.Locals.init

/-- The state `stopper_and_host`, polling, after the wait of the turn. -/
def late_waited : Windows.State := { stopper_and_host with polling := 1, clock := 3 }

/-- The source that the read callback 2 registers in the world `late_guest`. -/
def guest : Windows.poll_source :=
  { addr := 7, fd := -1, user := 30, handle := 9, fp_read := 4, fp_write := NULL,
    fp_cleanup := 9, removed := 0 }

/-- A world of the polling backend where allocation succeeds, `poll` reports
every entry ready for exactly the events of its interest mask, and callbacks
return 1. -/
def eager : Posix.World :=
  { calloc_fails := fun _ => false
    callback := fun _ _ _ => .ret 1
    poll := fun _ fds => (1, fds.map fun f => f.events) }

/-- The polling backend after `gpoll` ran, in the world `eager`, on the
registry of `gpoll_register_fd(3, 10, read_close)`. -/
def eager_done : Posix.State :=
  { sources := [{ addr := 1, fd := 3, user := 10, fp_read := 1, fp_write := NULL,
                  fp_close := 9, events := Posix.POLLIN, removed := 0 }],
    nb_sources := 1, polling := 0, clock := 3, fault := false,
    trace := [Posix.Event.call 1 Slot.read 1 10 1] }

end Scenario

/-! ## Theorems: registration and removal -/

/-- C5 (both backends): `gpoll_register_fd`, and `gpoll_register_handle` on the
wait backend, return -1 and leave the whole state as it was when the callback
set has no close callback or has neither a read nor a write callback. -/
theorem missing_callback_rejected (cbs : GPOLL_CALLBACKS)
    (h : cbs.fp_close = NULL ∨ (cbs.fp_read = NULL ∧ cbs.fp_write = NULL)) :
    (∀ (w : Posix.World) (s : Posix.State) (fd : Int) (user : Nat),
      Posix.gpoll_register_fd w s fd user cbs = (s, -1)) ∧
    (∀ (w : Windows.World) (s : Windows.State) (fd : Int) (user : Nat),
      Windows.gpoll_register_fd w s fd user cbs = (s, -1)) ∧
    (∀ (w : Windows.World) (s : Windows.State) (handle : Int) (user : Nat),
      Windows.gpoll_register_handle w s handle user cbs = (s, -1)) := by
  refine ⟨?_, ?_, ?_⟩
  · intro w s fd user
    unfold Posix.gpoll_register_fd
    rcases h with h | ⟨h1, h2⟩
    · simp [h]
    · simp [h1, h2]
  · intro w s fd user
    unfold Windows.gpoll_register_fd
    rcases h with h | ⟨h1, _⟩
    · simp [h]
    · simp [h1]
  · intro w s handle user
    unfold Windows.gpoll_register_handle
    rcases h with h | ⟨h1, h2⟩
    · simp [h]
    · simp [h1, h2]

/-- C5 at concrete inputs: a bundle without close callback is refused by the
three registration functions. -/
theorem missing_callback_rejected_witness :
    (Scenario.read_only.fp_close = NULL ∨
      (Scenario.read_only.fp_read = NULL ∧ Scenario.read_only.fp_write = NULL)) ∧
    Posix.gpoll_register_fd Scenario.quiet Posix.State.init 3 10 Scenario.read_only
      = (Posix.State.init, -1) ∧
    Windows.gpoll_register_fd Scenario.calm Scenario.one_handle 3 10 Scenario.read_only
      = (Scenario.one_handle, -1) ∧
    Windows.gpoll_register_handle Scenario.calm Scenario.one_handle 8 10 Scenario.read_only
      = (Scenario.one_handle, -1) :=
  have h := missing_callback_rejected Scenario.read_only (Or.inl rfl)
  ⟨Or.inl rfl, h.1 _ _ _ _, h.2.1 _ _ _ _, h.2.2 _ _ _ _⟩

/-- C6 (polling backend), the code at a negative fd: `gpoll_register_fd(-1, ...)`
with a read and a close callback returns 0 and links a source whose fd is -1;
the function never examines `fd`. -/
theorem posix_register_fd_accepts_negative_fd :
    Posix.gpoll_register_fd Scenario.quiet Posix.State.init (-1) 10 Scenario.read_close
      = ({ sources := [{ addr := 1, fd := -1, user := 10, fp_read := 1, fp_write := 0,
                         fp_close := 9, events := Posix.POLLIN, removed := 0 }],
           nb_sources := 1, polling := 0, clock := 1, fault := false, trace := [] }, 0) := by
  decide

/-- C7 as stated fails (wait backend): with fd 3, an empty registry and every
system call succeeding, the bundle with a write and a close callback but no
read callback is refused with -1, whereas the bundle with a read and a close
callback is registered. -/
theorem windows_register_fd_refuses_write_only :
    Windows.gpoll_register_fd Scenario.calm Windows.State.init 3 10 Scenario.write_close
      = (Windows.State.init, -1) ∧
    (Windows.gpoll_register_fd Scenario.calm Windows.State.init 3 10 Scenario.read_close).2
      = 0 := by
  decide

/-- C7 amended (wait backend): `gpoll_register_fd` needs a close and a read
callback.  For fd >= 0, `nb_sources` different from `MAX_SOURCES`, and
allocation and event subscription succeeding, a bundle with both is registered:
the call returns 0, one source is appended (carrying fd, user, the event
handle, the read and the close callback, no write callback) and `nb_sources`
is incremented; a bundle without read callback is refused with -1 and the
state is unchanged, whatever its write callback. -/
theorem windows_register_fd_needs_read (w : Windows.World) (s : Windows.State) (fd : Int)
    (user : Nat) (cbs : GPOLL_CALLBACKS) (hfd : 0 ≤ fd) (hclose : cbs.fp_close ≠ NULL)
    (hcap : s.nb_sources ≠ Windows.MAX_SOURCES) (halloc : w.calloc_fails s.clock = false)
    (hsel : w.WSAEventSelect (s.clock + 2) fd (w.CreateEvent (s.clock + 1))
      ≠ Windows.SOCKET_ERROR) :
    (cbs.fp_read ≠ NULL →
      Windows.gpoll_register_fd w s fd user cbs
        = ({ s with
              sources := s.sources ++
                [{ addr := s.clock + 1, fd := fd, user := user,
                   handle := w.CreateEvent (s.clock + 1), fp_read := cbs.fp_read,
                   fp_write := NULL, fp_cleanup := cbs.fp_close, removed := 0 }],
              nb_sources := uinc s.nb_sources,
              clock := s.clock + 3 }, 0)) ∧
    (cbs.fp_read = NULL → Windows.gpoll_register_fd w s fd user cbs = (s, -1)) := by
  constructor
  · intro hread
    have hfd' : ¬ fd < 0 := not_lt.mpr hfd
    unfold Windows.gpoll_register_fd
    rw [if_neg hfd', if_neg hclose, if_neg hread, if_neg hcap]
    unfold Windows.calloc
    rw [halloc]
    have hsel' : w.WSAEventSelect (s.clock + 1 + 1) fd (w.CreateEvent (s.clock + 1))
      ≠ Windows.SOCKET_ERROR := hsel
    simp only [Bool.false_eq_true, if_false]
    rw [if_neg hsel']
    rfl
  · intro hread
    have hfd' : ¬ fd < 0 := not_lt.mpr hfd
    unfold Windows.gpoll_register_fd
    rw [if_neg hfd', if_neg hclose, if_pos hread]

/-- C7 amended at a concrete input: fd 3 with a read and a close callback on
the empty registry. -/
theorem windows_register_fd_needs_read_witness :
    (Windows.gpoll_register_fd Scenario.calm Windows.State.init 3 10 Scenario.read_close).2
      = 0 :=
  have h := (windows_register_fd_needs_read Scenario.calm Windows.State.init 3 10
    Scenario.read_close (by decide) (by decide) (by decide) rfl (by decide)).1 (by decide)
  by rw [h]

/-- C8 (polling backend): when no source of the registry has the given fd,
`gpoll_remove_fd` returns -1 and leaves the whole state (the list, every
`removed` flag, `nb_sources`) as it was, whether the loop is polling or not. -/
theorem posix_remove_fd_not_found (s : Posix.State) (fd : Int)
    (h : ∀ n ∈ s.sources, n.fd ≠ fd) : Posix.gpoll_remove_fd s fd = (s, -1) := by
  have hnone : s.sources.find? (fun current => fd == current.fd) = none := by
    rw [List.find?_eq_none]
    intro n hn
    simp only [beq_iff_eq]
    exact fun e => h n hn e.symm
  simp [Posix.gpoll_remove_fd, hnone]

/-- C8 at a concrete input: fd 5 is removed from a registry that holds fds 3
and 4, with the loop idle and with the loop polling. -/
theorem posix_remove_fd_not_found_witness :
    Posix.gpoll_remove_fd Scenario.a_then_b 5 = (Scenario.a_then_b, -1) ∧
    Posix.gpoll_remove_fd Scenario.polling_a_b 5 = (Scenario.polling_a_b, -1) :=
  ⟨posix_remove_fd_not_found Scenario.a_then_b 5 (by decide),
   posix_remove_fd_not_found Scenario.polling_a_b 5 (by decide)⟩

/-- C9 (wait backend), the code at fd -1: with one handle-only source
registered through `gpoll_register_handle` and no `gpoll_register_fd` call at
all, `gpoll_remove_fd(-1)` returns 0 and unlinks that source when the loop is
idle, and tombstones it when the loop is polling. -/
theorem windows_remove_fd_hits_handle_source :
    (Windows.gpoll_register_handle Scenario.calm Windows.State.init 7 20
        Scenario.read_close).2 = 0 ∧
    Scenario.one_handle.sources
      = [{ addr := 1, fd := -1, user := 20, handle := 7, fp_read := 1, fp_write := 0,
           fp_cleanup := 9, removed := 0 }] ∧
    (Windows.gpoll_remove_fd Scenario.one_handle (-1)).2 = 0 ∧
    (Windows.gpoll_remove_fd Scenario.one_handle (-1)).1.sources = [] ∧
    (Windows.gpoll_remove_fd Scenario.one_handle (-1)).1.nb_sources = 0 ∧
    (Windows.gpoll_remove_fd { Scenario.one_handle with polling := 1 } (-1)).2 = 0 ∧
    (Windows.gpoll_remove_fd { Scenario.one_handle with polling := 1 } (-1)).1.sources
      = [{ addr := 1, fd := -1, user := 20, handle := 7, fp_read := 1, fp_write := 0,
           fp_cleanup := 9, removed := 1 }] := by
  decide

/-! ## Lemmas on the registry of the polling backend -/

namespace Posix

theorem uinc_length (n : Nat) : uinc (n % 2 ^ 32) = (n + 1) % 2 ^ 32 := by
  unfold uinc; omega

theorem udec_length (n : Nat) : udec ((n + 1) % 2 ^ 32) = n % 2 ^ 32 := by
  unfold udec; omega

/-- The two outcomes of `gpoll_register_fd`: refused with the registry
untouched, or one node appended. -/
theorem register_fd_cases (w : World) (s : State) (fd : Int) (user : Nat)
    (cbs : GPOLL_CALLBACKS) :
    ((gpoll_register_fd w s fd user cbs).2 = -1 ∧
      (gpoll_register_fd w s fd user cbs).1.sources = s.sources ∧
      (gpoll_register_fd w s fd user cbs).1.nb_sources = s.nb_sources ∧
      (gpoll_register_fd w s fd user cbs).1.polling = s.polling ∧
      (gpoll_register_fd w s fd user cbs).1.trace = s.trace ∧
      (gpoll_register_fd w s fd user cbs).1.fault = s.fault ∧
      s.clock ≤ (gpoll_register_fd w s fd user cbs).1.clock) ∨
    ((gpoll_register_fd w s fd user cbs).2 = 0 ∧
      (∃ n : poll_source, n.addr = s.clock + 1 ∧ n.fd = fd ∧ n.user = user ∧
        n.fp_read = cbs.fp_read ∧ n.fp_write = cbs.fp_write ∧ n.fp_close = cbs.fp_close ∧
        n.removed = 0 ∧
        (gpoll_register_fd w s fd user cbs).1.sources = s.sources ++ [n]) ∧
      (gpoll_register_fd w s fd user cbs).1.nb_sources = uinc s.nb_sources ∧
      (gpoll_register_fd w s fd user cbs).1.polling = s.polling ∧
      (gpoll_register_fd w s fd user cbs).1.trace = s.trace ∧
      (gpoll_register_fd w s fd user cbs).1.fault = s.fault ∧
      (gpoll_register_fd w s fd user cbs).1.clock = s.clock + 1) := by
  unfold gpoll_register_fd
  by_cases h1 : cbs.fp_close = NULL
  · left; simp [h1]
  · by_cases h2 : cbs.fp_read = NULL ∧ cbs.fp_write = NULL
    · left; rw [if_neg h1, if_pos h2]; simp
    · rw [if_neg h1, if_neg h2]
      unfold calloc
      by_cases h3 : w.calloc_fails s.clock = true
      · left; simp [h3]
      · right
        simp only [h3, if_false]
        exact ⟨rfl, ⟨_, rfl, rfl, rfl, rfl, rfl, rfl, rfl, rfl⟩, rfl, rfl, rfl, rfl, rfl⟩

/-- Looking up the first node with a given fd: where it sits. -/
theorem find_fd_split (l : List poll_source) (fd : Int) (c : poll_source)
    (h : l.find? (fun n => fd == n.fd) = some c) :
    ∃ pre post, l = pre ++ c :: post ∧ c.fd = fd ∧ ∀ n ∈ pre, n.fd ≠ fd := by
  induction l with
  | nil => simp at h
  | cons x xs ih =>
    by_cases hx : fd = x.fd
    · have : c = x := by simpa [List.find?, hx] using h.symm
      subst this
      exact ⟨[], xs, rfl, hx.symm, by simp⟩
    · have h' : xs.find? (fun n => fd == n.fd) = some c := by
        rwa [List.find?_cons_of_neg _ (by simpa using hx)] at h
      obtain ⟨pre, post, e, hc, hpre⟩ := ih h'
      refine ⟨x :: pre, post, by simp [e], hc, ?_⟩
      intro n hn
      rcases List.mem_cons.mp hn with rfl | hn
      · exact fun e => hx e.symm
      · exact hpre n hn

/-- A node with the given fd is found when one is linked. -/
theorem find_fd_some (l : List poll_source) (fd : Int) (h : fd ∈ l.map fun n => n.fd) :
    ∃ c, l.find? (fun n => fd == n.fd) = some c := by
  cases hf : l.find? (fun n => fd == n.fd) with
  | some c => exact ⟨c, rfl⟩
  | none =>
    exfalso
    rw [List.find?_eq_none] at hf
    obtain ⟨n, hn, e⟩ := List.mem_map.mp h
    exact hf n hn (by simp [e])

/-- Erasing a node that no earlier node equals takes it out of its place. -/
theorem erase_at (pre post : List poll_source) (c : poll_source) (h : c ∉ pre) :
    (pre ++ c :: post).erase c = pre ++ post := by
  induction pre with
  | nil => simp
  | cons x xs ih =>
    have hx : x ≠ c := fun e => h (by simp [e])
    have hc : c ∉ xs := fun hm => h (List.mem_cons_of_mem _ hm)
    simp [List.erase_cons, hx, ih hc]

/-- Replacing a node that no earlier node equals rewrites it in its place. -/
theorem replace_at (pre post : List poll_source) (c d : poll_source) (h : c ∉ pre) :
    (pre ++ c :: post).replace c d = pre ++ d :: post := by
  induction pre with
  | nil => simp [List.replace]
  | cons x xs ih =>
    have hx : x ≠ c := fun e => h (by simp [e])
    have hc : c ∉ xs := fun hm => h (List.mem_cons_of_mem _ hm)
    have hb : (c == x) = false := by simpa using Ne.symm hx
    simp [List.replace, hb, ih hc]

/-- The outcome of `gpoll_remove_fd` when a node with the fd is linked. -/
theorem remove_fd_found (s : State) (fd : Int) (pre post : List poll_source)
    (c : poll_source) (hs : s.sources = pre ++ c :: post) (hc : c.fd = fd)
    (hpre : ∀ n ∈ pre, n.fd ≠ fd) :
    gpoll_remove_fd s fd =
      (if s.polling ≠ 0 then { s with sources := pre ++ { c with removed := 1 } :: post }
       else { s with sources := pre ++ post, nb_sources := udec s.nb_sources }, 0) := by
  have hnot : c ∉ pre := fun hm => hpre c hm hc
  have hfind : s.sources.find? (fun n => fd == n.fd) = some c := by
    rw [hs, List.find?_append]
    have : pre.find? (fun n => fd == n.fd) = none := by
      rw [List.find?_eq_none]
      intro n hn
      simp only [beq_iff_eq]
      exact fun e => hpre n hn e.symm
    simp [this, hc]
  unfold gpoll_remove_fd
  rw [hfind]
  by_cases hp : s.polling ≠ 0
  · simp only [if_pos hp, hs, replace_at pre post c _ hnot]
  · simp only [if_neg hp, gpoll_close_internal, GLIST_REMOVE, hs, erase_at pre post c hnot]

end Posix

namespace Posix

/-- Registrations that all return 0 append their fds in order and keep the
counter in step. -/
theorem register_all_fds (w : World) (regs : List (Int × Nat × GPOLL_CALLBACKS)) (s : State)
    (h : ∀ r ∈ (register_all w regs s).2, r = 0) :
    (register_all w regs s).1.fds = s.fds ++ regs.map (fun t => t.1) ∧
    (s.counted → (register_all w regs s).1.counted) ∧
    (register_all w regs s).1.polling = s.polling := by
  induction regs generalizing s with
  | nil => simp [register_all]
  | cons t rest ih =>
    obtain ⟨fd, user, cbs⟩ := t
    simp only [register_all] at h ⊢
    have h0 : (gpoll_register_fd w s fd user cbs).2 = 0 := h _ (by simp)
    have hrest : ∀ r ∈ (register_all w rest (gpoll_register_fd w s fd user cbs).1).2, r = 0 :=
      fun r hr => h r (by simp [hr])
    obtain ⟨e1, e2, e3⟩ := ih _ hrest
    rcases register_fd_cases w s fd user cbs with ⟨hm, _⟩ | ⟨_, ⟨n, _, hfd, _, _, _, _, _, hsrc⟩, hnb, hpol, _⟩
    · rw [h0] at hm; exact absurd hm (by decide)
    · refine ⟨?_, ?_, ?_⟩
      · rw [e1]; simp [State.fds, hsrc, hfd]
      · intro hc
        apply e2
        unfold State.counted at hc ⊢
        rw [hnb, hsrc, hc, uinc_length]; simp
      · rw [e3, hpol]

/-- With the loop idle, removing the fds of the registry one by one, in any
order, succeeds every time and empties the registry. -/
theorem remove_all_perm (order : List Int) (s : State) (hpol : s.polling = 0)
    (hcount : s.counted) (hperm : order.Perm s.fds) :
    (∀ r ∈ (remove_all order s).2, r = 0) ∧ (remove_all order s).1.sources = [] ∧
    (remove_all order s).1.nb_sources = 0 := by
  induction order generalizing s with
  | nil =>
    have hnil : s.sources = [] := by
      have := hperm.symm.eq_nil
      simpa [State.fds] using this
    unfold State.counted at hcount
    simp [remove_all, hnil, hcount]
  | cons fd rest ih =>
    have hmem : fd ∈ s.sources.map fun n => n.fd := hperm.subset (by simp)
    obtain ⟨c, hfind⟩ := find_fd_some s.sources fd hmem
    obtain ⟨pre, post, hs, hc, hpre⟩ := find_fd_split s.sources fd c hfind
    have hrem := remove_fd_found s fd pre post c hs hc hpre
    rw [if_neg (by simp [hpol])] at hrem
    simp only [remove_all, hrem]
    have hfds : s.fds.erase fd = (pre ++ post).map fun n => n.fd := by
      have hnot : fd ∉ pre.map fun n => n.fd := by
        intro hm
        obtain ⟨n, hn, e⟩ := List.mem_map.mp hm
        exact hpre n hn e
      simp only [State.fds, hs, List.map_append, List.map_cons, hc]
      rw [List.erase_append_right _ hnot]
      simp
    have hperm' : rest.Perm ((pre ++ post).map fun n => n.fd) := by
      rw [← hfds]
      exact (List.cons_perm_iff_perm_erase.mp hperm).2
    have hcount' : State.counted
        { s with sources := pre ++ post, nb_sources := udec s.nb_sources } := by
      unfold State.counted at hcount ⊢
      have hl : s.sources.length = (pre ++ post).length + 1 := by
        rw [hs]; simp only [List.length_append, List.length_cons]; omega
      simp only [hcount, hl, udec_length]
    obtain ⟨r1, r2, r3⟩ := ih { s with sources := pre ++ post, nb_sources := udec s.nb_sources }
      hpol hcount' hperm'
    refine ⟨?_, r2, r3⟩
    intro r hr
    rcases List.mem_cons.mp hr with rfl | hr
    · rfl
    · exact r1 r hr

end Posix

/-- C10 (polling backend, loop not running): starting from an empty registry
with `nb_sources` 0, after any number of `gpoll_register_fd` calls that all
return 0 (repeated fds allowed), calling `gpoll_remove_fd` once for each
registered fd, in any order, returns 0 every time and leaves the registry empty
and `nb_sources` 0. -/
theorem posix_register_remove_round_trip (w : Posix.World) (s : Posix.State)
    (regs : List (Int × Nat × GPOLL_CALLBACKS)) (order : List Int)
    (hempty : s.sources = []) (hnb : s.nb_sources = 0) (hidle : s.polling = 0)
    (hreg : ∀ r ∈ (Posix.register_all w regs s).2, r = 0)
    (horder : order.Perm (regs.map fun t => t.1)) :
    (∀ r ∈ (Posix.remove_all order (Posix.register_all w regs s).1).2, r = 0) ∧
    (Posix.remove_all order (Posix.register_all w regs s).1).1.sources = [] ∧
    (Posix.remove_all order (Posix.register_all w regs s).1).1.nb_sources = 0 := by
  obtain ⟨e1, e2, e3⟩ := Posix.register_all_fds w regs s hreg
  apply Posix.remove_all_perm
  · rw [e3, hidle]
  · apply e2
    simp [Posix.State.counted, hempty, hnb]
  · rw [e1]
    simpa [Posix.State.fds, hempty] using horder

/-- C10 at a concrete input: fds 3, 4, 3 are registered and then removed in the
order 3, 3, 4. -/
theorem posix_register_remove_round_trip_witness :
    (∀ r ∈ (Posix.remove_all [3, 3, 4]
        (Posix.register_all Scenario.quiet Scenario.three_regs Posix.State.init).1).2, r = 0) ∧
    (Posix.remove_all [3, 3, 4]
        (Posix.register_all Scenario.quiet Scenario.three_regs Posix.State.init).1).1.sources
      = [] ∧
    (Posix.remove_all [3, 3, 4]
        (Posix.register_all Scenario.quiet Scenario.three_regs Posix.State.init).1).1.nb_sources
      = 0 :=
  posix_register_remove_round_trip Scenario.quiet Posix.State.init Scenario.three_regs
    [3, 3, 4] rfl rfl rfl (by decide) (by decide)

namespace Posix

/-! ### The deferred-removal pass -/

theorem defered_fold (l kept : List poll_source) (st : State)
    (hst : st.sources = kept ++ l) (hkept : ∀ n ∈ kept, n.removed = 0) :
    (l.foldl (fun st current =>
        if current.removed ≠ 0 then gpoll_close_internal st current else st) st).sources
      = kept ++ l.filter (fun n => n.removed == 0) ∧
    (l.foldl (fun st current =>
        if current.removed ≠ 0 then gpoll_close_internal st current else st) st).trace
      = st.trace ∧
    (l.foldl (fun st current =>
        if current.removed ≠ 0 then gpoll_close_internal st current else st) st).polling
      = st.polling ∧
    (l.foldl (fun st current =>
        if current.removed ≠ 0 then gpoll_close_internal st current else st) st).clock
      = st.clock := by
  induction l generalizing kept st with
  | nil => simp [hst]
  | cons x xs ih =>
    simp only [List.foldl_cons]
    by_cases hx : x.removed ≠ 0
    · have hnot : x ∉ kept := fun hm => hx (hkept x hm)
      have hst' : (gpoll_close_internal st x).sources = kept ++ xs := by
        simp only [gpoll_close_internal, GLIST_REMOVE, hst, erase_at kept xs x hnot]
      obtain ⟨e1, e2, e3, e4⟩ := ih kept (gpoll_close_internal st x) hst' hkept
      rw [if_pos hx]
      refine ⟨?_, ?_, ?_, ?_⟩
      · rw [e1]; simp [List.filter_cons, hx]
      · rw [e2]; rfl
      · rw [e3]; rfl
      · rw [e4]; rfl
    · have hx0 : x.removed = 0 := not_not.mp hx
      have hst' : st.sources = (kept ++ [x]) ++ xs := by simp [hst]
      have hkept' : ∀ n ∈ kept ++ [x], n.removed = 0 := by
        intro n hn
        rcases List.mem_append.mp hn with h | h
        · exact hkept n h
        · rw [List.mem_singleton.mp h]; exact hx0
      obtain ⟨e1, e2, e3, e4⟩ := ih (kept ++ [x]) st hst' hkept'
      rw [if_neg hx]
      refine ⟨?_, e2, e3, e4⟩
      rw [e1]; simp [List.filter_cons, hx0]

/-- The deferred-removal pass keeps exactly the nodes that are not tombstoned,
in their order. -/
theorem defered_sources (s : State) :
    (gpoll_remove_fd_defered s).sources = s.sources.filter (fun n => n.removed == 0) := by
  have := (defered_fold s.sources [] s rfl (by simp)).1
  simpa [gpoll_remove_fd_defered] using this

/-- The deferred-removal pass writes nothing to the log. -/
theorem defered_trace (s : State) : (gpoll_remove_fd_defered s).trace = s.trace :=
  (defered_fold s.sources [] s rfl (by simp)).2.1

end Posix

namespace Posix

/-! ### States of one run of the loop -/

/-- The two outcomes of `gpoll_remove_fd`. -/
theorem remove_fd_cases (s : State) (fd : Int) :
    (gpoll_remove_fd s fd = (s, -1) ∧ ∀ n ∈ s.sources, n.fd ≠ fd) ∨
    ∃ pre c post, s.sources = pre ++ c :: post ∧ c.fd = fd ∧ (∀ n ∈ pre, n.fd ≠ fd) ∧
      gpoll_remove_fd s fd =
        (if s.polling ≠ 0 then { s with sources := pre ++ { c with removed := 1 } :: post }
         else { s with sources := pre ++ post, nb_sources := udec s.nb_sources }, 0) := by
  cases hf : s.sources.find? (fun n => fd == n.fd) with
  | none =>
    left
    refine ⟨by simp [gpoll_remove_fd, hf], ?_⟩
    rw [List.find?_eq_none] at hf
    intro n hn e
    exact hf n hn (by simp [e])
  | some c =>
    right
    obtain ⟨pre, post, hs, hc, hpre⟩ := find_fd_split s.sources fd c hf
    exact ⟨pre, c, post, hs, hc, hpre, remove_fd_found s fd pre post c hs hc hpre⟩

theorem later_refl (a : poll_source) : a.later a := Or.inl rfl

theorem later_trans {a b c : poll_source} (h1 : a.later b) (h2 : b.later c) : a.later c := by
  rcases h1 with rfl | rfl
  · exact h2
  · rcases h2 with rfl | rfl
    · exact Or.inr rfl
    · exact Or.inr rfl

theorem later_addr {a b : poll_source} (h : a.later b) : b.addr = a.addr := by
  rcases h with rfl | rfl <;> rfl

theorem later_fd {a b : poll_source} (h : a.later b) : b.fd = a.fd := by
  rcases h with rfl | rfl <;> rfl

theorem later_removed {a b : poll_source} (h : a.later b) (ha : a.removed ≠ 0) :
    b.removed ≠ 0 := by
  rcases h with rfl | rfl
  · exact ha
  · simp

theorem grows_refl (l : List poll_source) : Grows l l := by
  induction l with
  | nil => trivial
  | cons a l ih => exact ⟨later_refl a, ih⟩

theorem grows_trans {l1 l2 l3 : List poll_source} (h12 : Grows l1 l2) (h23 : Grows l2 l3) :
    Grows l1 l3 := by
  induction l1 generalizing l2 l3 with
  | nil => trivial
  | cons a l1 ih =>
    cases l2 with
    | nil => exact absurd h12 (by simp [Grows])
    | cons b l2 =>
      cases l3 with
      | nil => exact absurd h23 (by simp [Grows])
      | cons c l3 => exact ⟨later_trans h12.1 h23.1, ih h12.2 h23.2⟩

theorem grows_append (l extra : List poll_source) : Grows l (l ++ extra) := by
  induction l with
  | nil => trivial
  | cons a l ih => exact ⟨later_refl a, ih⟩

theorem grows_tombstone (pre post : List poll_source) (c : poll_source) :
    Grows (pre ++ c :: post) (pre ++ { c with removed := 1 } :: post) := by
  induction pre with
  | nil => exact ⟨Or.inr rfl, grows_refl post⟩
  | cons a pre ih => exact ⟨later_refl a, ih⟩

/-- A grown list keeps every node of the old list at its place. -/
theorem grows_split {pre post l2 : List poll_source} {c : poll_source}
    (h : Grows (pre ++ c :: post) l2) :
    ∃ pre2 c2 post2, l2 = pre2 ++ c2 :: post2 ∧ List.Forall₂ poll_source.later pre pre2 ∧
      c.later c2 ∧ Grows post post2 := by
  induction pre generalizing l2 with
  | nil =>
    cases l2 with
    | nil => exact absurd h (by simp [Grows])
    | cons b l2 => exact ⟨[], b, l2, rfl, List.Forall₂.nil, h.1, h.2⟩
  | cons a pre ih =>
    cases l2 with
    | nil => exact absurd h (by simp [Grows])
    | cons b l2 =>
      obtain ⟨pre2, c2, post2, e, hf, hc, hp⟩ := ih h.2
      exact ⟨b :: pre2, c2, post2, by simp [e], List.Forall₂.cons h.1 hf, hc, hp⟩

theorem grows_addrs {l1 l2 : List poll_source} (h : Grows l1 l2) :
    ∃ extra, l2.map (fun n => n.addr) = l1.map (fun n => n.addr) ++ extra := by
  induction l1 generalizing l2 with
  | nil => exact ⟨l2.map (fun n => n.addr), by simp⟩
  | cons a l1 ih =>
    cases l2 with
    | nil => exact absurd h (by simp [Grows])
    | cons b l2 =>
      obtain ⟨extra, e⟩ := ih h.2
      exact ⟨extra, by simp [e, later_addr h.1]⟩

theorem forall₂_later_fd {l1 l2 : List poll_source} (h : List.Forall₂ poll_source.later l1 l2)
    (fd : Int) (h1 : ∀ n ∈ l1, n.fd ≠ fd) : ∀ n ∈ l2, n.fd ≠ fd := by
  induction h with
  | nil => simp
  | cons hab _ ih =>
    intro n hn
    rcases List.mem_cons.mp hn with rfl | hn
    · rw [later_fd hab]; exact h1 _ (by simp)
    · exact ih (fun m hm => h1 m (List.mem_cons_of_mem _ hm)) n hn

theorem grows_flagged {s1 s2 : State} (h : Grows s1.sources s2.sources) (p : Nat)
    (hp : s1.flagged p) : s2.flagged p := by
  obtain ⟨n, hn, hnp, hnr⟩ := hp
  obtain ⟨pre, post, e⟩ := List.append_of_mem hn
  rw [e] at h
  obtain ⟨pre2, c2, post2, e2, _, hc, _⟩ := grows_split h
  exact ⟨c2, by simp [e2], by rw [later_addr hc, hnp], later_removed hc hnr⟩

theorem keeps_refl (s : State) : Keeps s s :=
  ⟨rfl, grows_refl _, le_refl _, id⟩

theorem keeps_trans {s1 s2 s3 : State} (h12 : Keeps s1 s2) (h23 : Keeps s2 s3) : Keeps s1 s3 :=
  ⟨h23.1.trans h12.1, grows_trans h12.2.1 h23.2.1, le_trans h12.2.2.1 h23.2.2.1,
    fun h => h23.2.2.2 (h12.2.2.2 h)⟩

theorem keeps_register (w : World) (s : State) (fd : Int) (user : Nat)
    (cbs : GPOLL_CALLBACKS) : Keeps s (gpoll_register_fd w s fd user cbs).1 := by
  rcases register_fd_cases w s fd user cbs with
    ⟨_, hsrc, _, hpol, _, _, hclk⟩ | ⟨_, ⟨n, haddr, _, _, _, _, _, _, hsrc⟩, _, hpol, _, _, hclk⟩
  · refine ⟨hpol, by rw [hsrc]; exact grows_refl _, hclk, ?_⟩
    intro hwf
    refine ⟨by simpa [State.addrs, hsrc] using hwf.1, ?_⟩
    intro m hm
    rw [hsrc] at hm
    exact le_trans (hwf.2 m hm) hclk
  · refine ⟨hpol, by rw [hsrc]; exact grows_append _ _, by omega, ?_⟩
    intro hwf
    constructor
    · simp only [State.addrs, hsrc, List.map_append, List.map_cons, List.map_nil, haddr]
      apply List.Nodup.append hwf.1 (List.nodup_singleton _)
      intro a ha hb
      obtain ⟨m, hm, e⟩ := List.mem_map.mp ha
      have := hwf.2 m hm
      rw [List.mem_singleton] at hb
      omega
    · intro m hm
      rw [hsrc] at hm
      rcases List.mem_append.mp hm with h | h
      · have := hwf.2 m h; omega
      · rw [List.mem_singleton.mp h, haddr, hclk]

theorem keeps_remove (s : State) (fd : Int) (hpol : s.polling ≠ 0) :
    Keeps s (gpoll_remove_fd s fd).1 := by
  rcases remove_fd_cases s fd with ⟨e, _⟩ | ⟨pre, c, post, hs, _, _, e⟩
  · rw [e]; exact keeps_refl s
  · rw [e, if_pos hpol]
    refine ⟨rfl, ?_, le_refl _, ?_⟩
    · show Grows s.sources (pre ++ { c with removed := 1 } :: post)
      rw [hs]; exact grows_tombstone pre post c
    · intro hwf
      refine ⟨?_, ?_⟩
      · have := hwf.1
        simpa [State.addrs, hs] using this
      · intro m hm
        have hm' : m ∈ pre ++ { c with removed := 1 } :: post := hm
        rcases List.mem_append.mp hm' with h | h
        · exact hwf.2 m (by simp [hs, h])
        · rcases List.mem_cons.mp h with rfl | h
          · exact hwf.2 c (by simp [hs])
          · exact hwf.2 m (by simp [hs, h])

/-- Removal by fd leaves every node with another fd linked and untouched. -/
theorem remove_fd_mem (s : State) (fd : Int) (n : poll_source) (hn : n ∈ s.sources)
    (hfd : n.fd ≠ fd) : n ∈ (gpoll_remove_fd s fd).1.sources := by
  rcases remove_fd_cases s fd with ⟨e, _⟩ | ⟨pre, c, post, hs, hc, _, e⟩
  · rw [e]; exact hn
  · have hne : n ≠ c := fun h => hfd (h ▸ hc)
    rw [hs] at hn
    have hmem : n ∈ pre ∨ n ∈ post := by
      rcases List.mem_append.mp hn with h | h
      · exact Or.inl h
      · rcases List.mem_cons.mp h with h | h
        · exact absurd h hne
        · exact Or.inr h
    rw [e]
    by_cases hpol : s.polling ≠ 0
    · rw [if_pos hpol]
      show n ∈ pre ++ { c with removed := 1 } :: post
      rcases hmem with h | h <;> simp [h]
    · rw [if_neg hpol]
      show n ∈ pre ++ post
      rcases hmem with h | h <;> simp [h]

theorem remove_fd_trace (s : State) (fd : Int) : (gpoll_remove_fd s fd).1.trace = s.trace := by
  rcases remove_fd_cases s fd with ⟨e, _⟩ | ⟨pre, c, post, _, _, _, e⟩
  · rw [e]
  · rw [e]; split <;> rfl

theorem register_fd_trace (w : World) (s : State) (fd : Int) (user : Nat)
    (cbs : GPOLL_CALLBACKS) : (gpoll_register_fd w s fd user cbs).1.trace = s.trace := by
  rcases register_fd_cases w s fd user cbs with h | h
  · exact h.2.2.2.2.1
  · exact h.2.2.2.2.1

theorem register_fd_mem (w : World) (s : State) (fd : Int) (user : Nat)
    (cbs : GPOLL_CALLBACKS) (n : poll_source) (hn : n ∈ s.sources) :
    n ∈ (gpoll_register_fd w s fd user cbs).1.sources := by
  rcases register_fd_cases w s fd user cbs with h | h
  · rw [h.2.1]; exact hn
  · obtain ⟨m, _, _, _, _, _, _, _, hsrc⟩ := h.2.1
    rw [hsrc]; exact List.mem_append_left _ hn

end Posix

namespace Posix

theorem keeps_of_sources_eq {s1 s2 : State} (hsrc : s2.sources = s1.sources)
    (hpol : s2.polling = s1.polling) (hclk : s1.clock ≤ s2.clock) : Keeps s1 s2 := by
  refine ⟨hpol, by rw [hsrc]; exact grows_refl _, hclk, ?_⟩
  intro hwf
  refine ⟨by simpa [State.addrs, hsrc] using hwf.1, ?_⟩
  intro m hm
  rw [hsrc] at hm
  exact le_trans (hwf.2 m hm) hclk

theorem run_callback_register (w : World) (fd : Int) (user : Nat) (cbs : GPOLL_CALLBACKS)
    (k : Int → Callback) (s : State) :
    run_callback w (.register_fd fd user cbs k) s =
      run_callback w (k (gpoll_register_fd w s fd user cbs).2)
        { (gpoll_register_fd w s fd user cbs).1 with
          trace := (gpoll_register_fd w s fd user cbs).1.trace ++
            [Event.register_fd fd (gpoll_register_fd w s fd user cbs).2] } := rfl

theorem run_callback_remove (w : World) (fd : Int) (k : Int → Callback) (s : State) :
    run_callback w (.remove_fd fd k) s =
      run_callback w (k (gpoll_remove_fd s fd).2)
        { (gpoll_remove_fd s fd).1 with
          trace := (gpoll_remove_fd s fd).1.trace ++
            [Event.remove_fd fd (gpoll_remove_fd s fd).2] } := rfl

/-- What running a callback body does: it appends API entries to the log, and
no invocation; while polling it only grows the registry; a node stays linked
and untouched unless the body removes its fd. -/
theorem run_callback_spec (w : World) (c : Callback) (s : State) :
    ∃ evs, (run_callback w c s).1.trace = s.trace ++ evs ∧ calls evs = [] ∧
      (s.polling ≠ 0 → Keeps s (run_callback w c s).1) ∧
      (∀ n ∈ s.sources, (∀ r, Event.remove_fd n.fd r ∉ evs) →
        n ∈ (run_callback w c s).1.sources) := by
  induction c generalizing s with
  | ret r => exact ⟨[], by simp [run_callback], rfl, fun _ => keeps_refl s, fun n hn _ => hn⟩
  | register_fd fd user cbs k ih =>
    rw [run_callback_register]
    obtain ⟨evs, e1, e2, e3, e4⟩ := ih (gpoll_register_fd w s fd user cbs).2
      { (gpoll_register_fd w s fd user cbs).1 with
        trace := (gpoll_register_fd w s fd user cbs).1.trace ++
          [Event.register_fd fd (gpoll_register_fd w s fd user cbs).2] }
    refine ⟨Event.register_fd fd (gpoll_register_fd w s fd user cbs).2 :: evs, ?_, ?_, ?_, ?_⟩
    · rw [e1]; simp [register_fd_trace]
    · simpa [calls, Event.call?] using e2
    · intro hpol
      have hk : Keeps s (gpoll_register_fd w s fd user cbs).1 := keeps_register w s fd user cbs
      have hpol' : (gpoll_register_fd w s fd user cbs).1.polling ≠ 0 := by rw [hk.1]; exact hpol
      exact keeps_trans hk (e3 hpol')
    · intro n hn hno
      apply e4 n (register_fd_mem w s fd user cbs n hn)
      intro r hr
      exact hno r (List.mem_cons_of_mem _ hr)
  | remove_fd fd k ih =>
    rw [run_callback_remove]
    obtain ⟨evs, e1, e2, e3, e4⟩ := ih (gpoll_remove_fd s fd).2
      { (gpoll_remove_fd s fd).1 with
        trace := (gpoll_remove_fd s fd).1.trace ++
          [Event.remove_fd fd (gpoll_remove_fd s fd).2] }
    refine ⟨Event.remove_fd fd (gpoll_remove_fd s fd).2 :: evs, ?_, ?_, ?_, ?_⟩
    · rw [e1]; simp [remove_fd_trace]
    · simpa [calls, Event.call?] using e2
    · intro hpol
      have hk : Keeps s (gpoll_remove_fd s fd).1 := keeps_remove s fd hpol
      have hpol' : (gpoll_remove_fd s fd).1.polling ≠ 0 := by rw [hk.1]; exact hpol
      exact keeps_trans hk (e3 hpol')
    · intro n hn hno
      have hfd : n.fd ≠ fd := by
        intro e
        exact hno (gpoll_remove_fd s fd).2 (by rw [e]; exact List.mem_cons_self _ _)
      apply e4 n (remove_fd_mem s fd n hn hfd)
      intro r hr
      exact hno r (List.mem_cons_of_mem _ hr)

/-- What one call through a slot of a node does: the callback's API entries
and then the entry of the call are appended to the log. -/
theorem invoke_spec (w : World) (s : State) (p : Nat) (slot : Slot) :
    ∃ evs, (invoke w s p slot).1.trace = s.trace ++ evs ∧
      calls evs = [(p, slot, (invoke w s p slot).2)] ∧
      (s.polling ≠ 0 → Keeps s (invoke w s p slot).1) ∧
      (∀ n ∈ s.sources, (∀ r, Event.remove_fd n.fd r ∉ evs) →
        n ∈ (invoke w s p slot).1.sources) := by
  obtain ⟨evs, e1, e2, e3, e4⟩ := run_callback_spec w
    (w.callback s.clock (((deref s p).getD null_source).fp slot)
      ((deref s p).getD null_source).user)
    { s with clock := s.clock + 1,
             fault := s.fault || (deref s p).isNone ||
               ((deref s p).getD null_source).fp slot == NULL }
  refine ⟨evs ++ [Event.call p slot (((deref s p).getD null_source).fp slot)
    ((deref s p).getD null_source).user (invoke w s p slot).2], ?_, ?_, ?_, ?_⟩
  · show _ ++ _ = _
    rw [e1]; simp [invoke]
  · simp [calls, List.filterMap_append, Event.call?] at e2 ⊢
    exact e2
  · intro hpol
    refine keeps_trans ?_ (e3 hpol)
    exact keeps_of_sources_eq rfl rfl (Nat.le_succ _)
  · intro n hn hno
    apply e4 n hn
    intro r hr
    exact hno r (List.mem_append_left _ hr)

end Posix

namespace Posix

/-! ### The dispatch loop -/

theorem since_of_trace {s1 s2 : State} {evs : List Event} (h : s2.trace = s1.trace ++ evs) :
    s2.since s1 = evs := by
  simp [State.since, h]

theorem runs_nil : Runs [] [] false := Or.inl ⟨rfl, rfl, by simp⟩

theorem runs_one (p : Nat) (slot : Slot) (r : Int) :
    Runs [(p, slot, r)] [(p, slot)] (decide (r ≠ 0)) := by
  by_cases h : r = 0
  · left; simp [h]
  · right
    refine ⟨by simp [h], [], (p, slot, r), [], by simp, h, by simp, by simp⟩

theorem runs_append {cs1 cs2 : List (Nat × Slot × Int)} {pl1 pl2 : List (Nat × Slot)}
    {b : Bool} (h1 : Runs cs1 pl1 false) (h2 : Runs cs2 pl2 b) :
    Runs (cs1 ++ cs2) (pl1 ++ pl2) b := by
  rcases h1 with ⟨_, e1, z1⟩ | ⟨hb, _⟩
  · rcases h2 with ⟨hb, e2, z2⟩ | ⟨hb, before, last, rest, e2, hl, z2, hp⟩
    · left
      refine ⟨hb, by simp [e1, e2], ?_⟩
      intro c hc
      rcases List.mem_append.mp hc with h | h
      · exact z1 c h
      · exact z2 c h
    · right
      refine ⟨hb, cs1 ++ before, last, rest, by simp [e2], hl, ?_, ?_⟩
      · intro c hc
        rcases List.mem_append.mp hc with h | h
        · exact z1 c h
        · exact z2 c h
      · rw [List.map_append, e1, List.append_assoc, hp]
  · exact absurd hb (by simp)

theorem runs_stop {cs : List (Nat × Slot × Int)} {pl1 : List (Nat × Slot)}
    (pl2 : List (Nat × Slot)) (h : Runs cs pl1 true) : Runs cs (pl1 ++ pl2) true := by
  rcases h with ⟨hb, _⟩ | ⟨hb, before, last, rest, e, hl, z, hp⟩
  · exact absurd hb (by simp)
  · right
    exact ⟨hb, before, last, rest ++ pl2, e, hl, z, by rw [← List.append_assoc, hp]⟩

theorem entry_error (w : World) (pfd : pollfd) (p : Nat) (s : State)
    (h : has_error pfd.revents = true) :
    gpoll_entry w pfd p s =
      ((gpoll_remove_fd (invoke w s p Slot.close).1 pfd.fd).1,
        decide ((invoke w s p Slot.close).2 ≠ 0)) := by
  simp [gpoll_entry, h]

theorem entry_in_stop (w : World) (pfd : pollfd) (p : Nat) (s : State)
    (h : has_error pfd.revents = false) (hin : has_in pfd.revents = true)
    (hr : (invoke w s p Slot.read).2 ≠ 0) :
    gpoll_entry w pfd p s = ((invoke w s p Slot.read).1, true) := by
  simp [gpoll_entry, h, hin, hr]

theorem entry_in_out (w : World) (pfd : pollfd) (p : Nat) (s : State)
    (h : has_error pfd.revents = false) (hin : has_in pfd.revents = true)
    (hr : (invoke w s p Slot.read).2 = 0) (hout : has_out pfd.revents = true) :
    gpoll_entry w pfd p s =
      ((invoke w (invoke w s p Slot.read).1 p Slot.write).1,
        decide ((invoke w (invoke w s p Slot.read).1 p Slot.write).2 ≠ 0)) := by
  simp [gpoll_entry, h, hin, hr, hout]

theorem entry_in_only (w : World) (pfd : pollfd) (p : Nat) (s : State)
    (h : has_error pfd.revents = false) (hin : has_in pfd.revents = true)
    (hr : (invoke w s p Slot.read).2 = 0) (hout : has_out pfd.revents = false) :
    gpoll_entry w pfd p s = ((invoke w s p Slot.read).1, false) := by
  simp [gpoll_entry, h, hin, hr, hout]

theorem entry_out_only (w : World) (pfd : pollfd) (p : Nat) (s : State)
    (h : has_error pfd.revents = false) (hin : has_in pfd.revents = false)
    (hout : has_out pfd.revents = true) :
    gpoll_entry w pfd p s =
      ((invoke w s p Slot.write).1, decide ((invoke w s p Slot.write).2 ≠ 0)) := by
  simp [gpoll_entry, h, hin, hout]

theorem entry_idle (w : World) (pfd : pollfd) (p : Nat) (s : State)
    (h : has_error pfd.revents = false) (hin : has_in pfd.revents = false)
    (hout : has_out pfd.revents = false) :
    gpoll_entry w pfd p s = (s, false) := by
  simp [gpoll_entry, h, hin, hout]

end Posix

namespace Posix

theorem since_self (s : State) : s.since s = [] := by simp [State.since]

theorem since_trans {s1 s2 s3 : State} (h12 : ∃ evs, s2.trace = s1.trace ++ evs)
    (h23 : ∃ evs, s3.trace = s2.trace ++ evs) :
    s3.since s1 = s2.since s1 ++ s3.since s2 := by
  obtain ⟨e1, h1⟩ := h12
  obtain ⟨e2, h2⟩ := h23
  have h3 : s3.trace = s1.trace ++ (e1 ++ e2) := by rw [h2, h1, List.append_assoc]
  rw [since_of_trace h1, since_of_trace h2, since_of_trace h3]

theorem calls_append (a b : List Event) : calls (a ++ b) = calls a ++ calls b := by
  simp [calls, List.filterMap_append]

theorem step_refl (A : List Nat) (F : List Int) (s : State) : Step A F s s := by
  refine ⟨⟨[], by simp⟩, ?_, fun _ => keeps_refl s, fun n hn _ _ => hn⟩
  rw [since_self]; simp [calls]

theorem step_trans {A : List Nat} {F : List Int} {s1 s2 s3 : State} (h12 : Step A F s1 s2)
    (h23 : Step A F s2 s3) : Step A F s1 s3 := by
  have hs := since_trans h12.1 h23.1
  obtain ⟨e1, h1⟩ := h12.1
  obtain ⟨e2, h2⟩ := h23.1
  refine ⟨⟨e1 ++ e2, by rw [h2, h1, List.append_assoc]⟩, ?_, ?_, ?_⟩
  · intro c hc
    rw [hs, calls_append] at hc
    rcases List.mem_append.mp hc with h | h
    · exact h12.2.1 c h
    · exact h23.2.1 c h
  · intro hpol
    have hk := h12.2.2.1 hpol
    exact keeps_trans hk (h23.2.2.1 (by rw [hk.1]; exact hpol))
  · intro n hn hF hno
    apply h23.2.2.2 n (h12.2.2.2 n hn hF ?_) hF
    · intro x hx
      exact hno x (by rw [hs]; exact List.mem_append_right _ hx)
    · intro x hx
      exact hno x (by rw [hs]; exact List.mem_append_left _ hx)

theorem step_mono {A A2 : List Nat} {F F2 : List Int} {s1 s2 : State} (hA : A ⊆ A2)
    (hF : F ⊆ F2) (h : Step A F s1 s2) : Step A2 F2 s1 s2 :=
  ⟨h.1, fun c hc => hA (h.2.1 c hc), h.2.2.1,
    fun n hn hn2 hno => h.2.2.2 n hn (fun hm => hn2 (hF hm)) hno⟩

theorem step_invoke (w : World) (s : State) (p : Nat) (slot : Slot) :
    Step [p] [] s (invoke w s p slot).1 ∧
    calls ((invoke w s p slot).1.since s) = [(p, slot, (invoke w s p slot).2)] := by
  obtain ⟨evs, e1, e2, e3, e4⟩ := invoke_spec w s p slot
  have hs := since_of_trace e1
  refine ⟨⟨⟨evs, e1⟩, ?_, e3, ?_⟩, by rw [hs, e2]⟩
  · intro c hc
    rw [hs, e2] at hc
    rw [List.mem_singleton.mp hc]; simp
  · intro n hn _ hno
    exact e4 n hn (by rw [← hs]; exact hno)

theorem step_remove (s : State) (fd : Int) :
    Step [] [fd] s (gpoll_remove_fd s fd).1 ∧ (gpoll_remove_fd s fd).1.since s = [] := by
  have ht := remove_fd_trace s fd
  have hs : (gpoll_remove_fd s fd).1.since s = [] := by simp [State.since, ht]
  refine ⟨⟨⟨[], by simp [ht]⟩, ?_, fun hpol => keeps_remove s fd hpol, ?_⟩, hs⟩
  · rw [hs]; simp [calls]
  · intro n hn hF _
    exact remove_fd_mem s fd n hn (fun e => hF (by simp [e]))

/-- One entry of the snapshot is one stretch. -/
theorem step_entry (w : World) (pfd : pollfd) (p : Nat) (s : State) :
    Step [p] (if has_error pfd.revents then [pfd.fd] else []) s (gpoll_entry w pfd p s).1 := by
  by_cases herr : has_error pfd.revents = true
  · rw [entry_error w pfd p s herr, if_pos herr]
    exact step_trans (step_mono (List.Subset.refl _) (by simp) (step_invoke w s p Slot.close).1)
      (step_mono (by simp) (List.Subset.refl _) (step_remove _ pfd.fd).1)
  · have herr' : has_error pfd.revents = false := by simpa using herr
    rw [if_neg herr]
    by_cases hin : has_in pfd.revents = true
    · by_cases hr : (invoke w s p Slot.read).2 = 0
      · by_cases hout : has_out pfd.revents = true
        · rw [entry_in_out w pfd p s herr' hin hr hout]
          exact step_trans (step_invoke w s p Slot.read).1 (step_invoke w _ p Slot.write).1
        · rw [entry_in_only w pfd p s herr' hin hr (by simpa using hout)]
          exact (step_invoke w s p Slot.read).1
      · rw [entry_in_stop w pfd p s herr' hin hr]
        exact (step_invoke w s p Slot.read).1
    · by_cases hout : has_out pfd.revents = true
      · rw [entry_out_only w pfd p s herr' (by simpa using hin) hout]
        exact (step_invoke w s p Slot.write).1
      · rw [entry_idle w pfd p s herr' (by simpa using hin) (by simpa using hout)]
        exact step_refl _ _ s

/-- Without error bits, one entry invokes the read callback if `POLLIN` is
set and then the write callback if `POLLOUT` is set, stopping at the first
non-zero return. -/
theorem entry_runs (w : World) (pfd : pollfd) (p : Nat) (s : State)
    (herr : has_error pfd.revents = false) :
    Runs (calls ((gpoll_entry w pfd p s).1.since s)) (planned [(pfd, p)])
      (gpoll_entry w pfd p s).2 := by
  by_cases hin : has_in pfd.revents = true
  · by_cases hr : (invoke w s p Slot.read).2 = 0
    · have h1 : Runs (calls ((invoke w s p Slot.read).1.since s)) [(p, Slot.read)] false := by
        rw [(step_invoke w s p Slot.read).2]
        simpa [hr] using runs_one p Slot.read (invoke w s p Slot.read).2
      by_cases hout : has_out pfd.revents = true
      · rw [entry_in_out w pfd p s herr hin hr hout]
        rw [since_trans (step_invoke w s p Slot.read).1.1 (step_invoke w _ p Slot.write).1.1,
          calls_append]
        have h2 := runs_one p Slot.write (invoke w (invoke w s p Slot.read).1 p Slot.write).2
        rw [← (step_invoke w (invoke w s p Slot.read).1 p Slot.write).2] at h2
        simpa [planned, hin, hout] using runs_append h1 h2
      · rw [entry_in_only w pfd p s herr hin hr (by simpa using hout)]
        simpa [planned, hin, hout] using h1
    · rw [entry_in_stop w pfd p s herr hin hr]
      have h1 : Runs (calls ((invoke w s p Slot.read).1.since s)) [(p, Slot.read)] true := by
        rw [(step_invoke w s p Slot.read).2]
        simpa [hr] using runs_one p Slot.read (invoke w s p Slot.read).2
      simpa [planned, hin] using
        runs_stop (if has_out pfd.revents then [(p, Slot.write)] else []) h1
  · by_cases hout : has_out pfd.revents = true
    · rw [entry_out_only w pfd p s herr (by simpa using hin) hout]
      have h2 := runs_one p Slot.write (invoke w s p Slot.write).2
      rw [← (step_invoke w s p Slot.write).2] at h2
      simpa [planned, hin, hout] using h2
    · rw [entry_idle w pfd p s herr (by simpa using hin) (by simpa using hout), since_self]
      simpa [planned, hin, hout, calls] using runs_nil

/-- With an error bit, one entry invokes the close callback and nothing else,
and breaks exactly when that call returned non-zero. -/
theorem entry_close (w : World) (pfd : pollfd) (p : Nat) (s : State)
    (herr : has_error pfd.revents = true) :
    calls ((gpoll_entry w pfd p s).1.since s) = [(p, Slot.close, (invoke w s p Slot.close).2)] ∧
    (gpoll_entry w pfd p s).2 = decide ((invoke w s p Slot.close).2 ≠ 0) := by
  rw [entry_error w pfd p s herr]
  refine ⟨?_, rfl⟩
  rw [since_trans (step_invoke w s p Slot.close).1.1 (step_remove _ pfd.fd).1.1, calls_append,
    (step_invoke w s p Slot.close).2, (step_remove _ pfd.fd).2]
  simp [calls]

end Posix

namespace Posix

theorem mem_store_revents {snap : List (pollfd × Nat)} {rs : List Nat} {e : pollfd × Nat}
    (h : e ∈ store_revents snap rs) : ∃ e0 ∈ snap, e.2 = e0.2 ∧ e.1.fd = e0.1.fd := by
  induction snap generalizing rs with
  | nil => simp [store_revents] at h
  | cons a snap ih =>
    obtain ⟨pfd, p⟩ := a
    simp only [store_revents, List.mem_cons] at h
    rcases h with rfl | h
    · exact ⟨(pfd, p), by simp, rfl, rfl⟩
    · obtain ⟨e0, h0, e1, e2⟩ := ih h
      exact ⟨e0, List.mem_cons_of_mem _ h0, e1, e2⟩

theorem store_revents_snd (snap : List (pollfd × Nat)) (rs : List Nat) :
    (store_revents snap rs).map Prod.snd = snap.map Prod.snd := by
  induction snap generalizing rs with
  | nil => simp [store_revents]
  | cons a snap ih =>
    obtain ⟨pfd, p⟩ := a
    simp [store_revents, ih]

theorem fill_fds_snd (k : Nat) (l : List poll_source) :
    (fill_fds k l).map Prod.snd = (l.take k).map fun n => n.addr := by
  induction l generalizing k with
  | nil => cases k <;> simp [fill_fds]
  | cons a l ih =>
    cases k with
    | zero => simp [fill_fds]
    | succ k => simp [fill_fds, ih]

theorem dispatch_cons (w : World) (pfd : pollfd) (p : Nat) (rest : List (pollfd × Nat))
    (s : State) :
    gpoll_dispatch w ((pfd, p) :: rest) s =
      if (gpoll_entry w pfd p s).2 then ((gpoll_entry w pfd p s).1, true)
      else gpoll_dispatch w rest (gpoll_entry w pfd p s).1 := rfl

theorem dispatch_append (w : World) (a b : List (pollfd × Nat)) (s : State) :
    gpoll_dispatch w (a ++ b) s =
      if (gpoll_dispatch w a s).2 then gpoll_dispatch w a s
      else gpoll_dispatch w b (gpoll_dispatch w a s).1 := by
  induction a generalizing s with
  | nil => simp [gpoll_dispatch]
  | cons e a ih =>
    obtain ⟨pfd, p⟩ := e
    rw [List.cons_append, dispatch_cons, dispatch_cons]
    by_cases hb : (gpoll_entry w pfd p s).2 = true
    · simp [hb]
    · simp only [hb, Bool.false_eq_true, if_false]
      exact ih _

theorem planned_cons (pfd : pollfd) (p : Nat) (rest : List (pollfd × Nat)) :
    planned ((pfd, p) :: rest) = planned [(pfd, p)] ++ planned rest := by
  simp [planned]

/-- The whole `for` loop is one stretch. -/
theorem step_dispatch (w : World) (snap : List (pollfd × Nat)) (s : State) :
    Step (snap.map Prod.snd) (error_fds snap) s (gpoll_dispatch w snap s).1 := by
  induction snap generalizing s with
  | nil => exact step_refl _ _ s
  | cons e rest ih =>
    obtain ⟨pfd, p⟩ := e
    have h1 : Step (((pfd, p) :: rest).map Prod.snd) (error_fds ((pfd, p) :: rest)) s
        (gpoll_entry w pfd p s).1 := by
      apply step_mono _ _ (step_entry w pfd p s)
      · simp
      · intro fd hfd
        by_cases herr : has_error pfd.revents = true
        · rw [if_pos herr] at hfd
          simp only [List.mem_singleton] at hfd
          simp [error_fds, List.filter_cons, herr, hfd]
        · rw [if_neg herr] at hfd
          simp at hfd
    rw [dispatch_cons]
    by_cases hb : (gpoll_entry w pfd p s).2 = true
    · simpa [hb] using h1
    · simp only [hb, Bool.false_eq_true, if_false]
      apply step_trans h1
      apply step_mono _ _ (ih (gpoll_entry w pfd p s).1)
      · simp
      · intro fd hfd
        simp only [error_fds, List.mem_map, List.mem_filter] at hfd ⊢
        obtain ⟨e, ⟨he, herr⟩, hfd⟩ := hfd
        exact ⟨e, ⟨List.mem_cons_of_mem _ he, herr⟩, hfd⟩

/-- Without error bits, the `for` loop carries out the plan of the snapshot up
to and including the first call that returns non-zero. -/
theorem dispatch_runs (w : World) (snap : List (pollfd × Nat)) (s : State)
    (hclean : ∀ e ∈ snap, has_error e.1.revents = false) :
    Runs (calls ((gpoll_dispatch w snap s).1.since s)) (planned snap)
      (gpoll_dispatch w snap s).2 := by
  induction snap generalizing s with
  | nil => simpa [gpoll_dispatch, since_self, calls, planned] using runs_nil
  | cons e rest ih =>
    obtain ⟨pfd, p⟩ := e
    have h1 := entry_runs w pfd p s (hclean (pfd, p) (by simp))
    rw [dispatch_cons, planned_cons]
    by_cases hb : (gpoll_entry w pfd p s).2 = true
    · rw [hb] at h1
      simpa [hb] using runs_stop (planned rest) h1
    · have hb' : (gpoll_entry w pfd p s).2 = false := by simpa using hb
      rw [hb'] at h1
      simp only [hb', Bool.false_eq_true, if_false]
      rw [since_trans (step_entry w pfd p s).1 (step_dispatch w rest _).1, calls_append]
      exact runs_append h1 (ih _ (fun e he => hclean e (List.mem_cons_of_mem _ he)))

theorem iteration_pos (w : World) (s : State) (hpos : (poll_answer w s).1 > 0) :
    gpoll_iteration w s =
      (gpoll_remove_fd_defered (gpoll_dispatch w (wake w s) s.polled).1,
        (gpoll_dispatch w (wake w s) s.polled).2) := by
  have h : (w.poll s.clock ((fill_fds s.nb_sources s.sources).map Prod.fst)).1 > 0 := hpos
  simp only [gpoll_iteration, h, if_true]
  rfl

theorem iteration_since (w : World) (s : State) (hpos : (poll_answer w s).1 > 0) :
    (gpoll_iteration w s).1.since s = (gpoll_dispatch w (wake w s) s.polled).1.since s.polled := by
  rw [iteration_pos w s hpos]
  simp [State.since, defered_trace, State.polled]

theorem loop_succ (w : World) (fuel : Nat) (s : State) :
    gpoll_loop w (fuel + 1) s =
      if (gpoll_iteration w s).2 then some (gpoll_iteration w s).1
      else gpoll_loop w fuel (gpoll_iteration w s).1 := rfl

end Posix

/-- C3 (polling backend).  In a turn of the loop whose `poll` returned a
positive value and stored no error bit: the snapshot holds the sources of the
registry in list order (the first `nb_sources` of them); the callbacks invoked
are, in snapshot order, an initial part of the plan "for each entry the read callback if
`POLLIN` is set, then the write callback if `POLLOUT` is set"; no callback is
invoked after one that returned non-zero; if the turn does not end the loop the
whole plan was invoked; the turn ends the loop if and only if some invoked
callback returned non-zero; and the deferred removals have been applied, so no
source left is tombstoned.  The loop of `gpoll` goes on with the next turn
exactly when the turn did not end it.  Concretely, with A (read and close) and
B (write and close) registered and wakes that report only `POLLIN` on A, A's
read callback returning 0 and then 1: the loop is still running after one turn,
has returned after two, A's read callback was called twice and no callback of
B was called. -/
theorem posix_dispatch_order_and_stop :
    (∀ (w : Posix.World) (s : Posix.State), (Posix.poll_answer w s).1 > 0 →
      (∀ e ∈ Posix.wake w s, Posix.has_error e.1.revents = false) →
      ((Posix.wake w s).map Prod.snd = (s.sources.take s.nb_sources).map fun n => n.addr) ∧
      (∃ rest, (Posix.calls ((Posix.gpoll_iteration w s).1.since s)).map (fun c => (c.1, c.2.1))
          ++ rest = Posix.planned (Posix.wake w s)) ∧
      (∀ before c after, Posix.calls ((Posix.gpoll_iteration w s).1.since s)
          = before ++ c :: after → c.2.2 ≠ 0 → after = []) ∧
      ((Posix.gpoll_iteration w s).2 = false →
        (Posix.calls ((Posix.gpoll_iteration w s).1.since s)).map (fun c => (c.1, c.2.1))
          = Posix.planned (Posix.wake w s)) ∧
      ((Posix.gpoll_iteration w s).2 = true ↔
        ∃ c ∈ Posix.calls ((Posix.gpoll_iteration w s).1.since s), c.2.2 ≠ 0) ∧
      (∀ n ∈ (Posix.gpoll_iteration w s).1.sources, n.removed = 0) ∧
      (∀ fuel, Posix.gpoll_loop w (fuel + 1) s =
        if (Posix.gpoll_iteration w s).2 then some (Posix.gpoll_iteration w s).1
        else Posix.gpoll_loop w fuel (Posix.gpoll_iteration w s).1)) ∧
    (Posix.gpoll Scenario.read_twice 1 Scenario.a_then_b = none ∧
      (Posix.gpoll Scenario.read_twice 2 Scenario.a_then_b).map (fun s => s.trace)
        = some [Posix.Event.call 1 Slot.read 1 10 0, Posix.Event.call 1 Slot.read 1 10 1] ∧
      (Posix.gpoll Scenario.read_twice 2 Scenario.a_then_b).map (fun s => s.sources)
        = some Scenario.a_then_b.sources) := by
  refine ⟨?_, by decide⟩
  intro w s hpos hclean
  have hruns := Posix.dispatch_runs w (Posix.wake w s) s.polled hclean
  rw [← Posix.iteration_since w s hpos] at hruns
  have hbrk : (Posix.gpoll_iteration w s).2 = (Posix.gpoll_dispatch w (Posix.wake w s) s.polled).2 := by
    rw [Posix.iteration_pos w s hpos]
  rw [← hbrk] at hruns
  refine ⟨?_, ?_, ?_, ?_, ?_, ?_, fun fuel => Posix.loop_succ w fuel s⟩
  · unfold Posix.wake
    rw [Posix.store_revents_snd, Posix.fill_fds_snd]
  · rcases hruns with ⟨_, e, _⟩ | ⟨_, _, _, rest, _, _, _, e⟩
    · exact ⟨[], by rw [e]; simp⟩
    · exact ⟨rest, e⟩
  · intro before c after e hc
    rcases hruns with ⟨_, _, z⟩ | ⟨_, bf, last, _, e2, _, z, _⟩
    · exact absurd (z c (by rw [e]; simp)) hc
    · rw [e] at e2
      by_contra hne
      obtain ⟨a, l, rfl⟩ := List.exists_cons_of_ne_nil hne
      have hmem : c ∈ bf := by
        have h3 : before ++ c :: (a :: l) = (before ++ c :: (a :: l).dropLast) ++
            [(a :: l).getLast (by simp)] := by
          rw [List.append_assoc, List.cons_append, List.dropLast_append_getLast]
        rw [h3] at e2
        have := List.append_inj_left' e2 (by simp)
        rw [← this]; simp
      exact hc (z c hmem)
  · intro hfalse
    rcases hruns with ⟨_, e, _⟩ | ⟨hb, _⟩
    · exact e
    · rw [hfalse] at hb; exact absurd hb (by simp)
  · constructor
    · intro htrue
      rcases hruns with ⟨hb, _⟩ | ⟨_, bf, last, _, e, hl, _, _⟩
      · rw [htrue] at hb; exact absurd hb (by simp)
      · exact ⟨last, by rw [e]; simp, hl⟩
    · rintro ⟨c, hc, hne⟩
      rcases hruns with ⟨_, _, z⟩ | ⟨hb, _⟩
      · exact absurd (z c hc) hne
      · exact hb
  · intro n hn
    rw [Posix.iteration_pos w s hpos, Posix.defered_sources] at hn
    simpa using (List.mem_filter.mp hn).2

namespace Posix

theorem runs_head {cs : List (Nat × Slot × Int)} {k : Nat × Slot} {pl : List (Nat × Slot)}
    {b : Bool} (h : Runs cs (k :: pl) b) : ∃ x, (k.1, k.2, x) ∈ cs := by
  have hmap : ∃ rest, cs.map (fun c => (c.1, c.2.1)) ++ rest = k :: pl ∧ cs ≠ [] := by
    rcases h with ⟨_, e, _⟩ | ⟨_, before, last, rest, e, _, _, hp⟩
    · refine ⟨[], by simp [e], ?_⟩
      intro hnil; rw [hnil] at e; simp at e
    · exact ⟨rest, hp, by rw [e]; simp⟩
  obtain ⟨rest, e, hne⟩ := hmap
  obtain ⟨c, l, rfl⟩ := List.exists_cons_of_ne_nil hne
  simp only [List.map_cons, List.cons_append, List.cons.injEq] at e
  refine ⟨c.2.2, ?_⟩
  rw [← e.1]
  simp

theorem mem_fill_fds {k : Nat} {l : List poll_source} {e : pollfd × Nat}
    (h : e ∈ fill_fds k l) : ∃ n ∈ l, e.2 = n.addr ∧ e.1.fd = n.fd := by
  induction l generalizing k with
  | nil => cases k <;> simp [fill_fds] at h
  | cons a l ih =>
    cases k with
    | zero => simp [fill_fds] at h
    | succ k =>
      simp only [fill_fds, List.mem_cons] at h
      rcases h with rfl | h
      · exact ⟨a, by simp, rfl, rfl⟩
      · obtain ⟨n, hn, e1, e2⟩ := ih h
        exact ⟨n, List.mem_cons_of_mem _ hn, e1, e2⟩

theorem eq_of_addr_eq {l : List poll_source} (hnd : (l.map fun n => n.addr).Nodup)
    {a b : poll_source} (ha : a ∈ l) (hb : b ∈ l) (e : a.addr = b.addr) : a = b :=
  List.inj_on_of_nodup_map hnd ha hb e

/-- A tombstoned node is gone after the deferred-removal pass. -/
theorem flagged_absent (s : State) (p : Nat) (hwf : s.wf) (hp : s.flagged p) :
    ∀ n ∈ (gpoll_remove_fd_defered s).sources, n.addr ≠ p := by
  intro n hn e
  rw [defered_sources] at hn
  obtain ⟨hn1, hn2⟩ := List.mem_filter.mp hn
  obtain ⟨m, hm, hmp, hmr⟩ := hp
  have : n = m := eq_of_addr_eq hwf.1 hn1 hm (by rw [e, hmp])
  rw [this] at hn2
  exact hmr (by simpa using hn2)

theorem polled_keeps (s : State) : Keeps s s.polled :=
  keeps_of_sources_eq rfl rfl (Nat.le_succ _)

theorem first_slot_planned (pfd : pollfd) (p : Nat) (slot : Slot)
    (herr : has_error pfd.revents = false) (h : first_slot pfd.revents = some slot) :
    ∃ pl, planned [(pfd, p)] = (p, slot) :: pl := by
  unfold first_slot at h
  rw [herr] at h
  by_cases hin : has_in pfd.revents = true
  · simp only [hin, if_true, Bool.false_eq_true, if_false, Option.some.injEq] at h
    exact ⟨if has_out pfd.revents then [(p, Slot.write)] else [],
      by simp [planned, hin, ← h]⟩
  · by_cases hout : has_out pfd.revents = true
    · simp only [hin, hout, if_true, Bool.false_eq_true, if_false, Option.some.injEq] at h
      exact ⟨[], by simp [planned, hin, hout, ← h]⟩
    · simp [hin, hout] at h

/-- The entry reached by the loop gets the callback its readiness bits ask for
first, whatever the `removed` flag of its node. -/
theorem entry_first_slot (w : World) (pfd : pollfd) (p : Nat) (s : State) (slot : Slot)
    (h : first_slot pfd.revents = some slot) :
    ∃ x, (p, slot, x) ∈ calls ((gpoll_entry w pfd p s).1.since s) := by
  by_cases herr : has_error pfd.revents = true
  · have hs : slot = Slot.close := by
      unfold first_slot at h
      simpa [herr] using h.symm
    rw [(entry_close w pfd p s herr).1, hs]
    exact ⟨(invoke w s p Slot.close).2, by simp⟩
  · have herr' : has_error pfd.revents = false := by simpa using herr
    obtain ⟨pl, e⟩ := first_slot_planned pfd p slot herr' h
    have hr := entry_runs w pfd p s herr'
    rw [e] at hr
    exact runs_head hr

end Posix

/-- C3 at a concrete input: the first turn of the scenario invokes the whole
plan, the read callback of A, and does not end the loop. -/
theorem posix_dispatch_order_and_stop_witness :
    (Posix.calls ((Posix.gpoll_iteration Scenario.read_twice Scenario.polling_a_b).1.since
        Scenario.polling_a_b)).map (fun c => (c.1, c.2.1))
      = Posix.planned (Posix.wake Scenario.read_twice Scenario.polling_a_b) ∧
    Posix.planned (Posix.wake Scenario.read_twice Scenario.polling_a_b) = [(1, Slot.read)] :=
  ⟨(posix_dispatch_order_and_stop.1 Scenario.read_twice Scenario.polling_a_b (by decide)
      (by decide)).2.2.2.1 (by decide), by decide⟩

/-- C1 as stated fails (polling backend).  A (fd 3) and B (fd 4) are
registered, the loop is polling and the wake reports `POLLIN` on both.  The
read callback of A calls `gpoll_remove_fd(4)`, which returns 0 and leaves B
linked with `removed = 1`; the loop then still calls the read callback of B in
the same turn, and only afterwards unlinks B. -/
theorem posix_removed_source_still_dispatched :
    Posix.wake Scenario.remover Scenario.two_readers
      = [({ fd := 3, events := 1, revents := 1 }, 1), ({ fd := 4, events := 1, revents := 1 }, 2)] ∧
    (Posix.gpoll_entry Scenario.remover { fd := 3, events := 1, revents := 1 } 1
        Scenario.two_readers.polled).1.sources
      = [{ addr := 1, fd := 3, user := 10, fp_read := 1, fp_write := 0, fp_close := 9,
           events := 1, removed := 0 },
         { addr := 2, fd := 4, user := 20, fp_read := 2, fp_write := 0, fp_close := 9,
           events := 1, removed := 1 }] ∧
    (Posix.gpoll_iteration Scenario.remover Scenario.two_readers).1.trace
      = [Posix.Event.remove_fd 4 0, Posix.Event.call 1 Slot.read 1 10 0,
         Posix.Event.call 2 Slot.read 2 20 0] ∧
    (Posix.gpoll_iteration Scenario.remover Scenario.two_readers).1.sources
      = [{ addr := 1, fd := 3, user := 10, fp_read := 1, fp_write := 0, fp_close := 9,
           events := 1, removed := 0 }] := by
  decide

/-- C1 amended (polling backend).  In a turn of the loop whose `poll` returned
a positive value, let the loop reach a snapshot entry (no earlier entry ended
in `break`) whose source has been tombstoned (`removed = 1`) by then.  The
`removed` flag is not consulted: the callback that the readiness bits of the
entry ask for first (close on an error bit, otherwise read on `POLLIN`,
otherwise write on `POLLOUT`) is still invoked for that source in this turn.
The source is unlinked by the deferred removals at the end of the turn: it is
not in the registry after the turn, hence in no snapshot taken from it. -/
theorem posix_removed_source_dispatched_then_unlinked (w : Posix.World) (s : Posix.State)
    (before after : List (Posix.pollfd × Nat)) (pfd : Posix.pollfd) (p : Nat)
    (hpos : (Posix.poll_answer w s).1 > 0) (hpol : s.polling ≠ 0) (hwf : s.wf)
    (hsnap : Posix.wake w s = before ++ (pfd, p) :: after)
    (hreach : (Posix.gpoll_dispatch w before s.polled).2 = false)
    (hflag : (Posix.gpoll_dispatch w before s.polled).1.flagged p) :
    (∀ slot, Posix.first_slot pfd.revents = some slot →
      ∃ x, (p, slot, x) ∈ Posix.calls ((Posix.gpoll_iteration w s).1.since s)) ∧
    (∀ n ∈ (Posix.gpoll_iteration w s).1.sources, n.addr ≠ p) ∧
    (∀ k, ∀ e ∈ Posix.fill_fds k (Posix.gpoll_iteration w s).1.sources, e.2 ≠ p) := by
  have hsplit : Posix.gpoll_dispatch w (Posix.wake w s) s.polled
      = Posix.gpoll_dispatch w ((pfd, p) :: after) (Posix.gpoll_dispatch w before s.polled).1 := by
    rw [hsnap, Posix.dispatch_append, hreach]; simp
  have hstep1 := Posix.step_dispatch w before s.polled
  have hstep2 := Posix.step_dispatch w ((pfd, p) :: after)
    (Posix.gpoll_dispatch w before s.polled).1
  have hk1 : Posix.Keeps s.polled (Posix.gpoll_dispatch w before s.polled).1 :=
    hstep1.2.2.1 hpol
  have hpol1 : (Posix.gpoll_dispatch w before s.polled).1.polling ≠ 0 := by
    rw [hk1.1]; exact hpol
  have hk2 := hstep2.2.2.1 hpol1
  have habsent : ∀ n ∈ (Posix.gpoll_iteration w s).1.sources, n.addr ≠ p := by
    rw [Posix.iteration_pos w s hpos, hsplit]
    apply Posix.flagged_absent
    · exact hk2.2.2.2 (hk1.2.2.2 ((Posix.polled_keeps s).2.2.2 hwf))
    · exact Posix.grows_flagged hk2.2.1 p hflag
  refine ⟨?_, habsent, ?_⟩
  · intro slot hslot
    obtain ⟨x, hx⟩ := Posix.entry_first_slot w pfd p
      (Posix.gpoll_dispatch w before s.polled).1 slot hslot
    refine ⟨x, ?_⟩
    rw [Posix.iteration_since w s hpos, hsplit, Posix.since_trans hstep1.1 hstep2.1,
      Posix.calls_append]
    apply List.mem_append_right
    rw [Posix.dispatch_cons]
    by_cases hb : (Posix.gpoll_entry w pfd p (Posix.gpoll_dispatch w before s.polled).1).2 = true
    · simpa [hb] using hx
    · simp only [hb, Bool.false_eq_true, if_false]
      rw [Posix.since_trans (Posix.step_entry w pfd p _).1 (Posix.step_dispatch w after _).1,
        Posix.calls_append]
      exact List.mem_append_left _ hx
  · intro k e he hp
    obtain ⟨n, hn, e1, _⟩ := Posix.mem_fill_fds he
    exact habsent n hn (by rw [← e1, hp])

/-- C1 amended at a concrete input: the scenario above, where B is tombstoned
by the read callback of A, is still read, and is unlinked at the end of the
turn. -/
theorem posix_removed_source_dispatched_then_unlinked_witness :
    (∃ x, (2, Slot.read, x) ∈
      Posix.calls ((Posix.gpoll_iteration Scenario.remover Scenario.two_readers).1.since
        Scenario.two_readers)) ∧
    (∀ n ∈ (Posix.gpoll_iteration Scenario.remover Scenario.two_readers).1.sources,
      n.addr ≠ 2) :=
  have h := posix_removed_source_dispatched_then_unlinked Scenario.remover Scenario.two_readers
    [({ fd := 3, events := 1, revents := 1 }, 1)] [] { fd := 4, events := 1, revents := 1 } 2
    (by decide) (by decide) (And.intro (by decide) (by decide)) (by decide) (by decide)
    ⟨{ addr := 2, fd := 4, user := 20, fp_read := 2, fp_write := 0, fp_close := 9,
       events := 1, removed := 1 }, by decide, rfl, by decide⟩
  ⟨h.1 Slot.read (by decide), h.2.1⟩

namespace Posix

/-- Every entry of the snapshot of a turn holds the address and the fd of a
linked node. -/
theorem mem_wake {w : World} {s : State} {e : pollfd × Nat} (h : e ∈ wake w s) :
    ∃ n ∈ s.sources, e.2 = n.addr ∧ e.1.fd = n.fd := by
  obtain ⟨e0, h0, e1, e2⟩ := mem_store_revents h
  obtain ⟨n, hn, e3, e4⟩ := mem_fill_fds h0
  exact ⟨n, hn, by rw [e1, e3], by rw [e2, e4]⟩

/-- The addresses in the snapshot of a turn are pairwise distinct. -/
theorem wake_nodup (w : World) (s : State) (hwf : s.wf) :
    ((wake w s).map Prod.snd).Nodup := by
  unfold wake
  rw [store_revents_snd, fill_fds_snd]
  exact List.Nodup.sublist (List.Sublist.map _ (List.take_sublist _ _)) hwf.1

theorem eq_of_fd_eq {l : List poll_source} (hnd : (l.map fun n => n.fd).Nodup)
    {a b : poll_source} (ha : a ∈ l) (hb : b ∈ l) (e : a.fd = b.fd) : a = b :=
  List.inj_on_of_nodup_map hnd ha hb e

theorem filter_calls_none {cs : List (Nat × Slot × Int)} {A : List Nat} {p : Nat}
    (h : ∀ c ∈ cs, c.1 ∈ A) (hp : p ∉ A) : cs.filter (fun c => c.1 = p) = [] := by
  rw [List.filter_eq_nil_iff]
  intro c hc
  have := h c hc
  simp only [decide_eq_true_eq]
  intro e
  exact hp (e ▸ this)

/-- An entry with an error bit leaves its node tombstoned, provided the node
is the first of the registry with its fd. -/
theorem entry_flags (w : World) (pfd : pollfd) (p : Nat) (s : State)
    (herr : has_error pfd.revents = true) (hpol : s.polling ≠ 0)
    (pre post : List poll_source) (c : poll_source) (hs : s.sources = pre ++ c :: post)
    (hc : c.addr = p) (hfd : c.fd = pfd.fd) (hpre : ∀ n ∈ pre, n.fd ≠ pfd.fd) :
    (gpoll_entry w pfd p s).1.flagged p := by
  rw [entry_error w pfd p s herr]
  have hk := (step_invoke w s p Slot.close).1.2.2.1 hpol
  have hg := hk.2.1
  rw [hs] at hg
  obtain ⟨pre2, c2, post2, e2, hf, hc2, _⟩ := grows_split hg
  have hrem := remove_fd_found (invoke w s p Slot.close).1 pfd.fd pre2 post2 c2 e2
    (by rw [later_fd hc2, hfd]) (forall₂_later_fd hf pfd.fd hpre)
  rw [hrem, if_pos (by rw [hk.1]; exact hpol)]
  exact ⟨{ c2 with removed := 1 }, by simp, by
    show c2.addr = p
    rw [later_addr hc2, hc], by simp⟩

end Posix

/-- C4 as stated fails (polling backend) when two sources share an fd.  A and
B are both registered on fd 5, the loop is polling and the wake reports
`POLLHUP` on B only; no callback calls a removal function.  The close callback
of B is invoked once, but `gpoll_remove_fd(5)` tombstones A, the first source
with that fd: after the deferred removals B is still in the registry and A,
which had no error bit, is gone. -/
theorem posix_error_on_shared_fd_removes_other :
    Scenario.same_fd_twice.sources
      = [{ addr := 1, fd := 5, user := 10, fp_read := 1, fp_write := 0, fp_close := 9,
           events := 1, removed := 0 },
         { addr := 2, fd := 5, user := 20, fp_read := 2, fp_write := 0, fp_close := 9,
           events := 1, removed := 0 }] ∧
    Posix.wake Scenario.hangup_second Scenario.same_fd_twice
      = [({ fd := 5, events := 1, revents := 0 }, 1),
         ({ fd := 5, events := 1, revents := Posix.POLLHUP }, 2)] ∧
    (Posix.gpoll_iteration Scenario.hangup_second Scenario.same_fd_twice).1.trace
      = [Posix.Event.call 2 Slot.close 9 20 0] ∧
    (Posix.gpoll_iteration Scenario.hangup_second Scenario.same_fd_twice).1.sources
      = [{ addr := 2, fd := 5, user := 20, fp_read := 2, fp_write := 0, fp_close := 9,
           events := 1, removed := 0 }] := by
  decide

/-- C4 amended (polling backend): as stated, for registries whose sources
have pairwise distinct fds.  In a turn of the loop whose `poll` returned a
positive value, let the loop reach a snapshot entry (no earlier entry ended in
`break`) that has `POLLERR`, `POLLHUP` or `POLLNVAL` set.  Then the only
callback invoked for its source in that turn is the close callback, once;
after the deferred removals the source is not in the registry; and every
source of the registry whose own entry had no error bit and whose fd no
callback passed to `gpoll_remove_fd` is still in the registry, unchanged. -/
theorem posix_error_closes_and_removes (w : Posix.World) (s : Posix.State)
    (before after : List (Posix.pollfd × Nat)) (pfd : Posix.pollfd) (p : Nat)
    (hpos : (Posix.poll_answer w s).1 > 0) (hpol : s.polling ≠ 0) (hwf : s.wf)
    (hfds : s.fds.Nodup) (hsnap : Posix.wake w s = before ++ (pfd, p) :: after)
    (herr : Posix.has_error pfd.revents = true)
    (hreach : (Posix.gpoll_dispatch w before s.polled).2 = false) :
    (∃ x, (Posix.calls ((Posix.gpoll_iteration w s).1.since s)).filter (fun c => c.1 = p)
      = [(p, Slot.close, x)]) ∧
    (∀ n ∈ (Posix.gpoll_iteration w s).1.sources, n.addr ≠ p) ∧
    (∀ n ∈ s.sources, n.removed = 0 →
      (∀ e ∈ Posix.wake w s, e.2 = n.addr → Posix.has_error e.1.revents = false) →
      (∀ x, Posix.Event.remove_fd n.fd x ∉ (Posix.gpoll_iteration w s).1.since s) →
      n ∈ (Posix.gpoll_iteration w s).1.sources) := by
  have hsplit : Posix.gpoll_dispatch w (Posix.wake w s) s.polled
      = Posix.gpoll_dispatch w ((pfd, p) :: after) (Posix.gpoll_dispatch w before s.polled).1 := by
    rw [hsnap, Posix.dispatch_append, hreach]; simp
  have hstep1 := Posix.step_dispatch w before s.polled
  have hstepE := Posix.step_entry w pfd p (Posix.gpoll_dispatch w before s.polled).1
  have hstep3 := Posix.step_dispatch w after
    (Posix.gpoll_entry w pfd p (Posix.gpoll_dispatch w before s.polled).1).1
  have hk1 : Posix.Keeps s.polled (Posix.gpoll_dispatch w before s.polled).1 :=
    hstep1.2.2.1 hpol
  have hpol1 : (Posix.gpoll_dispatch w before s.polled).1.polling ≠ 0 := by
    rw [hk1.1]; exact hpol
  have hkE := hstepE.2.2.1 hpol1
  have hpolE : (Posix.gpoll_entry w pfd p (Posix.gpoll_dispatch w before s.polled).1).1.polling
      ≠ 0 := by rw [hkE.1]; exact hpol1
  have hk3 := hstep3.2.2.1 hpolE
  have hnd := Posix.wake_nodup w s hwf
  rw [hsnap] at hnd
  simp only [List.map_append, List.map_cons] at hnd
  have hp1 : p ∉ before.map Prod.snd := fun h =>
    (List.nodup_append.mp hnd).2.2 h (by simp)
  have hp3 : p ∉ after.map Prod.snd :=
    (List.nodup_cons.mp (List.nodup_append.mp hnd).2.1).1
  obtain ⟨n0, hn0, ea, ef⟩ := Posix.mem_wake (show (pfd, p) ∈ Posix.wake w s by rw [hsnap]; simp)
  have ea : p = n0.addr := ea
  have ef : pfd.fd = n0.fd := ef
  refine ⟨?_, ?_, ?_⟩
  · refine ⟨(Posix.invoke w (Posix.gpoll_dispatch w before s.polled).1 p Slot.close).2, ?_⟩
    rw [Posix.iteration_since w s hpos, hsplit, Posix.since_trans hstep1.1
      (Posix.step_dispatch w ((pfd, p) :: after) _).1, Posix.calls_append, List.filter_append,
      Posix.filter_calls_none hstep1.2.1 hp1, Posix.dispatch_cons]
    by_cases hb : (Posix.gpoll_entry w pfd p (Posix.gpoll_dispatch w before s.polled).1).2 = true
    · simp only [hb, if_true, List.nil_append]
      rw [(Posix.entry_close w pfd p _ herr).1]
      simp
    · simp only [hb, Bool.false_eq_true, if_false, List.nil_append]
      rw [Posix.since_trans hstepE.1 hstep3.1, Posix.calls_append, List.filter_append,
        Posix.filter_calls_none hstep3.2.1 hp3, (Posix.entry_close w pfd p _ herr).1]
      simp
  · rw [Posix.iteration_pos w s hpos, hsplit]
    have hwf1 : (Posix.gpoll_dispatch w before s.polled).1.wf :=
      hk1.2.2.2 ((Posix.polled_keeps s).2.2.2 hwf)
    obtain ⟨pre, post, hs⟩ := List.append_of_mem hn0
    have hpre : ∀ n ∈ pre, n.fd ≠ pfd.fd := by
      intro n hn e
      have hmem : n ∈ s.sources := by rw [hs]; simp [hn]
      have := Posix.eq_of_fd_eq hfds hmem hn0 (by rw [e, ef])
      subst this
      have hcount := hwf.1
      simp only [Posix.State.addrs, hs, List.map_append, List.map_cons] at hcount
      exact (List.nodup_append.mp hcount).2.2 (List.mem_map_of_mem _ hn) (by simp)
    have hg1 : Posix.Grows s.sources (Posix.gpoll_dispatch w before s.polled).1.sources :=
      hk1.2.1
    rw [hs] at hg1
    obtain ⟨pre2, c2, post2, e2, hf, hc2, _⟩ := Posix.grows_split hg1
    have hflag := Posix.entry_flags w pfd p (Posix.gpoll_dispatch w before s.polled).1 herr hpol1
      pre2 post2 c2 e2 (by rw [Posix.later_addr hc2]; exact ea.symm)
      (by rw [Posix.later_fd hc2]; exact ef.symm)
      (Posix.forall₂_later_fd hf pfd.fd hpre)
    rw [Posix.dispatch_cons]
    by_cases hb : (Posix.gpoll_entry w pfd p (Posix.gpoll_dispatch w before s.polled).1).2 = true
    · simp only [hb, if_true]
      exact Posix.flagged_absent _ p (hkE.2.2.2 hwf1) hflag
    · simp only [hb, Bool.false_eq_true, if_false]
      exact Posix.flagged_absent _ p (hk3.2.2.2 (hkE.2.2.2 hwf1))
        (Posix.grows_flagged hk3.2.1 p hflag)
  · intro n hn hrem hclean hno
    rw [Posix.iteration_since w s hpos] at hno
    rw [Posix.iteration_pos w s hpos, Posix.defered_sources]
    apply List.mem_filter.mpr
    refine ⟨?_, by simp [hrem]⟩
    apply (Posix.step_dispatch w (Posix.wake w s) s.polled).2.2.2 n hn _ hno
    intro hmem
    simp only [Posix.error_fds, List.mem_map, List.mem_filter] at hmem
    obtain ⟨e, ⟨he, hee⟩, hfd⟩ := hmem
    obtain ⟨m, hm, e1, e2⟩ := Posix.mem_wake he
    have hmn : m = n := Posix.eq_of_fd_eq hfds hm hn (by rw [← e2, hfd])
    have := hclean e he (by rw [e1, hmn])
    rw [this] at hee
    exact absurd hee (by simp)

/-- C4 amended at a concrete input: A (fd 3) and B (fd 4) registered, the
wake reporting `POLLHUP` on B only. -/
theorem posix_error_closes_and_removes_witness :
    (∃ x, (Posix.calls ((Posix.gpoll_iteration Scenario.hangup_second
        Scenario.polling_a_b).1.since Scenario.polling_a_b)).filter (fun c => c.1 = 2)
      = [(2, Slot.close, x)]) ∧
    (∀ n ∈ (Posix.gpoll_iteration Scenario.hangup_second Scenario.polling_a_b).1.sources,
      n.addr ≠ 2) :=
  have h := posix_error_closes_and_removes Scenario.hangup_second Scenario.polling_a_b
    [({ fd := 3, events := 1, revents := 0 }, 1)] []
    { fd := 4, events := 4, revents := Posix.POLLHUP } 2
    (by decide) (by decide) (And.intro (by decide) (by decide)) (by decide) (by decide)
    (by decide) (by decide)
  ⟨h.1, h.2.1⟩

/-! ## Lemmas on the registry of the wait backend -/

namespace Windows

theorem win_erase_at (pre post : List poll_source) (c : poll_source) (h : c ∉ pre) :
    (pre ++ c :: post).erase c = pre ++ post := by
  induction pre with
  | nil => simp
  | cons x xs ih =>
    have hx : x ≠ c := fun e => h (by simp [e])
    have hc : c ∉ xs := fun hm => h (List.mem_cons_of_mem _ hm)
    simp [List.erase_cons, hx, ih hc]

theorem win_replace_at (pre post : List poll_source) (c d : poll_source) (h : c ∉ pre) :
    (pre ++ c :: post).replace c d = pre ++ d :: post := by
  induction pre with
  | nil => simp [List.replace]
  | cons x xs ih =>
    have hx : x ≠ c := fun e => h (by simp [e])
    have hc : c ∉ xs := fun hm => h (List.mem_cons_of_mem _ hm)
    have hb : (c == x) = false := by simpa using Ne.symm hx
    simp [List.replace, hb, ih hc]

theorem win_headroom_step (nb : Nat) (h1 : nb < 2 ^ 32) (h2 : nb ≠ MAX_SOURCES) :
    headroom (uinc nb) + 1 = headroom nb ∧ uinc nb < 2 ^ 32 := by
  unfold headroom uinc MAX_SOURCES MAXIMUM_WAIT_OBJECTS at *
  omega

/-- The outcomes of `gpoll_register_handle`: refused with the registry
untouched, or one node appended. -/
theorem win_register_handle_cases (w : World) (s : State) (handle : Int) (user : Nat)
    (cbs : GPOLL_CALLBACKS) :
    ((gpoll_register_handle w s handle user cbs).1.sources = s.sources ∧
      (gpoll_register_handle w s handle user cbs).1.nb_sources = s.nb_sources ∧
      (gpoll_register_handle w s handle user cbs).1.polling = s.polling ∧
      (gpoll_register_handle w s handle user cbs).1.trace = s.trace ∧
      s.clock ≤ (gpoll_register_handle w s handle user cbs).1.clock) ∨
    ((∃ n : poll_source, n.addr = s.clock + 1 ∧
        (gpoll_register_handle w s handle user cbs).1.sources = s.sources ++ [n]) ∧
      (gpoll_register_handle w s handle user cbs).1.nb_sources = uinc s.nb_sources ∧
      s.nb_sources ≠ MAX_SOURCES ∧
      (gpoll_register_handle w s handle user cbs).1.polling = s.polling ∧
      (gpoll_register_handle w s handle user cbs).1.trace = s.trace ∧
      s.clock + 1 ≤ (gpoll_register_handle w s handle user cbs).1.clock) := by
  unfold gpoll_register_handle
  by_cases h0 : handle = INVALID_HANDLE_VALUE
  · left; simp [h0]
  · by_cases h1 : cbs.fp_close = NULL
    · left; rw [if_neg h0, if_pos h1]; simp
    · by_cases h2 : cbs.fp_read = NULL ∧ cbs.fp_write = NULL
      · left; rw [if_neg h0, if_neg h1, if_pos h2]; simp
      · by_cases h3 : s.nb_sources = MAX_SOURCES
        · left; rw [if_neg h0, if_neg h1, if_neg h2, if_pos h3]; simp
        · rw [if_neg h0, if_neg h1, if_neg h2, if_neg h3]
          unfold calloc
          by_cases h4 : w.calloc_fails s.clock = true
          · left; simp [h4]
          · right
            simp only [h4, if_false]
            exact ⟨⟨_, rfl, rfl⟩, rfl, h3, rfl, rfl, le_refl _⟩

/-- The outcomes of `gpoll_register_fd`: refused with the registry untouched,
or one node appended. -/
theorem win_register_fd_cases (w : World) (s : State) (fd : Int) (user : Nat)
    (cbs : GPOLL_CALLBACKS) :
    ((gpoll_register_fd w s fd user cbs).1.sources = s.sources ∧
      (gpoll_register_fd w s fd user cbs).1.nb_sources = s.nb_sources ∧
      (gpoll_register_fd w s fd user cbs).1.polling = s.polling ∧
      (gpoll_register_fd w s fd user cbs).1.trace = s.trace ∧
      s.clock ≤ (gpoll_register_fd w s fd user cbs).1.clock) ∨
    ((∃ n : poll_source, n.addr = s.clock + 1 ∧
        (gpoll_register_fd w s fd user cbs).1.sources = s.sources ++ [n]) ∧
      (gpoll_register_fd w s fd user cbs).1.nb_sources = uinc s.nb_sources ∧
      s.nb_sources ≠ MAX_SOURCES ∧
      (gpoll_register_fd w s fd user cbs).1.polling = s.polling ∧
      (gpoll_register_fd w s fd user cbs).1.trace = s.trace ∧
      s.clock + 1 ≤ (gpoll_register_fd w s fd user cbs).1.clock) := by
  unfold gpoll_register_fd
  by_cases h0 : fd < 0
  · left; simp [h0]
  · by_cases h1 : cbs.fp_close = NULL
    · left; rw [if_neg h0, if_pos h1]; simp
    · by_cases h2 : cbs.fp_read = NULL
      · left; rw [if_neg h0, if_neg h1, if_pos h2]; simp
      · by_cases h3 : s.nb_sources = MAX_SOURCES
        · left; rw [if_neg h0, if_neg h1, if_neg h2, if_pos h3]; simp
        · rw [if_neg h0, if_neg h1, if_neg h2, if_neg h3]
          unfold calloc
          by_cases h4 : w.calloc_fails s.clock = true
          · left; simp [h4]
          · have h4f : w.calloc_fails s.clock = false := by simpa using h4
            rw [h4f]
            simp only [Bool.false_eq_true, if_false]
            by_cases h5 : w.WSAEventSelect (s.clock + 1 + 1) fd (w.CreateEvent (s.clock + 1))
                = SOCKET_ERROR
            · left; rw [if_pos h5]
              refine ⟨rfl, rfl, rfl, rfl, ?_⟩
              show s.clock ≤ s.clock + 1 + 1 + 1
              omega
            · right; rw [if_neg h5]
              refine ⟨⟨_, rfl, rfl⟩, rfl, h3, rfl, rfl, ?_⟩
              show s.clock + 1 ≤ s.clock + 1 + 1 + 1
              omega

/-- The outcomes, while polling, of a removal that looks for the first node
satisfying `q`: nothing found and nothing changed, or that node tombstoned in
place. -/
theorem win_find_cases (l : List poll_source) (q : poll_source → Bool) :
    l.find? q = none ∨
    ∃ pre c post, l.find? q = some c ∧ l = pre ++ c :: post ∧ c ∉ pre := by
  cases hf : l.find? q with
  | none => exact Or.inl rfl
  | some c =>
    right
    obtain ⟨hq, pre, post, e, hpre⟩ := List.find?_eq_some.mp hf
    refine ⟨pre, c, post, rfl, e, ?_⟩
    intro hm
    have := hpre c hm
    simp [hq] at this

theorem win_later_refl (a : poll_source) : a.later a := Or.inl rfl

theorem win_later_trans {a b c : poll_source} (h1 : a.later b) (h2 : b.later c) :
    a.later c := by
  rcases h1 with rfl | rfl
  · exact h2
  · rcases h2 with rfl | rfl
    · exact Or.inr rfl
    · exact Or.inr rfl

theorem win_later_addr {a b : poll_source} (h : a.later b) : b.addr = a.addr := by
  rcases h with rfl | rfl <;> rfl

theorem win_grows_refl (l : List poll_source) : Grows l l := by
  induction l with
  | nil => trivial
  | cons a l ih => exact ⟨win_later_refl a, ih⟩

theorem win_grows_trans {l1 l2 l3 : List poll_source} (h12 : Grows l1 l2)
    (h23 : Grows l2 l3) : Grows l1 l3 := by
  induction l1 generalizing l2 l3 with
  | nil => trivial
  | cons a l1 ih =>
    cases l2 with
    | nil => exact absurd h12 (by simp [Grows])
    | cons b l2 =>
      cases l3 with
      | nil => exact absurd h23 (by simp [Grows])
      | cons c l3 => exact ⟨win_later_trans h12.1 h23.1, ih h12.2 h23.2⟩

theorem win_grows_append (l extra : List poll_source) : Grows l (l ++ extra) := by
  induction l with
  | nil => trivial
  | cons a l ih => exact ⟨win_later_refl a, ih⟩

theorem win_grows_tombstone (pre post : List poll_source) (c : poll_source) :
    Grows (pre ++ c :: post) (pre ++ { c with removed := 1 } :: post) := by
  induction pre with
  | nil => exact ⟨Or.inr rfl, win_grows_refl post⟩
  | cons a pre ih => exact ⟨win_later_refl a, ih⟩

/-- A grown list keeps every node of the old list at its place. -/
theorem win_grows_split {pre post l2 : List poll_source} {c : poll_source}
    (h : Grows (pre ++ c :: post) l2) :
    ∃ pre2 c2 post2, l2 = pre2 ++ c2 :: post2 ∧ pre2.length = pre.length ∧
      c.later c2 ∧ Grows post post2 := by
  induction pre generalizing l2 with
  | nil =>
    cases l2 with
    | nil => exact absurd h (by simp [Grows])
    | cons b l2 => exact ⟨[], b, l2, rfl, rfl, h.1, h.2⟩
  | cons a pre ih =>
    cases l2 with
    | nil => exact absurd h (by simp [Grows])
    | cons b l2 =>
      obtain ⟨pre2, c2, post2, e, hl, hc, hp⟩ := ih h.2
      exact ⟨b :: pre2, c2, post2, by simp [e], by simp [hl], hc, hp⟩

theorem win_grows_length {l1 l2 : List poll_source} (h : Grows l1 l2) :
    l1.length ≤ l2.length := by
  induction l1 generalizing l2 with
  | nil => simp
  | cons a l1 ih =>
    cases l2 with
    | nil => exact absurd h (by simp [Grows])
    | cons b l2 => simpa using ih h.2

theorem win_keeps_refl (s : State) : Keeps s s :=
  ⟨rfl, win_grows_refl _, le_refl _, fun h => ⟨h, le_refl _⟩⟩

theorem win_keeps_trans {s1 s2 s3 : State} (h12 : Keeps s1 s2) (h23 : Keeps s2 s3) :
    Keeps s1 s3 :=
  ⟨h23.1.trans h12.1, win_grows_trans h12.2.1 h23.2.1, le_trans h12.2.2.1 h23.2.2.1,
    fun h => ⟨(h23.2.2.2 (h12.2.2.2 h).1).1,
      le_trans (h23.2.2.2 (h12.2.2.2 h).1).2 (h12.2.2.2 h).2⟩⟩

theorem win_keeps_of_same {s1 s2 : State} (hsrc : s2.sources = s1.sources)
    (hnb : s2.nb_sources = s1.nb_sources) (hpol : s2.polling = s1.polling)
    (hclk : s1.clock ≤ s2.clock) : Keeps s1 s2 := by
  refine ⟨hpol, by rw [hsrc]; exact win_grows_refl _, hclk, ?_⟩
  intro hwf
  refine ⟨⟨by simpa [State.addrs, hsrc] using hwf.1, ?_, by rw [hnb]; exact hwf.2.2⟩, ?_⟩
  · intro m hm
    rw [hsrc] at hm
    exact le_trans (hwf.2.1 m hm) hclk
  · simp [walk_fuel, hsrc, hnb]

theorem win_keeps_of_append {s1 s2 : State} (n : poll_source) (haddr : n.addr = s1.clock + 1)
    (hsrc : s2.sources = s1.sources ++ [n]) (hnb : s2.nb_sources = uinc s1.nb_sources)
    (hroom : s1.nb_sources ≠ MAX_SOURCES) (hpol : s2.polling = s1.polling)
    (hclk : s1.clock + 1 ≤ s2.clock) : Keeps s1 s2 := by
  refine ⟨hpol, by rw [hsrc]; exact win_grows_append _ _, by omega, ?_⟩
  intro hwf
  have hroom2 := win_headroom_step s1.nb_sources hwf.2.2 hroom
  refine ⟨⟨?_, ?_, by rw [hnb]; exact hroom2.2⟩, ?_⟩
  · simp only [State.addrs, hsrc, List.map_append, List.map_cons, List.map_nil, haddr]
    apply List.Nodup.append hwf.1 (List.nodup_singleton _)
    intro a ha hb
    obtain ⟨m, hm, e⟩ := List.mem_map.mp ha
    have := hwf.2.1 m hm
    rw [List.mem_singleton] at hb
    omega
  · intro m hm
    rw [hsrc] at hm
    rcases List.mem_append.mp hm with h | h
    · have := hwf.2.1 m h; omega
    · rw [List.mem_singleton.mp h, haddr]; exact hclk
  · simp only [walk_fuel, hsrc, hnb, List.length_append, List.length_singleton]
    omega

theorem win_keeps_register_fd (w : World) (s : State) (fd : Int) (user : Nat)
    (cbs : GPOLL_CALLBACKS) : Keeps s (gpoll_register_fd w s fd user cbs).1 := by
  rcases win_register_fd_cases w s fd user cbs with
    ⟨hsrc, hnb, hpol, _, hclk⟩ | ⟨⟨n, haddr, hsrc⟩, hnb, hroom, hpol, _, hclk⟩
  · exact win_keeps_of_same hsrc hnb hpol hclk
  · exact win_keeps_of_append n haddr hsrc hnb hroom hpol hclk

theorem win_keeps_register_handle (w : World) (s : State) (handle : Int) (user : Nat)
    (cbs : GPOLL_CALLBACKS) : Keeps s (gpoll_register_handle w s handle user cbs).1 := by
  rcases win_register_handle_cases w s handle user cbs with
    ⟨hsrc, hnb, hpol, _, hclk⟩ | ⟨⟨n, haddr, hsrc⟩, hnb, hroom, hpol, _, hclk⟩
  · exact win_keeps_of_same hsrc hnb hpol hclk
  · exact win_keeps_of_append n haddr hsrc hnb hroom hpol hclk

theorem win_keeps_tombstone (s : State) (pre post : List poll_source) (c : poll_source)
    (hs : s.sources = pre ++ c :: post) :
    Keeps s { s with sources := pre ++ { c with removed := 1 } :: post } := by
  refine ⟨rfl, ?_, le_refl _, ?_⟩
  · show Grows s.sources (pre ++ { c with removed := 1 } :: post)
    rw [hs]; exact win_grows_tombstone pre post c
  · intro hwf
    refine ⟨⟨?_, ?_, hwf.2.2⟩, ?_⟩
    · have := hwf.1
      simpa [State.addrs, hs] using this
    · intro m hm
      have hm2 : m ∈ pre ++ { c with removed := 1 } :: post := hm
      rcases List.mem_append.mp hm2 with h | h
      · exact hwf.2.1 m (by simp [hs, h])
      · rcases List.mem_cons.mp h with rfl | h
        · exact hwf.2.1 c (by simp [hs])
        · exact hwf.2.1 m (by simp [hs, h])
    · simp [walk_fuel, hs]

theorem win_keeps_remove_fd (s : State) (fd : Int) (hpol : s.polling ≠ 0) :
    Keeps s (gpoll_remove_fd s fd).1 ∧ (gpoll_remove_fd s fd).1.trace = s.trace := by
  unfold gpoll_remove_fd
  rcases win_find_cases s.sources (fun current => fd == current.fd) with
    hf | ⟨pre, c, post, hf, hs, hnot⟩
  · rw [hf]; exact ⟨win_keeps_refl s, rfl⟩
  · rw [hf]
    simp only [if_pos hpol]
    rw [hs, win_replace_at pre post c _ hnot]
    exact ⟨win_keeps_tombstone s pre post c hs, trivial⟩

theorem win_keeps_remove_handle (s : State) (handle : Int) (hpol : s.polling ≠ 0) :
    Keeps s (gpoll_remove_handle s handle).1 ∧ (gpoll_remove_handle s handle).1.trace = s.trace := by
  unfold gpoll_remove_handle
  rcases win_find_cases s.sources (fun current => handle == current.handle) with
    hf | ⟨pre, c, post, hf, hs, hnot⟩
  · rw [hf]; exact ⟨win_keeps_refl s, rfl⟩
  · rw [hf]
    simp only [if_pos hpol]
    rw [hs, win_replace_at pre post c _ hnot]
    exact ⟨win_keeps_tombstone s pre post c hs, trivial⟩

end Windows

namespace Windows

theorem win_since_of_trace {s1 s2 : State} {evs : List Event}
    (h : s2.trace = s1.trace ++ evs) : s2.since s1 = evs := by
  simp [State.since, h]

theorem win_since_self (s : State) : s.since s = [] := by simp [State.since]

theorem win_since_trans {s1 s2 s3 : State} (h12 : ∃ evs, s2.trace = s1.trace ++ evs)
    (h23 : ∃ evs, s3.trace = s2.trace ++ evs) :
    s3.since s1 = s2.since s1 ++ s3.since s2 := by
  obtain ⟨e1, h1⟩ := h12
  obtain ⟨e2, h2⟩ := h23
  have h3 : s3.trace = s1.trace ++ (e1 ++ e2) := by rw [h2, h1, List.append_assoc]
  rw [win_since_of_trace h1, win_since_of_trace h2, win_since_of_trace h3]

theorem win_visits_append (a b : List Event) : visits (a ++ b) = visits a ++ visits b := by
  simp [visits, List.filterMap_append]

theorem win_run_register_fd (w : World) (fd : Int) (user : Nat) (cbs : GPOLL_CALLBACKS)
    (k : Int → Callback) (s : State) :
    run_callback w (.register_fd fd user cbs k) s =
      run_callback w (k (gpoll_register_fd w s fd user cbs).2)
        { (gpoll_register_fd w s fd user cbs).1 with
          trace := (gpoll_register_fd w s fd user cbs).1.trace ++
            [Event.register_fd fd (gpoll_register_fd w s fd user cbs).2] } := rfl

theorem win_run_register_handle (w : World) (handle : Int) (user : Nat)
    (cbs : GPOLL_CALLBACKS) (k : Int → Callback) (s : State) :
    run_callback w (.register_handle handle user cbs k) s =
      run_callback w (k (gpoll_register_handle w s handle user cbs).2)
        { (gpoll_register_handle w s handle user cbs).1 with
          trace := (gpoll_register_handle w s handle user cbs).1.trace ++
            [Event.register_handle handle (gpoll_register_handle w s handle user cbs).2] } :=
  rfl

theorem win_run_remove_fd (w : World) (fd : Int) (k : Int → Callback) (s : State) :
    run_callback w (.remove_fd fd k) s =
      run_callback w (k (gpoll_remove_fd s fd).2)
        { (gpoll_remove_fd s fd).1 with
          trace := (gpoll_remove_fd s fd).1.trace ++
            [Event.remove_fd fd (gpoll_remove_fd s fd).2] } := rfl

theorem win_run_remove_handle (w : World) (handle : Int) (k : Int → Callback) (s : State) :
    run_callback w (.remove_handle handle k) s =
      run_callback w (k (gpoll_remove_handle s handle).2)
        { (gpoll_remove_handle s handle).1 with
          trace := (gpoll_remove_handle s handle).1.trace ++
            [Event.remove_handle handle (gpoll_remove_handle s handle).2] } := rfl

theorem win_run_set_rawinput (w : World) (callback : Nat) (k : Callback) (s : State) :
    run_callback w (.set_rawinput_callback callback k) s =
      run_callback w k
        { gpoll_set_rawinput_callback s callback with
          trace := (gpoll_set_rawinput_callback s callback).trace ++
            [Event.set_rawinput_callback callback] } := rfl

/-- What running a callback body does while polling: it appends API entries to
the log, no visit of a node, and only grows the registry. -/
theorem win_run_callback_spec (w : World) (c : Callback) (s : State) (hpol : s.polling ≠ 0) :
    ∃ evs, (run_callback w c s).1.trace = s.trace ++ evs ∧ visits evs = [] ∧
      Keeps s (run_callback w c s).1 := by
  induction c generalizing s with
  | ret r => exact ⟨[], by simp [run_callback], rfl, win_keeps_refl s⟩
  | register_fd fd user cbs k ih =>
    rw [win_run_register_fd]
    have hk : Keeps s (gpoll_register_fd w s fd user cbs).1 := win_keeps_register_fd w s fd user cbs
    have ht : (gpoll_register_fd w s fd user cbs).1.trace = s.trace := by
      rcases win_register_fd_cases w s fd user cbs with h | h
      · exact h.2.2.2.1
      · exact h.2.2.2.2.1
    obtain ⟨evs, e1, e2, e3⟩ := ih (gpoll_register_fd w s fd user cbs).2
      { (gpoll_register_fd w s fd user cbs).1 with
        trace := (gpoll_register_fd w s fd user cbs).1.trace ++
          [Event.register_fd fd (gpoll_register_fd w s fd user cbs).2] }
      (by show (gpoll_register_fd w s fd user cbs).1.polling ≠ 0
          rw [hk.1]; exact hpol)
    refine ⟨Event.register_fd fd (gpoll_register_fd w s fd user cbs).2 :: evs, ?_, ?_, ?_⟩
    · rw [e1]; simp [ht]
    · simpa [visits, Event.visit?] using e2
    · exact win_keeps_trans hk e3
  | register_handle handle user cbs k ih =>
    rw [win_run_register_handle]
    have hk : Keeps s (gpoll_register_handle w s handle user cbs).1 :=
      win_keeps_register_handle w s handle user cbs
    have ht : (gpoll_register_handle w s handle user cbs).1.trace = s.trace := by
      rcases win_register_handle_cases w s handle user cbs with h | h
      · exact h.2.2.2.1
      · exact h.2.2.2.2.1
    obtain ⟨evs, e1, e2, e3⟩ := ih (gpoll_register_handle w s handle user cbs).2
      { (gpoll_register_handle w s handle user cbs).1 with
        trace := (gpoll_register_handle w s handle user cbs).1.trace ++
          [Event.register_handle handle (gpoll_register_handle w s handle user cbs).2] }
      (by show (gpoll_register_handle w s handle user cbs).1.polling ≠ 0
          rw [hk.1]; exact hpol)
    refine ⟨Event.register_handle handle (gpoll_register_handle w s handle user cbs).2 :: evs,
      ?_, ?_, ?_⟩
    · rw [e1]; simp [ht]
    · simpa [visits, Event.visit?] using e2
    · exact win_keeps_trans hk e3
  | remove_fd fd k ih =>
    rw [win_run_remove_fd]
    obtain ⟨hk, ht⟩ := win_keeps_remove_fd s fd hpol
    obtain ⟨evs, e1, e2, e3⟩ := ih (gpoll_remove_fd s fd).2
      { (gpoll_remove_fd s fd).1 with
        trace := (gpoll_remove_fd s fd).1.trace ++
          [Event.remove_fd fd (gpoll_remove_fd s fd).2] }
      (by show (gpoll_remove_fd s fd).1.polling ≠ 0
          rw [hk.1]; exact hpol)
    refine ⟨Event.remove_fd fd (gpoll_remove_fd s fd).2 :: evs, ?_, ?_, ?_⟩
    · rw [e1]; simp [ht]
    · simpa [visits, Event.visit?] using e2
    · exact win_keeps_trans hk e3
  | remove_handle handle k ih =>
    rw [win_run_remove_handle]
    obtain ⟨hk, ht⟩ := win_keeps_remove_handle s handle hpol
    obtain ⟨evs, e1, e2, e3⟩ := ih (gpoll_remove_handle s handle).2
      { (gpoll_remove_handle s handle).1 with
        trace := (gpoll_remove_handle s handle).1.trace ++
          [Event.remove_handle handle (gpoll_remove_handle s handle).2] }
      (by show (gpoll_remove_handle s handle).1.polling ≠ 0
          rw [hk.1]; exact hpol)
    refine ⟨Event.remove_handle handle (gpoll_remove_handle s handle).2 :: evs, ?_, ?_, ?_⟩
    · rw [e1]; simp [ht]
    · simpa [visits, Event.visit?] using e2
    · exact win_keeps_trans hk e3
  | set_rawinput_callback callback k ih =>
    rw [win_run_set_rawinput]
    obtain ⟨evs, e1, e2, e3⟩ := ih
      { gpoll_set_rawinput_callback s callback with
        trace := (gpoll_set_rawinput_callback s callback).trace ++
          [Event.set_rawinput_callback callback] } hpol
    refine ⟨Event.set_rawinput_callback callback :: evs, ?_, ?_, ?_⟩
    · rw [e1]; simp [gpoll_set_rawinput_callback]
    · simpa [visits, Event.visit?] using e2
    · refine win_keeps_trans ?_ e3
      exact win_keeps_of_same rfl rfl rfl (le_refl _)

/-- What one call through a slot of a node does while polling: the callback's
API entries and then the entry of the call are appended to the log, and the
registry only grows. -/
theorem win_invoke_spec (w : World) (s : State) (p : Nat) (slot : Slot) (hpol : s.polling ≠ 0) :
    (∃ evs, (invoke w s p slot).1.trace = s.trace ++ evs) ∧
    visits ((invoke w s p slot).1.since s) = [(p, Visit.call slot)] ∧
    Keeps s (invoke w s p slot).1 := by
  obtain ⟨evs, e1, e2, e3⟩ := win_run_callback_spec w
    (w.callback s.clock (((deref s p).getD null_source).fp slot)
      ((deref s p).getD null_source).user)
    { s with clock := s.clock + 1,
             fault := s.fault || (deref s p).isNone ||
               ((deref s p).getD null_source).fp slot == NULL } hpol
  have ht : (invoke w s p slot).1.trace = s.trace ++ (evs ++
      [Event.call p slot (((deref s p).getD null_source).fp slot)
        ((deref s p).getD null_source).user (invoke w s p slot).2]) := by
    show _ ++ _ = _
    rw [e1]; simp [invoke]
  refine ⟨⟨_, ht⟩, ?_, ?_⟩
  · rw [win_since_of_trace ht, win_visits_append, e2]
    simp [visits, Event.visit?]
  · refine win_keeps_trans ?_ e3
    exact win_keeps_of_same rfl rfl rfl (Nat.le_succ _)

end Windows

namespace Windows

/-! ### The `for` loop of the wait backend -/

theorem win_stretch_refl (p : Nat) (s : State) : Stretch p s s [] :=
  ⟨⟨[], by simp⟩, win_keeps_refl s, by simp [win_since_self, visits]⟩

theorem win_stretch_trans {p : Nat} {s1 s2 s3 : State} {b1 b2 : List Visit}
    (h12 : Stretch p s1 s2 b1) (h23 : Stretch p s2 s3 b2) : Stretch p s1 s3 (b1 ++ b2) := by
  obtain ⟨e1, h1⟩ := h12.1
  obtain ⟨e2, h2⟩ := h23.1
  refine ⟨⟨e1 ++ e2, by rw [h2, h1, List.append_assoc]⟩, win_keeps_trans h12.2.1 h23.2.1, ?_⟩
  rw [win_since_trans h12.1 h23.1, win_visits_append, h12.2.2, h23.2.2, List.map_append]

theorem win_stretch_invoke (w : World) (s : State) (p : Nat) (slot : Slot)
    (hpol : s.polling ≠ 0) : Stretch p s (invoke w s p slot).1 [Visit.call slot] := by
  obtain ⟨h1, h2, h3⟩ := win_invoke_spec w s p slot hpol
  exact ⟨h1, h3, by rw [h2]; rfl⟩

theorem win_stretch_same (p : Nat) {s1 s2 : State} (hsrc : s2.sources = s1.sources)
    (hnb : s2.nb_sources = s1.nb_sources) (hpol : s2.polling = s1.polling)
    (hclk : s1.clock ≤ s2.clock) (htr : s2.trace = s1.trace) : Stretch p s1 s2 [] :=
  ⟨⟨[], by simp [htr]⟩, win_keeps_of_same hsrc hnb hpol hclk,
    by simp [State.since, htr, visits]⟩

theorem win_stretch_polling {p : Nat} {s1 s2 : State} {blk : List Visit}
    (h : Stretch p s1 s2 blk) (hpol : s1.polling ≠ 0) : s2.polling ≠ 0 := by
  rw [h.2.1.1]; exact hpol

/-- The probe part of the body: either the node holds the winning object and
nothing is logged, or its handle is probed once, and the body goes on exactly
when the probe returned `WAIT_OBJECT_0`. -/
theorem win_probe_spec (w : World) (result : Nat) (handles : List Int) (p : Nat)
    (c : poll_source) (s : State) :
    (Winner result handles c ∧ gpoll_probe w result handles p c s = (s, true)) ∨
    (¬ Winner result handles c ∧
      ∃ r, Stretch p s (gpoll_probe w result handles p c s).1 [Visit.probe r] ∧
        (gpoll_probe w result handles p c s).2 = decide (r = WAIT_OBJECT_0)) := by
  unfold gpoll_probe
  by_cases hc : result ≥ handles.length ∨ some c.handle ≠ handles.get? result
  · right
    have hnw : ¬ Winner result handles c := by
      rintro ⟨h1, h2⟩
      rcases hc with h | h
      · omega
      · exact h h2.symm
    refine ⟨hnw, w.WaitForSingleObject s.clock c.handle, ?_, ?_⟩
    · have hst : Stretch p s
          { s with clock := s.clock + 1,
                   trace := s.trace ++ [Event.probe p (w.WaitForSingleObject s.clock c.handle)] }
          [Visit.probe (w.WaitForSingleObject s.clock c.handle)] :=
        ⟨⟨_, rfl⟩, win_keeps_of_same rfl rfl rfl (Nat.le_succ _),
          by simp [State.since, visits, Event.visit?]⟩
      rw [if_pos hc]
      by_cases h1 : w.WaitForSingleObject s.clock c.handle = WAIT_FAILED
      · simpa [h1] using hst
      · by_cases h2 : w.WaitForSingleObject s.clock c.handle = WAIT_OBJECT_0
        · simpa [h1, h2] using hst
        · simpa [h1, h2] using hst
    · rw [if_pos hc]
      by_cases h1 : w.WaitForSingleObject s.clock c.handle = WAIT_FAILED
      · simp [h1, WAIT_FAILED, WAIT_OBJECT_0]
      · by_cases h2 : w.WaitForSingleObject s.clock c.handle = WAIT_OBJECT_0
        · have hne : WAIT_OBJECT_0 ≠ WAIT_FAILED := by decide
          simp [h2, hne]
        · simp [h1, h2]
  · left
    rw [if_neg hc]
    refine ⟨?_, rfl⟩
    simp only [not_or, not_le, ne_eq, not_not] at hc
    exact ⟨hc.1, hc.2.symm⟩

/-- The network part of the body logs at most one call, of the node. -/
theorem win_network_spec (w : World) (p : Nat) (c : poll_source) (s : State) (done : Nat)
    (hpol : s.polling ≠ 0) : ∃ blk, Stretch p s (gpoll_network w p c s done).1 blk := by
  have h0 : Stretch p s { s with clock := s.clock + 1 } [] :=
    win_stretch_same p rfl rfl rfl (Nat.le_succ _) rfl
  have hclose := win_stretch_trans h0
    (win_stretch_invoke w { s with clock := s.clock + 1 } p Slot.close hpol)
  have hread := win_stretch_trans h0
    (win_stretch_invoke w { s with clock := s.clock + 1 } p Slot.read hpol)
  unfold gpoll_network
  by_cases h1 : (w.WSAEnumNetworkEvents s.clock c.fd c.handle).1 ≠ 0
  · exact ⟨_, by simpa [h1] using hclose⟩
  · by_cases h2 : (w.WSAEnumNetworkEvents s.clock c.fd c.handle).2.1 &&& FD_READ ≠ 0
    · by_cases h3 : (w.WSAEnumNetworkEvents s.clock c.fd c.handle).2.2 ≠ 0
      · exact ⟨_, by simpa [h1, h2, h3] using hclose⟩
      · exact ⟨_, by simpa [h1, h2, h3] using hread⟩
    · exact ⟨_, by simpa [h1, h2] using h0⟩

/-- The part of the body for other sources calls the read callback if there
is one and then the write callback if there is one. -/
theorem win_other_spec (w : World) (p : Nat) (c : poll_source) (s : State) (done : Nat)
    (hpol : s.polling ≠ 0) : Stretch p s (gpoll_other w p c s done).1 (callbacks_of c) := by
  unfold gpoll_other callbacks_of
  by_cases hr : c.fp_read ≠ NULL
  · have h1 := win_stretch_invoke w s p Slot.read hpol
    have hpol1 := win_stretch_polling h1 hpol
    by_cases hw : c.fp_write ≠ NULL
    · simpa [hr, hw] using
        win_stretch_trans h1 (win_stretch_invoke w (invoke w s p Slot.read).1 p Slot.write hpol1)
    · simpa [hr, hw] using h1
  · by_cases hw : c.fp_write ≠ NULL
    · simpa [hr, hw] using win_stretch_invoke w s p Slot.write hpol
    · simpa [hr, hw] using win_stretch_refl p s

/-- The body of the `for` loop, for a linked node: a stretch spent on that
node, in which a handle-only node is served as starvation avoidance
promises. -/
theorem win_body_spec (w : World) (result : Nat) (handles : List Int) (p : Nat) (s : State)
    (done : Nat) (c : poll_source) (hpol : s.polling ≠ 0) (hd : deref s p = some c) :
    ∃ blk, Stretch p s (gpoll_body w result handles p s done).1 blk ∧
      Served result handles c blk := by
  have h0 : Stretch p s { s with fault := s.fault || (deref s p).isNone } [] :=
    win_stretch_same p rfl rfl rfl (le_refl _) rfl
  unfold gpoll_body
  simp only [hd, Option.getD_some]
  by_cases hnull : c.fp_read = NULL ∧ c.fp_write = NULL
  · rw [if_pos hnull]
    exact ⟨[], h0, fun _ h => absurd hnull h⟩
  · rw [if_neg hnull]
    rcases win_probe_spec w result handles p c { s with fault := s.fault || (some c).isNone } with
      ⟨hwin, hp⟩ | ⟨hnw, r, hst, hready⟩
    · rw [hp]
      simp only [Bool.true_eq_false, if_false]
      by_cases hfd : c.fd ≥ 0
      · rw [if_pos hfd]
        obtain ⟨blk, hb⟩ := win_network_spec w p c
          { s with fault := s.fault || (some c).isNone } done hpol
        exact ⟨blk, win_stretch_trans h0 hb, fun hneg => absurd hfd (not_le.mpr hneg)⟩
      · rw [if_neg hfd]
        have hb := win_other_spec w p c { s with fault := s.fault || (some c).isNone } done hpol
        refine ⟨_, win_stretch_trans h0 hb, fun _ _ => ⟨fun _ => by simp, fun h => absurd hwin h⟩⟩
    · have hst0 := win_stretch_trans h0 hst
      have hpol1 : (gpoll_probe w result handles p c
          { s with fault := s.fault || (some c).isNone }).1.polling ≠ 0 :=
        win_stretch_polling hst hpol
      by_cases hr : r = WAIT_OBJECT_0
      · have hready' : (gpoll_probe w result handles p c
            { s with fault := s.fault || (some c).isNone }).2 = true := by
          rw [hready]; simp [hr]
        simp only [hready', Bool.true_eq_false, if_false]
        by_cases hfd : c.fd ≥ 0
        · rw [if_pos hfd]
          obtain ⟨blk, hb⟩ := win_network_spec w p c (gpoll_probe w result handles p c
            { s with fault := s.fault || (some c).isNone }).1 done hpol1
          exact ⟨_, win_stretch_trans hst0 hb, fun hneg => absurd hfd (not_le.mpr hneg)⟩
        · rw [if_neg hfd]
          have hb := win_other_spec w p c (gpoll_probe w result handles p c
            { s with fault := s.fault || (some c).isNone }).1 done hpol1
          refine ⟨_, win_stretch_trans hst0 hb,
            fun _ _ => ⟨fun h => absurd h hnw, fun _ => ⟨r, by simp [hr]⟩⟩⟩
      · have hready' : (gpoll_probe w result handles p c
            { s with fault := s.fault || (some c).isNone }).2 = false := by
          rw [hready]; simp [hr]
        simp only [hready', if_true]
        refine ⟨_, hst0, fun _ _ => ⟨fun h => absurd h hnw, fun _ => ⟨r, by simp [hr]⟩⟩⟩

end Windows

namespace Windows

theorem win_deref_at (s : State) (pre rest : List poll_source) (c : poll_source)
    (hs : s.sources = pre ++ c :: rest) (hnd : s.addrs.Nodup) : deref s c.addr = some c := by
  unfold deref
  rw [List.find?_eq_some]
  refine ⟨by simp, pre, rest, hs, ?_⟩
  intro a ha
  simp only [State.addrs, hs, List.map_append, List.map_cons] at hnd
  have hne : a.addr ≠ c.addr := by
    intro e
    exact (List.nodup_append.mp hnd).2.2 (List.mem_map_of_mem _ ha) (by simp [e])
  simpa using hne

theorem win_next_at (pre rest : List poll_source) (c : poll_source)
    (hnot : ∀ a ∈ pre, a.addr ≠ c.addr) :
    GLIST_NEXT (pre ++ c :: rest) c.addr = GLIST_BEGIN rest := by
  induction pre with
  | nil => simp [GLIST_NEXT]
  | cons a pre ih =>
    have ha : a.addr ≠ c.addr := hnot a (by simp)
    simp only [List.cons_append, GLIST_NEXT, if_neg ha]
    exact ih (fun b hb => hnot b (List.mem_cons_of_mem _ hb))

theorem win_walk_end (w : World) (result : Nat) (handles : List Int) (fuel : Nat) (s : State)
    (done : Nat) : gpoll_walk w result handles fuel none s done = (s, done, none) := by
  cases fuel <;> rfl

theorem win_walk_step (w : World) (result : Nat) (handles : List Int) (fuel : Nat) (p : Nat)
    (s : State) (done : Nat) :
    gpoll_walk w result handles (fuel + 1) (some p) s done =
      gpoll_walk w result handles fuel
        (GLIST_NEXT (gpoll_body w result handles p s done).1.sources p)
        (gpoll_body w result handles p s done).1 (gpoll_body w result handles p s done).2 := rfl

theorem win_served_later {result : Nat} {handles : List Int} {c c2 : poll_source}
    {blk : List Visit} (h : Served result handles c blk) (hl : c.later c2) :
    Served result handles c2 blk := by
  rcases hl with rfl | rfl
  · exact h
  · exact h

/-- The `for` loop from the node after the nodes `pre` on: with fuel for the
nodes that can still come it reaches the end of the list, and the visits it
logs are those of the nodes after `pre` in the final list, node by node in
list order, each handle-only node served as promised. -/
theorem win_walk_spec (w : World) (result : Nat) (handles : List Int) (fuel : Nat) :
    ∀ (s : State) (done : Nat) (pre rest : List poll_source), s.polling ≠ 0 → s.wf →
      s.sources = pre ++ rest → walk_fuel s ≤ fuel + pre.length →
      (gpoll_walk w result handles fuel (GLIST_BEGIN rest) s done).2.2 = none ∧
      (∃ evs, (gpoll_walk w result handles fuel (GLIST_BEGIN rest) s done).1.trace
        = s.trace ++ evs) ∧
      Keeps s (gpoll_walk w result handles fuel (GLIST_BEGIN rest) s done).1 ∧
      ∃ served : List (poll_source × List Visit),
        (gpoll_walk w result handles fuel (GLIST_BEGIN rest) s done).1.sources.drop pre.length
          = served.map Prod.fst ∧
        (∀ x ∈ served, Served result handles x.1 x.2) ∧
        visits ((gpoll_walk w result handles fuel (GLIST_BEGIN rest) s done).1.since s)
          = log_of served := by
  induction fuel with
  | zero =>
    intro s done pre rest hpol hwf hs hfuel
    have hlen : s.sources.length ≤ pre.length := by
      unfold walk_fuel at hfuel; omega
    have hrest : rest = [] := by
      rw [hs, List.length_append] at hlen
      exact List.eq_nil_of_length_eq_zero (by omega)
    subst hrest
    simp only [GLIST_BEGIN, List.head?_nil, Option.map_none', win_walk_end]
    refine ⟨trivial, ⟨[], by simp⟩, win_keeps_refl s, [], ?_, by simp,
      by simp [win_since_self, visits, log_of]⟩
    simp [hs]
  | succ f ih =>
    intro s done pre rest hpol hwf hs hfuel
    cases rest with
    | nil =>
      simp only [GLIST_BEGIN, List.head?_nil, Option.map_none', win_walk_end]
      refine ⟨trivial, ⟨[], by simp⟩, win_keeps_refl s, [], ?_, by simp,
        by simp [win_since_self, visits, log_of]⟩
      simp [hs]
    | cons c rest =>
      have hd := win_deref_at s pre rest c hs hwf.1
      obtain ⟨blk, hst, hserved⟩ := win_body_spec w result handles c.addr s done c hpol hd
      have hk1 := hst.2.1
      obtain ⟨hwf1, hfuel1⟩ := hk1.2.2.2 hwf
      have hg := hk1.2.1
      rw [hs] at hg
      obtain ⟨pre2, c2, rest2, e2, hl2, hc2, _⟩ := win_grows_split hg
      have hnot : ∀ a ∈ pre2, a.addr ≠ c2.addr := by
        intro a ha e
        have hnd := hwf1.1
        simp only [State.addrs, e2, List.map_append, List.map_cons] at hnd
        exact (List.nodup_append.mp hnd).2.2 (List.mem_map_of_mem _ ha) (by simp [e])
      have hnext : GLIST_NEXT (gpoll_body w result handles c.addr s done).1.sources c.addr
          = GLIST_BEGIN rest2 := by
        rw [e2, ← win_later_addr hc2]
        exact win_next_at pre2 rest2 c2 hnot
      have hpol1 := win_stretch_polling hst hpol
      have hfuel2 : walk_fuel (gpoll_body w result handles c.addr s done).1
          ≤ f + (pre2 ++ [c2]).length := by
        simp only [List.length_append, List.length_singleton, hl2]
        omega
      obtain ⟨hend, htr, hk2, served, hdrop, hall, hvis⟩ :=
        ih (gpoll_body w result handles c.addr s done).1
          (gpoll_body w result handles c.addr s done).2 (pre2 ++ [c2]) rest2 hpol1 hwf1
          (by rw [e2]; simp) hfuel2
      have hbegin : GLIST_BEGIN (c :: rest) = some c.addr := rfl
      rw [hbegin, win_walk_step, hnext]
      have hg2 := hk2.2.1
      rw [e2] at hg2
      obtain ⟨pre3, c3, rest3, e3, hl3, hc3, _⟩ := win_grows_split hg2
      rw [e3] at hdrop ⊢
      have hdrop1 : (pre3 ++ c3 :: rest3).drop (pre2 ++ [c2]).length = rest3 := by
        have : (pre2 ++ [c2]).length = (pre3 ++ [c3]).length := by simp [hl3]
        rw [this, show pre3 ++ c3 :: rest3 = (pre3 ++ [c3]) ++ rest3 by simp]
        exact List.drop_left _ _
      have hdrop0 : (pre3 ++ c3 :: rest3).drop pre.length = c3 :: rest3 := by
        have : pre.length = pre3.length := by rw [hl3, hl2]
        rw [this]
        exact List.drop_left _ _
      rw [hdrop1] at hdrop
      refine ⟨hend, ?_, win_keeps_trans hk1 hk2, (c3, blk) :: served, ?_, ?_, ?_⟩
      · obtain ⟨ev1, h1⟩ := hst.1
        obtain ⟨ev2, h2⟩ := htr
        exact ⟨ev1 ++ ev2, by rw [h2, h1, List.append_assoc]⟩
      · rw [hdrop0, List.map_cons, hdrop]
      · intro x hx
        rcases List.mem_cons.mp hx with rfl | hx
        · exact win_served_later (win_served_later hserved hc2) hc3
        · exact hall x hx
      · rw [win_since_trans hst.1 htr, win_visits_append, hst.2.2, hvis]
        simp [log_of, win_later_addr hc3, win_later_addr hc2]

end Windows

namespace Windows

theorem win_log_mem {served : List (poll_source × List Visit)} {v : Nat × Visit}
    (h : v ∈ log_of served) : v.1 ∈ served.map fun x => x.1.addr := by
  induction served with
  | nil => simp [log_of] at h
  | cons x rest ih =>
    obtain ⟨c0, b0⟩ := x
    simp only [log_of, List.mem_append, List.mem_map] at h
    rcases h with ⟨u, _, rfl⟩ | h
    · simp
    · exact List.mem_cons_of_mem _ (ih h)

/-- In the visits of a turn given node by node, the visits at the address of
a node are the visits of that node. -/
theorem win_log_filter (served : List (poll_source × List Visit))
    (hnd : (served.map fun x => x.1.addr).Nodup) (c : poll_source) (blk : List Visit)
    (h : (c, blk) ∈ served) :
    ((log_of served).filter (fun v => v.1 = c.addr)).map Prod.snd = blk := by
  induction served with
  | nil => simp at h
  | cons x rest ih =>
    obtain ⟨c0, b0⟩ := x
    simp only [List.map_cons, List.nodup_cons] at hnd
    simp only [log_of, List.filter_append, List.map_append]
    rcases List.mem_cons.mp h with e | h
    · simp only [Prod.mk.injEq] at e
      obtain ⟨rfl, rfl⟩ := e
      have h1 : (List.map (fun v => (c.addr, v)) blk).filter (fun v => v.1 = c.addr)
          = List.map (fun v => (c.addr, v)) blk := by
        rw [List.filter_eq_self]
        intro v hv
        obtain ⟨u, _, rfl⟩ := List.mem_map.mp hv
        simp
      have h2 : (log_of rest).filter (fun v => v.1 = c.addr) = [] := by
        rw [List.filter_eq_nil_iff]
        intro v hv
        simp only [decide_eq_true_eq]
        intro e
        exact hnd.1 (e ▸ win_log_mem hv)
      rw [h1, h2]
      simp [Function.comp_def]
    · have hne : c0.addr ≠ c.addr := by
        intro e
        apply hnd.1
        rw [e]
        exact List.mem_map_of_mem (fun x => x.1.addr) h
      have h1 : (List.map (fun v => (c0.addr, v)) b0).filter (fun v => v.1 = c.addr) = [] := by
        rw [List.filter_eq_nil_iff]
        intro v hv
        obtain ⟨u, _, rfl⟩ := List.mem_map.mp hv
        simpa using hne
      rw [h1]
      simpa using ih hnd.2 h

theorem win_invoke_rawinput_keeps (w : World) (s : State) (hpol : s.polling ≠ 0) :
    Keeps s (invoke_rawinput w s).1 := by
  obtain ⟨_, _, _, e3⟩ := win_run_callback_spec w (w.rawinput s.clock s.rawinput_callback)
    { s with clock := s.clock + 1, fault := s.fault || s.rawinput_callback == NULL } hpol
  refine win_keeps_trans ?_ (win_keeps_trans e3 ?_)
  · exact win_keeps_of_same rfl rfl rfl (Nat.le_succ _)
  · exact win_keeps_of_same rfl rfl rfl (le_refl _)

/-- The first part of a turn, when the wait did not fail: the snapshot is the
one `fill_handles` took, the result is not `WAIT_FAILED`, and the registry
only grew (through the raw-input callback). -/
theorem win_wait_spec (w : World) (s s1 : State) (l l1 : Locals) (result : Nat)
    (handles : List Int) (hwait : gpoll_wait w s l = some (s1, l1, result, handles))
    (hpol : s.polling ≠ 0) :
    Keeps s s1 ∧ handles = fill_handles s.nb_sources s.sources ∧ result ≠ WAIT_FAILED := by
  unfold gpoll_wait at hwait
  dsimp only at hwait
  generalize (if s.rawinput_callback ≠ NULL then QS_RAWINPUT else 0) = mask at hwait
  generalize w.MsgWaitForMultipleObjects s.clock (fill_handles s.nb_sources s.sources) mask
    = res at hwait
  by_cases hf : res = WAIT_FAILED
  · rw [if_pos hf] at hwait
    cases hwait
  · rw [if_neg hf] at hwait
    by_cases hraw : s.rawinput_callback ≠ NULL
    · rw [if_pos hraw] at hwait
      by_cases hq : w.GetQueueStatus (s.clock + 1) ≠ 0
      · rw [if_pos hq] at hwait
        simp only [Option.some.injEq, Prod.mk.injEq] at hwait
        obtain ⟨rfl, _, rfl, rfl⟩ := hwait
        refine ⟨?_, rfl, hf⟩
        have hmid : Keeps s { s with clock := s.clock + 1 + 1 } :=
          win_keeps_of_same rfl rfl rfl (by show s.clock ≤ s.clock + 1 + 1; omega)
        exact win_keeps_trans hmid (win_invoke_rawinput_keeps w _ hpol)
      · rw [if_neg hq] at hwait
        simp only [Option.some.injEq, Prod.mk.injEq] at hwait
        obtain ⟨rfl, _, rfl, rfl⟩ := hwait
        exact ⟨win_keeps_of_same rfl rfl rfl (by show s.clock ≤ s.clock + 1 + 1; omega),
          rfl, hf⟩
    · rw [if_neg hraw] at hwait
      simp only [Option.some.injEq, Prod.mk.injEq] at hwait
      obtain ⟨rfl, _, rfl, rfl⟩ := hwait
      exact ⟨win_keeps_of_same rfl rfl rfl (Nat.le_succ _), rfl, hf⟩

theorem win_iteration_of_wait (w : World) (s s1 : State) (l l1 : Locals) (result : Nat)
    (handles : List Int) (hwait : gpoll_wait w s l = some (s1, l1, result, handles)) :
    (gpoll_iteration w s l).1 = gpoll_remove_deferred (walked w s1 l1.done result handles).1 := by
  simp only [gpoll_iteration, hwait, walked]

theorem win_served_earlier {result : Nat} {handles : List Int} {c c2 : poll_source}
    {blk : List Visit} (h : Served result handles c2 blk) (hl : c.later c2) :
    Served result handles c blk := by
  rcases hl with rfl | rfl
  · exact h
  · exact h

theorem win_grows_mem {l1 l2 : List poll_source} (h : Grows l1 l2) {c : poll_source}
    (hc : c ∈ l1) : ∃ c2 ∈ l2, c.later c2 := by
  obtain ⟨pre, post, e⟩ := List.append_of_mem hc
  rw [e] at h
  obtain ⟨pre2, c2, post2, e2, _, hl, _⟩ := win_grows_split h
  exact ⟨c2, by simp [e2], hl⟩

end Windows

/-- C2 (wait backend).  In a turn of the loop whose wait did not fail, the
`for` loop visits every node of the list, to its end, before the deferred
removals (and so before the next wait), whatever `done` is.  The probes and
callback invocations it logs are, node by node in registry order, those of the
nodes linked at the end of the `for` loop, which are the nodes registered when
the turn began and those registered during it.  For every handle-only source
(fd < 0) with a read or a write callback: if its handle is the winning object
`handles[result]` it is not probed and each of its non-null read and write
callbacks is called exactly once, read first; otherwise it is probed exactly
once, and each of its non-null callbacks is called exactly once if the probe
returned `WAIT_OBJECT_0`, and none is called if it returned anything else. -/
theorem windows_no_starvation (w : Windows.World) (s s1 : Windows.State)
    (l l1 : Windows.Locals) (result : Nat) (handles : List Int)
    (hwait : Windows.gpoll_wait w s l = some (s1, l1, result, handles))
    (hpol : s.polling ≠ 0) (hwf : s.wf) :
    (Windows.walked w s1 l1.done result handles).2.2 = none ∧
    (Windows.gpoll_iteration w s l).1
      = Windows.gpoll_remove_deferred (Windows.walked w s1 l1.done result handles).1 ∧
    (∃ served : List (Windows.poll_source × List Windows.Visit),
      (Windows.walked w s1 l1.done result handles).1.sources = served.map Prod.fst ∧
      (∀ x ∈ served, Windows.Served result handles x.1 x.2) ∧
      Windows.visits ((Windows.walked w s1 l1.done result handles).1.since s1)
        = Windows.log_of served) ∧
    (∀ c, c ∈ s.sources ∨ c ∈ (Windows.walked w s1 l1.done result handles).1.sources →
      Windows.Served result handles c
        (((Windows.visits ((Windows.walked w s1 l1.done result handles).1.since s1)).filter
          (fun v => v.1 = c.addr)).map Prod.snd)) := by
  obtain ⟨hk0, _, _⟩ := Windows.win_wait_spec w s s1 l l1 result handles hwait hpol
  have hpol1 : s1.polling ≠ 0 := by rw [hk0.1]; exact hpol
  obtain ⟨hwf1, _⟩ := hk0.2.2.2 hwf
  obtain ⟨hend, _, hk, served, hdrop, hall, hvis⟩ :=
    Windows.win_walk_spec w result handles (Windows.walk_fuel s1) s1 l1.done [] s1.sources
      hpol1 hwf1 rfl (by simp)
  simp only [List.length_nil, List.drop_zero] at hdrop
  have hwf2 := (hk.2.2.2 hwf1).1
  have hnd : (served.map fun x => x.1.addr).Nodup := by
    have := hwf2.1
    unfold Windows.State.addrs at this
    have hsrc : (Windows.gpoll_walk w result handles (Windows.walk_fuel s1)
        (Windows.GLIST_BEGIN s1.sources) s1 l1.done).1.sources = served.map Prod.fst := hdrop
    rw [hsrc, List.map_map] at this
    exact this
  have hlate : ∀ c ∈ (Windows.walked w s1 l1.done result handles).1.sources,
      Windows.Served result handles c
        (((Windows.visits ((Windows.walked w s1 l1.done result handles).1.since s1)).filter
          (fun v => v.1 = c.addr)).map Prod.snd) := by
    intro c hc
    have hc' : c ∈ served.map Prod.fst := by
      rw [← hdrop]; exact hc
    obtain ⟨x, hx, rfl⟩ := List.mem_map.mp hc'
    have hv : Windows.visits ((Windows.walked w s1 l1.done result handles).1.since s1)
        = Windows.log_of served := hvis
    rw [hv, Windows.win_log_filter served hnd x.1 x.2 hx]
    exact hall x hx
  refine ⟨hend, Windows.win_iteration_of_wait w s s1 l l1 result handles hwait,
    ⟨served, hdrop, hall, hvis⟩, ?_⟩
  rintro c (hc | hc)
  · obtain ⟨c2, hc2, hl⟩ := Windows.win_grows_mem
      (Windows.win_grows_trans hk0.2.1 hk.2.1) hc
    have := hlate c2 hc2
    rw [Windows.win_later_addr hl] at this
    exact Windows.win_served_earlier this hl
  · exact hlate c hc

/-- C2 at a concrete input: two handle-only sources, the first the winner of
the wait and the second found signaled by the probe.  The loop reaches the end
of the list; the first is read without a probe, the second is probed and then
written. -/
theorem windows_no_starvation_witness :
    (Windows.walked Scenario.both_signaled Scenario.two_handles_waited 0 0 [7, 8]).2.2 = none ∧
    Windows.visits ((Windows.walked Scenario.both_signaled Scenario.two_handles_waited 0 0
        [7, 8]).1.since Scenario.two_handles_waited)
      = [(1, Windows.Visit.call Slot.read), (2, Windows.Visit.probe 0),
         (2, Windows.Visit.call Slot.write)] :=
  have h := windows_no_starvation Scenario.both_signaled Scenario.two_handles
    Scenario.two_handles_waited { done := 0, rawinput_processed := 0 }
    { done := 0, rawinput_processed := 0 } 0 [7, 8] (by decide) (by decide)
    (And.intro (by decide) (And.intro (by decide) (by decide)))
  ⟨h.1, by decide⟩

/-! ## Theorems: capacity, registration and removal, continued -/

namespace Windows

/-- A valid `gpoll_register_handle` call with room left and allocation
succeeding appends one node. -/
theorem win_register_handle_success (w : World) (s : State) (handle : Int) (user : Nat)
    (cbs : GPOLL_CALLBACKS) (hh : handle ≠ INVALID_HANDLE_VALUE) (hclose : cbs.fp_close ≠ NULL)
    (hrw : ¬ (cbs.fp_read = NULL ∧ cbs.fp_write = NULL)) (hcap : s.nb_sources ≠ MAX_SOURCES)
    (halloc : w.calloc_fails s.clock = false) :
    gpoll_register_handle w s handle user cbs
      = ({ s with
            sources := s.sources ++
              [{ addr := s.clock + 1, fd := -1, user := user, handle := handle,
                 fp_read := cbs.fp_read, fp_write := cbs.fp_write,
                 fp_cleanup := cbs.fp_close, removed := 0 }],
            nb_sources := uinc s.nb_sources,
            clock := s.clock + 1 }, 0) := by
  unfold gpoll_register_handle
  rw [if_neg hh, if_neg hclose, if_neg hrw, if_neg hcap]
  unfold calloc
  rw [halloc]
  simp only [Bool.false_eq_true, if_false]
  rfl

/-- A valid `gpoll_register_fd` call with room left and allocation and event
subscription succeeding appends one node. -/
theorem win_register_fd_success (w : World) (s : State) (fd : Int) (user : Nat)
    (cbs : GPOLL_CALLBACKS) (hfd : 0 ≤ fd) (hclose : cbs.fp_close ≠ NULL)
    (hread : cbs.fp_read ≠ NULL) (hcap : s.nb_sources ≠ MAX_SOURCES)
    (halloc : w.calloc_fails s.clock = false)
    (hsel : w.WSAEventSelect (s.clock + 2) fd (w.CreateEvent (s.clock + 1)) ≠ SOCKET_ERROR) :
    gpoll_register_fd w s fd user cbs
      = ({ s with
            sources := s.sources ++
              [{ addr := s.clock + 1, fd := fd, user := user,
                 handle := w.CreateEvent (s.clock + 1), fp_read := cbs.fp_read,
                 fp_write := NULL, fp_cleanup := cbs.fp_close, removed := 0 }],
            nb_sources := uinc s.nb_sources,
            clock := s.clock + 3 }, 0) := by
  have hfd2 : ¬ fd < 0 := not_lt.mpr hfd
  unfold gpoll_register_fd
  rw [if_neg hfd2, if_neg hclose, if_neg hread, if_neg hcap]
  unfold calloc
  rw [halloc]
  have hsel2 : w.WSAEventSelect (s.clock + 1 + 1) fd (w.CreateEvent (s.clock + 1))
      ≠ SOCKET_ERROR := hsel
  simp only [Bool.false_eq_true, if_false]
  rw [if_neg hsel2]
  rfl

/-- At capacity both registration functions refuse, whatever their
arguments. -/
theorem win_register_full (w : World) (s : State) (user : Nat) (cbs : GPOLL_CALLBACKS)
    (hfull : s.nb_sources = MAX_SOURCES) :
    (∀ handle, gpoll_register_handle w s handle user cbs = (s, -1)) ∧
    (∀ fd, gpoll_register_fd w s fd user cbs = (s, -1)) := by
  constructor
  · intro handle
    unfold gpoll_register_handle
    by_cases h0 : handle = INVALID_HANDLE_VALUE
    · rw [if_pos h0]
    · by_cases h1 : cbs.fp_close = NULL
      · rw [if_neg h0, if_pos h1]
      · by_cases h2 : cbs.fp_read = NULL ∧ cbs.fp_write = NULL
        · rw [if_neg h0, if_neg h1, if_pos h2]
        · rw [if_neg h0, if_neg h1, if_neg h2, if_pos hfull]
  · intro fd
    unfold gpoll_register_fd
    by_cases h0 : fd < 0
    · rw [if_pos h0]
    · by_cases h1 : cbs.fp_close = NULL
      · rw [if_neg h0, if_pos h1]
      · by_cases h2 : cbs.fp_read = NULL
        · rw [if_neg h0, if_neg h1, if_pos h2]
        · rw [if_neg h0, if_neg h1, if_neg h2, if_pos hfull]

end Windows

/-- C11 (wait backend).  With `nb_sources` equal to `MAX_SOURCES`
(`MAXIMUM_WAIT_OBJECTS - 1`, that is 63) `gpoll_register_handle` and
`gpoll_register_fd` return -1 and leave the whole state as it was, for every
handle or fd and every callback set.  With `nb_sources` below `MAX_SOURCES`,
allocation succeeding (and, for a socket, the event subscription), the valid
call succeeds: it returns 0, appends one source and increments `nb_sources`. -/
theorem windows_capacity_limit (w : Windows.World) (s : Windows.State) (user : Nat)
    (cbs : GPOLL_CALLBACKS) :
    Windows.MAX_SOURCES = 63 ∧
    (s.nb_sources = Windows.MAX_SOURCES →
      (∀ handle, Windows.gpoll_register_handle w s handle user cbs = (s, -1)) ∧
      (∀ fd, Windows.gpoll_register_fd w s fd user cbs = (s, -1))) ∧
    (s.nb_sources < Windows.MAX_SOURCES → w.calloc_fails s.clock = false →
      cbs.fp_close ≠ NULL →
      (∀ handle, handle ≠ Windows.INVALID_HANDLE_VALUE →
        ¬ (cbs.fp_read = NULL ∧ cbs.fp_write = NULL) →
        Windows.gpoll_register_handle w s handle user cbs
          = ({ s with
                sources := s.sources ++
                  [{ addr := s.clock + 1, fd := -1, user := user, handle := handle,
                     fp_read := cbs.fp_read, fp_write := cbs.fp_write,
                     fp_cleanup := cbs.fp_close, removed := 0 }],
                nb_sources := s.nb_sources + 1,
                clock := s.clock + 1 }, 0)) ∧
      (∀ fd, 0 ≤ fd → cbs.fp_read ≠ NULL →
        w.WSAEventSelect (s.clock + 2) fd (w.CreateEvent (s.clock + 1))
          ≠ Windows.SOCKET_ERROR →
        Windows.gpoll_register_fd w s fd user cbs
          = ({ s with
                sources := s.sources ++
                  [{ addr := s.clock + 1, fd := fd, user := user,
                     handle := w.CreateEvent (s.clock + 1), fp_read := cbs.fp_read,
                     fp_write := NULL, fp_cleanup := cbs.fp_close, removed := 0 }],
                nb_sources := s.nb_sources + 1,
                clock := s.clock + 3 }, 0))) := by
  refine ⟨rfl, Windows.win_register_full w s user cbs, ?_⟩
  intro hlt halloc hclose
  have hcap : s.nb_sources ≠ Windows.MAX_SOURCES := Nat.ne_of_lt hlt
  have hinc : uinc s.nb_sources = s.nb_sources + 1 := by
    unfold uinc
    unfold Windows.MAX_SOURCES Windows.MAXIMUM_WAIT_OBJECTS at hlt
    omega
  constructor
  · intro handle hh hrw
    rw [Windows.win_register_handle_success w s handle user cbs hh hclose hrw hcap halloc, hinc]
  · intro fd hfd hread hsel
    rw [Windows.win_register_fd_success w s fd user cbs hfd hclose hread hcap halloc hsel, hinc]

/-- C11 at concrete inputs: at capacity a valid handle and a valid socket are
refused; on the empty registry the same calls succeed. -/
theorem windows_capacity_limit_witness :
    Windows.gpoll_register_handle Scenario.calm Scenario.full_house 7 10 Scenario.read_close
      = (Scenario.full_house, -1) ∧
    Windows.gpoll_register_fd Scenario.calm Scenario.full_house 3 10 Scenario.read_close
      = (Scenario.full_house, -1) ∧
    (Windows.gpoll_register_handle Scenario.calm Windows.State.init 7 10
      Scenario.read_close).2 = 0 ∧
    (Windows.gpoll_register_fd Scenario.calm Windows.State.init 3 10 Scenario.read_close).2
      = 0 :=
  have h := windows_capacity_limit Scenario.calm Scenario.full_house 10 Scenario.read_close
  have h0 := windows_capacity_limit Scenario.calm Windows.State.init 10 Scenario.read_close
  ⟨(h.2.1 rfl).1 7, (h.2.1 rfl).2 3,
    by rw [(h0.2.2 (by decide) rfl (by decide)).1 7 (by decide) (by decide)],
    by rw [(h0.2.2 (by decide) rfl (by decide)).2 3 (by decide) (by decide) (by decide)]⟩

/-- C12 (polling backend).  When the registry holds a source with the given
fd, it splits at the first such source `c`, and `gpoll_remove_fd` returns 0.
With the loop not polling, `c` is unlinked, `nb_sources` is decremented (as an
`unsigned int`; by exactly one when it was positive) and the other sources
keep their fields and their order.  With the loop polling, the list keeps its
members and order, `nb_sources` is unchanged, and the only change is
`removed = 1` on `c`. -/
theorem posix_remove_fd_immediate_or_deferred (s : Posix.State) (fd : Int)
    (hmem : fd ∈ s.fds) :
    ∃ pre c post, s.sources = pre ++ c :: post ∧ c.fd = fd ∧ (∀ n ∈ pre, n.fd ≠ fd) ∧
      (s.polling = 0 →
        Posix.gpoll_remove_fd s fd
          = ({ s with sources := pre ++ post, nb_sources := udec s.nb_sources }, 0) ∧
        (0 < s.nb_sources → s.nb_sources < 2 ^ 32 → udec s.nb_sources = s.nb_sources - 1)) ∧
      (s.polling ≠ 0 →
        Posix.gpoll_remove_fd s fd
          = ({ s with sources := pre ++ { c with removed := 1 } :: post }, 0)) := by
  obtain ⟨c, hfind⟩ := Posix.find_fd_some s.sources fd hmem
  obtain ⟨pre, post, hs, hc, hpre⟩ := Posix.find_fd_split s.sources fd c hfind
  have hrem := Posix.remove_fd_found s fd pre post c hs hc hpre
  refine ⟨pre, c, post, hs, hc, hpre, ?_, ?_⟩
  · intro hpol
    refine ⟨by rw [hrem, if_neg (by simp [hpol])], ?_⟩
    intro h1 h2
    unfold udec
    omega
  · intro hpol
    rw [hrem, if_pos hpol]

/-- C12 at a concrete input: fd 4 is removed from the registry holding fds 3
and 4, idle and polling. -/
theorem posix_remove_fd_immediate_or_deferred_witness :
    ∃ pre c post, Scenario.a_then_b.sources = pre ++ c :: post ∧ c.fd = 4 ∧
      (∀ n ∈ pre, n.fd ≠ 4) ∧
      (Scenario.a_then_b.polling = 0 →
        Posix.gpoll_remove_fd Scenario.a_then_b 4
          = ({ Scenario.a_then_b with
                sources := pre ++ post, nb_sources := udec Scenario.a_then_b.nb_sources }, 0) ∧
        (0 < Scenario.a_then_b.nb_sources → Scenario.a_then_b.nb_sources < 2 ^ 32 →
          udec Scenario.a_then_b.nb_sources = Scenario.a_then_b.nb_sources - 1)) ∧
      (Scenario.a_then_b.polling ≠ 0 →
        Posix.gpoll_remove_fd Scenario.a_then_b 4
          = ({ Scenario.a_then_b with sources := pre ++ { c with removed := 1 } :: post }, 0)) :=
  posix_remove_fd_immediate_or_deferred Scenario.a_then_b 4 (by decide)

/-- C17 (polling backend).  With a close callback, at least one of the read
and write callbacks, and allocation succeeding, `gpoll_register_fd` returns 0
and the new registry is the old one with one source appended at the end: it
carries the given fd, user pointer and callbacks, `removed = 0`, and an
interest mask that has `POLLIN` exactly when the read callback is set,
`POLLOUT` exactly when the write callback is set, and no other bit.
`nb_sources` is incremented (as an `unsigned int`; by exactly one below
`UINT_MAX`) and the existing sources are unchanged. -/
theorem posix_register_fd_success (w : Posix.World) (s : Posix.State) (fd : Int) (user : Nat)
    (cbs : GPOLL_CALLBACKS) (hclose : cbs.fp_close ≠ NULL)
    (hrw : ¬ (cbs.fp_read = NULL ∧ cbs.fp_write = NULL))
    (halloc : w.calloc_fails s.clock = false) :
    ∃ events,
      Posix.gpoll_register_fd w s fd user cbs
        = ({ s with
              sources := s.sources ++
                [{ addr := s.clock + 1, fd := fd, user := user, fp_read := cbs.fp_read,
                   fp_write := cbs.fp_write, fp_close := cbs.fp_close, events := events,
                   removed := 0 }],
              nb_sources := uinc s.nb_sources,
              clock := s.clock + 1 }, 0) ∧
      (Posix.has_in events = true ↔ cbs.fp_read ≠ NULL) ∧
      (Posix.has_out events = true ↔ cbs.fp_write ≠ NULL) ∧
      events &&& (Posix.POLLIN ||| Posix.POLLOUT) = events ∧
      (s.nb_sources + 1 < 2 ^ 32 → uinc s.nb_sources = s.nb_sources + 1) := by
  have hinc : s.nb_sources + 1 < 2 ^ 32 → uinc s.nb_sources = s.nb_sources + 1 := by
    intro h
    unfold uinc
    omega
  have hun : Posix.gpoll_register_fd w s fd user cbs
      = ({ s with
            sources := s.sources ++
              [{ addr := s.clock + 1, fd := fd, user := user, fp_read := cbs.fp_read,
                 fp_write := cbs.fp_write, fp_close := cbs.fp_close,
                 events := (if cbs.fp_write ≠ NULL then
                     (if cbs.fp_read ≠ NULL then 0 ||| Posix.POLLIN else 0) ||| Posix.POLLOUT
                   else (if cbs.fp_read ≠ NULL then 0 ||| Posix.POLLIN else 0)),
                 removed := 0 }],
            nb_sources := uinc s.nb_sources,
            clock := s.clock + 1 }, 0) := by
    unfold Posix.gpoll_register_fd
    rw [if_neg hclose, if_neg hrw]
    unfold Posix.calloc
    rw [halloc]
    simp only [Bool.false_eq_true, if_false]
    rfl
  refine ⟨_, hun, ?_, ?_, ?_, hinc⟩
  · by_cases hr : cbs.fp_read = NULL <;> by_cases hw : cbs.fp_write = NULL <;>
      simp [hr, hw, Posix.has_in, Posix.POLLIN, Posix.POLLOUT]
  · by_cases hr : cbs.fp_read = NULL <;> by_cases hw : cbs.fp_write = NULL <;>
      simp [hr, hw, Posix.has_out, Posix.POLLIN, Posix.POLLOUT]
  · by_cases hr : cbs.fp_read = NULL
    · by_cases hw : cbs.fp_write = NULL
      · exact absurd ⟨hr, hw⟩ hrw
      · simp only [hr, hw, ne_eq, not_true_eq_false, not_false_eq_true, if_true, if_false]
        decide
    · by_cases hw : cbs.fp_write = NULL
      · simp only [hr, hw, ne_eq, not_true_eq_false, not_false_eq_true, if_true, if_false]
        decide
      · simp only [hr, hw, ne_eq, not_true_eq_false, not_false_eq_true, if_true, if_false]
        decide

/-- C17 at a concrete input: fd 3 with a read and a close callback on the empty
registry. -/
theorem posix_register_fd_success_witness :
    ∃ events,
      Posix.gpoll_register_fd Scenario.quiet Posix.State.init 3 10 Scenario.read_close
        = ({ Posix.State.init with
              sources := Posix.State.init.sources ++
                [{ addr := Posix.State.init.clock + 1, fd := 3, user := 10,
                   fp_read := Scenario.read_close.fp_read,
                   fp_write := Scenario.read_close.fp_write,
                   fp_close := Scenario.read_close.fp_close, events := events,
                   removed := 0 }],
              nb_sources := uinc Posix.State.init.nb_sources,
              clock := Posix.State.init.clock + 1 }, 0) ∧
      (Posix.has_in events = true ↔ Scenario.read_close.fp_read ≠ NULL) ∧
      (Posix.has_out events = true ↔ Scenario.read_close.fp_write ≠ NULL) ∧
      events &&& (Posix.POLLIN ||| Posix.POLLOUT) = events ∧
      (Posix.State.init.nb_sources + 1 < 2 ^ 32 →
        uinc Posix.State.init.nb_sources = Posix.State.init.nb_sources + 1) :=
  posix_register_fd_success Scenario.quiet Posix.State.init 3 10 Scenario.read_close
    (by decide) (by decide) rfl

/-! ## Theorems: the loop of the wait backend, continued -/

/-- C13 (wait backend), the code at a read error.  One socket source (fd 3) is
registered, the loop is polling, its event is the winner of the wait, and the
network-event query reports `FD_READ` with a non-zero error code for the read
bit (or fails).  The close callback is invoked once and the read callback is
not, but the close callback calling no removal function, the source is neither
tombstoned nor unlinked: it is still in the registry, `removed = 0`, after the
deferred removals of that turn. -/
theorem windows_read_error_leaves_source_registered :
    Scenario.one_socket.sources
      = [{ addr := 1, fd := 3, user := 10, handle := 1001, fp_read := 1, fp_write := 0,
           fp_cleanup := 9, removed := 0 }] ∧
    (Windows.gpoll_iteration Scenario.read_error Scenario.one_socket
        { done := 0, rawinput_processed := 0 }).1.trace
      = [Windows.Event.call 1 Slot.close 9 10 0] ∧
    (Windows.gpoll_iteration Scenario.read_error Scenario.one_socket
        { done := 0, rawinput_processed := 0 }).1.sources
      = Scenario.one_socket.sources ∧
    (Windows.gpoll_iteration Scenario.query_fails Scenario.one_socket
        { done := 0, rawinput_processed := 0 }).1.trace
      = [Windows.Event.call 1 Slot.close 9 10 0] ∧
    (Windows.gpoll_iteration Scenario.query_fails Scenario.one_socket
        { done := 0, rawinput_processed := 0 }).1.sources
      = Scenario.one_socket.sources := by
  decide

/-! ## Theorems: deferred removal on the polling backend -/

namespace Posix

theorem iterate_udec (k n : Nat) (hk : k ≤ n) (hn : n < 2 ^ 32) :
    Nat.iterate udec k n = n - k := by
  induction k generalizing n with
  | zero => rfl
  | succ k ih =>
    have h1 : udec n = n - 1 := by unfold udec; omega
    rw [Function.iterate_succ_apply, h1, ih (n - 1) (by omega) (by omega)]
    omega

theorem defered_nb_fold (l : List poll_source) (st : State) :
    (l.foldl (fun st current =>
        if current.removed ≠ 0 then gpoll_close_internal st current else st) st).nb_sources
      = Nat.iterate udec (l.countP fun n => n.removed != 0) st.nb_sources := by
  induction l generalizing st with
  | nil => rfl
  | cons x xs ih =>
    simp only [List.foldl_cons]
    by_cases hx : x.removed ≠ 0
    · rw [if_pos hx, ih, List.countP_cons_of_pos _ _ (by simpa using hx),
        Function.iterate_succ_apply]
      rfl
    · rw [if_neg hx, ih, List.countP_cons_of_neg _ _ (by simpa using hx)]

/-- The deferred-removal pass decrements `nb_sources` once per tombstoned
node. -/
theorem defered_nb (s : State) :
    (gpoll_remove_fd_defered s).nb_sources
      = Nat.iterate udec (s.sources.countP fun n => n.removed != 0) s.nb_sources :=
  defered_nb_fold s.sources s

theorem defered_clean (s : State) : (gpoll_remove_fd_defered s).clean := by
  intro n hn
  rw [defered_sources] at hn
  simpa using (List.mem_filter.mp hn).2

theorem iteration_nonpos (w : World) (s : State) (h : ¬ (poll_answer w s).1 > 0) :
    gpoll_iteration w s = (s.polled, false) := by
  have h2 : ¬ (w.poll s.clock ((fill_fds s.nb_sources s.sources).map Prod.fst)).1 > 0 := h
  simp only [gpoll_iteration, h2, if_false]
  rfl

/-- A turn of the loop that starts without tombstoned source ends without
one. -/
theorem iteration_clean (w : World) (s : State) (h : s.clean) :
    (gpoll_iteration w s).1.clean := by
  by_cases hpos : (poll_answer w s).1 > 0
  · rw [iteration_pos w s hpos]
    exact defered_clean _
  · rw [iteration_nonpos w s hpos]
    exact h

theorem turns_clean (w : World) (n : Nat) (s : State) (h : s.clean) :
    (turns w n s).clean := by
  induction n generalizing s with
  | zero => exact h
  | succ n ih => exact ih _ (iteration_clean w s h)

end Posix

/-- C16 (polling backend).  `gpoll_remove_fd_defered` leaves exactly the
sources with `removed = 0`, in their order and with their fields, whatever the
pattern of tombstones, and decrements `nb_sources` once per tombstoned source
(as an `unsigned int`; by exactly their number when `nb_sources` counts the
sources).  Consequently a source that is tombstoned when the `for` loop of a
turn ends is in no snapshot `fill_fds` builds from the registry after that
turn; and in a run that starts without tombstoned source, after any number of
turns no source is tombstoned, so every entry of the snapshot passed to the
next `poll` comes from a source with `removed = 0`. -/
theorem posix_deferred_removals_applied (w : Posix.World) (s : Posix.State) :
    (Posix.gpoll_remove_fd_defered s).sources = s.sources.filter (fun n => n.removed == 0) ∧
    (Posix.gpoll_remove_fd_defered s).nb_sources
      = Nat.iterate udec (s.sources.countP fun n => n.removed != 0) s.nb_sources ∧
    (s.nb_sources = s.sources.length → s.sources.length < 2 ^ 32 →
      (Posix.gpoll_remove_fd_defered s).nb_sources
        = s.nb_sources - s.sources.countP fun n => n.removed != 0) ∧
    (∀ p, (Posix.poll_answer w s).1 > 0 → s.polling ≠ 0 → s.wf →
      (Posix.gpoll_dispatch w (Posix.wake w s) s.polled).1.flagged p →
      ∀ k, ∀ e ∈ Posix.fill_fds k (Posix.gpoll_iteration w s).1.sources, e.2 ≠ p) ∧
    (s.clean → ∀ n, (Posix.turns w n s).clean ∧
      ∀ e ∈ Posix.wake w (Posix.turns w n s),
        ∃ m ∈ (Posix.turns w n s).sources, e.2 = m.addr ∧ e.1.fd = m.fd ∧ m.removed = 0) := by
  refine ⟨Posix.defered_sources s, Posix.defered_nb s, ?_, ?_, ?_⟩
  · intro hnb hlen
    rw [Posix.defered_nb, Posix.iterate_udec _ _ (by rw [hnb]; exact List.countP_le_length _)
      (by rw [hnb]; exact hlen)]
  · intro p hpos hpol hwf hflag k e he hp
    obtain ⟨n, hn, e1, _⟩ := Posix.mem_fill_fds he
    rw [Posix.iteration_pos w s hpos] at hn
    have hk := (Posix.step_dispatch w (Posix.wake w s) s.polled).2.2.1 hpol
    exact Posix.flagged_absent _ p (hk.2.2.2 ((Posix.polled_keeps s).2.2.2 hwf)) hflag n hn
      (by rw [← e1, hp])
  · intro hclean n
    have hc := Posix.turns_clean w n s hclean
    refine ⟨hc, ?_⟩
    intro e he
    obtain ⟨m, hm, e1, e2⟩ := Posix.mem_wake he
    exact ⟨m, hm, e1, e2, hc m hm⟩

/-- C16 at a concrete input: in the turn where the read callback of A removes
fd 4, B (at address 2) is tombstoned when the `for` loop ends, is unlinked by
the deferred removals and is in no snapshot after the turn. -/
theorem posix_deferred_removals_applied_witness :
    (Posix.gpoll_iteration Scenario.remover Scenario.two_readers).1.addrs = [1] ∧
    ∀ e ∈ Posix.fill_fds 2
      (Posix.gpoll_iteration Scenario.remover Scenario.two_readers).1.sources, e.2 ≠ 2 :=
  ⟨by decide,
   (posix_deferred_removals_applied Scenario.remover Scenario.two_readers).2.2.2.1 2
    (by decide) (by decide) (And.intro (by decide) (by decide))
    ⟨{ addr := 2, fd := 4, user := 20, fp_read := 2, fp_write := 0, fp_close := 9,
       events := 1, removed := 1 }, by decide, rfl, by decide⟩ 2⟩

/-! ## Theorems: deferred removal refines immediate removal -/

namespace Posix

theorem filter_eq_self_of {p : poll_source → Bool} {l : List poll_source}
    (h : ∀ a ∈ l, p a = true) : l.filter p = l :=
  List.filter_eq_self.mpr h

/-- The deferred-removal pass after tombstoning removals in a registry that had
no tombstone. -/
theorem filter_mark (fds : List Int) (l : List poll_source) (hclean : ∀ n ∈ l, n.removed = 0) :
    (l.map (mark fds)).filter (fun n => n.removed == 0) = l.filter (fun n => decide (n.fd ∉ fds)) ∧
    (l.map (mark fds)).countP (fun n => n.removed != 0) = l.countP (fun n => decide (n.fd ∈ fds)) := by
  induction l with
  | nil => simp
  | cons a l ih =>
    obtain ⟨e1, e2⟩ := ih (fun n hn => hclean n (List.mem_cons_of_mem _ hn))
    have ha := hclean a (by simp)
    by_cases h : a.fd ∈ fds
    · simp only [List.map_cons, List.filter_cons, List.countP_cons, e1, e2]
      simp [mark, h]
    · simp only [List.map_cons, List.filter_cons, List.countP_cons, e1, e2]
      simp [mark, h, ha]

end Posix
namespace Posix

end Posix

namespace Posix

theorem iterate_udec_mod (k n : Nat) (hk : k ≤ n) :
    Nat.iterate udec k (n % 2 ^ 32) = (n - k) % 2 ^ 32 := by
  induction k generalizing n with
  | zero => rfl
  | succ k ih =>
    obtain ⟨m, rfl⟩ : ∃ m, n = m + 1 := ⟨n - 1, by omega⟩
    rw [Function.iterate_succ_apply, udec_length, ih m (by omega)]
    congr 1
    omega

theorem length_filter_clean (l : List poll_source) :
    (l.filter fun n => n.removed == 0).length
      = l.length - l.countP fun n => n.removed != 0 := by
  induction l with
  | nil => rfl
  | cons a l ih =>
    have hle : (l.countP fun n => n.removed != 0) ≤ l.length := List.countP_le_length _
    by_cases h : a.removed = 0
    · simp only [List.filter_cons, List.countP_cons, h, beq_self_eq_true, if_true,
        List.length_cons, bne_self_eq_false, Bool.false_eq_true, if_false, ih]
      omega
    · have h1 : (a.removed == 0) = false := by simpa using h
      have h2 : (a.removed != 0) = true := by simpa using h
      simp only [List.filter_cons, List.countP_cons, h1, h2, if_true, List.length_cons,
        Bool.false_eq_true, if_false, ih]
      omega

theorem counted_register (w : World) (s : State) (fd : Int) (user : Nat)
    (cbs : GPOLL_CALLBACKS) (h : s.counted) : (gpoll_register_fd w s fd user cbs).1.counted := by
  unfold State.counted at h ⊢
  rcases register_fd_cases w s fd user cbs with
    ⟨_, hsrc, hnb, _⟩ | ⟨_, ⟨n, _, _, _, _, _, _, _, hsrc⟩, hnb, _⟩
  · rw [hsrc, hnb, h]
  · rw [hsrc, hnb, h, uinc_length]
    simp

theorem counted_remove (s : State) (fd : Int) (h : s.counted) :
    (gpoll_remove_fd s fd).1.counted := by
  unfold State.counted at h ⊢
  rcases remove_fd_cases s fd with ⟨e, _⟩ | ⟨pre, c, post, hs, _, _, e⟩
  · rw [e]; exact h
  · rw [e]
    have hl : s.sources.length = (pre ++ post).length + 1 := by
      rw [hs]; simp only [List.length_append, List.length_cons]; omega
    by_cases hpol : s.polling ≠ 0
    · rw [if_pos hpol]
      show s.nb_sources = (pre ++ { c with removed := 1 } :: post).length % 2 ^ 32
      rw [h, hs]
      simp
    · rw [if_neg hpol]
      show udec s.nb_sources = (pre ++ post).length % 2 ^ 32
      rw [h, hl, udec_length]

theorem counted_defered (s : State) (h : s.counted) : (gpoll_remove_fd_defered s).counted := by
  unfold State.counted at h ⊢
  rw [defered_nb, defered_sources, h, iterate_udec_mod _ _ (List.countP_le_length _),
    length_filter_clean]

theorem counted_op (w : World) (s : State) (op : Op) (h : s.counted) :
    (op.apply w s).counted := by
  cases op with
  | register fd user cbs => exact counted_register w s fd user cbs h
  | remove_idle fd => exact counted_remove { s with polling := 0 } fd h
  | remove_polling fd => exact counted_remove { s with polling := 1 } fd h
  | defered => exact counted_defered s h

/-- The counter agrees, as an `unsigned int`, with the number of linked nodes
after every sequence of operations. -/
theorem counted_run (w : World) (ops : List Op) (s : State) (h : s.counted) :
    (run_ops w ops s).counted := by
  induction ops generalizing s with
  | nil => exact h
  | cons op ops ih => exact ih _ (counted_op w s op h)

theorem fill_fds_all (l : List poll_source) :
    (fill_fds l.length l).map Prod.snd = l.map (fun n => n.addr) ∧
    (fill_fds l.length l).length = l.length := by
  induction l with
  | nil => exact ⟨rfl, rfl⟩
  | cons a l ih => simp [fill_fds, ih.1, ih.2]

theorem register_fd_valid (w : World) (s : State) (fd : Int) (user : Nat)
    (cbs : GPOLL_CALLBACKS) (hclose : cbs.fp_close ≠ NULL)
    (hrw : ¬ (cbs.fp_read = NULL ∧ cbs.fp_write = NULL))
    (halloc : w.calloc_fails s.clock = false) :
    (gpoll_register_fd w s fd user cbs).1.sources.length = s.sources.length + 1 := by
  rcases register_fd_cases w s fd user cbs with ⟨hr, _⟩ | ⟨_, ⟨n, _, _, _, _, _, _, _, hsrc⟩, _⟩
  · exfalso
    unfold gpoll_register_fd at hr
    rw [if_neg hclose, if_neg hrw] at hr
    unfold calloc at hr
    rw [halloc] at hr
    simp at hr
  · rw [hsrc]; simp

theorem run_replicate_length (w : World) (hw : ∀ c, w.calloc_fails c = false) (fd : Int)
    (user : Nat) (cbs : GPOLL_CALLBACKS) (hclose : cbs.fp_close ≠ NULL)
    (hrw : ¬ (cbs.fp_read = NULL ∧ cbs.fp_write = NULL)) (n : Nat) (s : State) :
    (run_ops w (List.replicate n (Op.register fd user cbs)) s).sources.length
      = s.sources.length + n := by
  induction n generalizing s with
  | zero => rfl
  | succ n ih =>
    rw [List.replicate_succ]
    show (run_ops w (List.replicate n (Op.register fd user cbs))
      (gpoll_register_fd w s fd user cbs).1).sources.length = _
    rw [ih, register_fd_valid w s fd user cbs hclose hrw (hw _)]
    omega

end Posix

namespace Windows

theorem win_close_sources (st : State) (x : poll_source) :
    (gpoll_close_internal st x).sources = st.sources.erase x ∧
    (gpoll_close_internal st x).nb_sources = udec st.nb_sources := by
  unfold gpoll_close_internal GLIST_REMOVE
  by_cases h : x.fd ≥ 0
  · rw [if_pos h]; exact ⟨rfl, rfl⟩
  · rw [if_neg h]; exact ⟨rfl, rfl⟩

theorem win_deferred_fold (l kept : List poll_source) (st : State)
    (hst : st.sources = kept ++ l) (hkept : ∀ n ∈ kept, n.removed = 0) :
    (l.foldl (fun st current =>
        if current.removed ≠ 0 then gpoll_close_internal st current else st) st).sources
      = kept ++ l.filter (fun n => n.removed == 0) ∧
    (l.foldl (fun st current =>
        if current.removed ≠ 0 then gpoll_close_internal st current else st) st).nb_sources
      = Nat.iterate udec (l.countP fun n => n.removed != 0) st.nb_sources := by
  induction l generalizing kept st with
  | nil => simp [hst]
  | cons x xs ih =>
    simp only [List.foldl_cons]
    by_cases hx : x.removed ≠ 0
    · have hnot : x ∉ kept := fun hm => hx (hkept x hm)
      have hst' : (gpoll_close_internal st x).sources = kept ++ xs := by
        rw [(win_close_sources st x).1, hst, win_erase_at kept xs x hnot]
      obtain ⟨e1, e2⟩ := ih kept (gpoll_close_internal st x) hst' hkept
      rw [if_pos hx]
      refine ⟨?_, ?_⟩
      · rw [e1]; simp [List.filter_cons, hx]
      · rw [e2, (win_close_sources st x).2, List.countP_cons_of_pos _ _ (by simpa using hx),
          Function.iterate_succ_apply]
    · have hx0 : x.removed = 0 := not_not.mp hx
      have hst' : st.sources = (kept ++ [x]) ++ xs := by simp [hst]
      have hkept' : ∀ n ∈ kept ++ [x], n.removed = 0 := by
        intro n hn
        rcases List.mem_append.mp hn with h | h
        · exact hkept n h
        · rw [List.mem_singleton.mp h]; exact hx0
      obtain ⟨e1, e2⟩ := ih (kept ++ [x]) st hst' hkept'
      rw [if_neg hx]
      refine ⟨?_, ?_⟩
      · rw [e1]; simp [List.filter_cons, hx0]
      · rw [e2, List.countP_cons_of_neg _ _ (by simpa using hx)]

theorem win_length_filter (l : List poll_source) :
    (l.filter fun n => n.removed == 0).length
      = l.length - l.countP fun n => n.removed != 0 := by
  induction l with
  | nil => rfl
  | cons a l ih =>
    have hle : (l.countP fun n => n.removed != 0) ≤ l.length := List.countP_le_length _
    by_cases h : a.removed = 0
    · simp only [List.filter_cons, List.countP_cons, h, beq_self_eq_true, if_true,
        List.length_cons, bne_self_eq_false, Bool.false_eq_true, if_false, ih]
      omega
    · have h1 : (a.removed == 0) = false := by simpa using h
      have h2 : (a.removed != 0) = true := by simpa using h
      simp only [List.filter_cons, List.countP_cons, h1, h2, if_true, List.length_cons,
        Bool.false_eq_true, if_false, ih]
      omega

theorem win_counted_append (s t : State) (n : poll_source) (h : s.counted)
    (hsrc : t.sources = s.sources ++ [n]) (hnb : t.nb_sources = uinc s.nb_sources)
    (hfull : s.nb_sources ≠ MAX_SOURCES) : t.counted := by
  unfold State.counted at h ⊢
  obtain ⟨h1, h2⟩ := h
  have hl : t.sources.length = s.sources.length + 1 := by rw [hsrc]; simp
  rw [hnb, hl]
  unfold uinc MAX_SOURCES MAXIMUM_WAIT_OBJECTS at *
  omega

theorem win_counted_found (s : State) (pre post : List poll_source) (c : poll_source)
    (h : s.counted) (hs : s.sources = pre ++ c :: post) (hc : c ∉ pre) :
    (if s.polling ≠ 0 then
        ({ s with sources := s.sources.replace c { c with removed := 1 } }, (0 : Int))
      else (gpoll_close_internal s c, 0)).1.counted := by
  unfold State.counted at h ⊢
  obtain ⟨h1, h2⟩ := h
  have hl : s.sources.length = (pre ++ post).length + 1 := by
    rw [hs]; simp only [List.length_append, List.length_cons]; omega
  by_cases hpol : s.polling ≠ 0
  · rw [if_pos hpol]
    show s.nb_sources = (s.sources.replace c { c with removed := 1 }).length ∧
      (s.sources.replace c { c with removed := 1 }).length ≤ MAX_SOURCES
    have hlen : (s.sources.replace c { c with removed := 1 }).length = s.sources.length := by
      rw [hs, win_replace_at pre post c _ hc]; simp
    rw [hlen]
    exact ⟨h1, h2⟩
  · rw [if_neg hpol]
    show (gpoll_close_internal s c).nb_sources = (gpoll_close_internal s c).sources.length ∧
      (gpoll_close_internal s c).sources.length ≤ MAX_SOURCES
    rw [(win_close_sources s c).1, (win_close_sources s c).2, hs, win_erase_at pre post c hc,
      h1, hl]
    rw [hl] at h2
    unfold udec MAX_SOURCES MAXIMUM_WAIT_OBJECTS at *
    omega

theorem win_counted_remove_fd (s : State) (fd : Int) (h : s.counted) :
    (gpoll_remove_fd s fd).1.counted := by
  unfold gpoll_remove_fd
  rcases win_find_cases s.sources (fun current => fd == current.fd) with
    hf | ⟨pre, c, post, hf, hs, hc⟩
  · rw [hf]; exact h
  · rw [hf]; exact win_counted_found s pre post c h hs hc

theorem win_counted_remove_handle (s : State) (handle : Int) (h : s.counted) :
    (gpoll_remove_handle s handle).1.counted := by
  unfold gpoll_remove_handle
  rcases win_find_cases s.sources (fun current => handle == current.handle) with
    hf | ⟨pre, c, post, hf, hs, hc⟩
  · rw [hf]; exact h
  · rw [hf]; exact win_counted_found s pre post c h hs hc

theorem win_counted_deferred (s : State) (h : s.counted) : (gpoll_remove_deferred s).counted := by
  unfold State.counted at h ⊢
  obtain ⟨h1, h2⟩ := h
  obtain ⟨e1, e2⟩ := win_deferred_fold s.sources [] s rfl (by simp)
  have hle : (s.sources.countP fun n => n.removed != 0) ≤ s.sources.length :=
    List.countP_le_length _
  have hlt : s.sources.length < 2 ^ 32 := by
    unfold MAX_SOURCES MAXIMUM_WAIT_OBJECTS at h2; omega
  unfold gpoll_remove_deferred
  rw [e1, e2, h1, Posix.iterate_udec _ _ hle hlt, List.nil_append, win_length_filter]
  exact ⟨rfl, by omega⟩

theorem win_counted_op (w : World) (s : State) (op : Op) (h : s.counted) :
    (op.apply w s).counted := by
  cases op with
  | register_fd fd user cbs =>
    rcases win_register_fd_cases w s fd user cbs with
      ⟨hsrc, hnb, _⟩ | ⟨⟨n, _, hsrc⟩, hnb, hfull, _⟩
    · show (gpoll_register_fd w s fd user cbs).1.counted
      unfold State.counted at h ⊢
      rw [hsrc, hnb]; exact h
    · exact win_counted_append s _ n h hsrc hnb hfull
  | register_handle handle user cbs =>
    rcases win_register_handle_cases w s handle user cbs with
      ⟨hsrc, hnb, _⟩ | ⟨⟨n, _, hsrc⟩, hnb, hfull, _⟩
    · show (gpoll_register_handle w s handle user cbs).1.counted
      unfold State.counted at h ⊢
      rw [hsrc, hnb]; exact h
    · exact win_counted_append s _ n h hsrc hnb hfull
  | remove_fd_idle fd => exact win_counted_remove_fd { s with polling := 0 } fd h
  | remove_fd_polling fd => exact win_counted_remove_fd { s with polling := 1 } fd h
  | remove_handle_idle handle => exact win_counted_remove_handle { s with polling := 0 } handle h
  | remove_handle_polling handle =>
    exact win_counted_remove_handle { s with polling := 1 } handle h
  | deferred => exact win_counted_deferred s h

/-- The counter is the number of linked nodes, and at most `MAX_SOURCES`, after
every sequence of operations. -/
theorem win_counted_run (w : World) (ops : List Op) (s : State) (h : s.counted) :
    (run_ops w ops s).counted := by
  induction ops generalizing s with
  | nil => exact h
  | cons op ops ih => exact ih _ (win_counted_op w s op h)

theorem win_fill_handles_all (l : List poll_source) :
    fill_handles l.length l = l.map (fun n => n.handle) := by
  induction l with
  | nil => rfl
  | cons a l ih => simp [fill_handles, ih]

end Windows

/-- C18 (as stated, refuted on the polling backend): `nb_sources` is an
`unsigned int` and `gpoll_register_fd` has no capacity check, so after 2^32
successful registrations the registry links 2^32 nodes while `nb_sources` has
wrapped to 0, and the snapshot sized by it is empty. -/
theorem posix_count_wraps :
    (Posix.run_ops Scenario.quiet
        (List.replicate (2 ^ 32) (Posix.Op.register 3 10 Scenario.read_close))
        Posix.State.init).sources.length = 2 ^ 32 ∧
    (Posix.run_ops Scenario.quiet
        (List.replicate (2 ^ 32) (Posix.Op.register 3 10 Scenario.read_close))
        Posix.State.init).nb_sources = 0 ∧
    Posix.fill_fds
      (Posix.run_ops Scenario.quiet
        (List.replicate (2 ^ 32) (Posix.Op.register 3 10 Scenario.read_close))
        Posix.State.init).nb_sources
      (Posix.run_ops Scenario.quiet
        (List.replicate (2 ^ 32) (Posix.Op.register 3 10 Scenario.read_close))
        Posix.State.init).sources = [] := by
  have hlen := Posix.run_replicate_length Scenario.quiet (fun _ => rfl) 3 10 Scenario.read_close
    (by decide) (by decide) (2 ^ 32) Posix.State.init
  have hcnt := Posix.counted_run Scenario.quiet
    (List.replicate (2 ^ 32) (Posix.Op.register 3 10 Scenario.read_close)) Posix.State.init rfl
  have h0 : Posix.State.init.sources.length = 0 := rfl
  rw [h0, Nat.zero_add] at hlen
  unfold Posix.State.counted at hcnt
  rw [hlen, Nat.mod_self] at hcnt
  refine ⟨hlen, hcnt, ?_⟩
  rw [hcnt]
  cases (Posix.run_ops Scenario.quiet
        (List.replicate (2 ^ 32) (Posix.Op.register 3 10 Scenario.read_close))
        Posix.State.init).sources <;> rfl

/-- C18 (amended): in every state reachable from the empty registry by
registrations, immediate removals, tombstoning removals and deferred-removal
passes, successful or failing: on the polling backend `nb_sources` is the
number of linked nodes modulo 2^32, and whenever fewer than 2^32 nodes are
linked it is that number, so that the snapshot of `fill_fds` has `nb_sources`
entries, which are the linked nodes in the order of the registry; on the wait
backend `nb_sources` is the number of linked nodes and at most `MAX_SOURCES`,
and the snapshot of `fill_handles` has `nb_sources` entries, which are the
handles of the linked nodes in the order of the registry. -/
theorem count_invariant :
    (∀ (w : Posix.World) (ops : List Posix.Op),
      (Posix.run_ops w ops Posix.State.init).nb_sources
        = (Posix.run_ops w ops Posix.State.init).sources.length % 2 ^ 32 ∧
      ((Posix.run_ops w ops Posix.State.init).sources.length < 2 ^ 32 →
        (Posix.run_ops w ops Posix.State.init).nb_sources
          = (Posix.run_ops w ops Posix.State.init).sources.length ∧
        (Posix.fill_fds (Posix.run_ops w ops Posix.State.init).nb_sources
          (Posix.run_ops w ops Posix.State.init).sources).length
          = (Posix.run_ops w ops Posix.State.init).nb_sources ∧
        (Posix.fill_fds (Posix.run_ops w ops Posix.State.init).nb_sources
          (Posix.run_ops w ops Posix.State.init).sources).map Prod.snd
          = (Posix.run_ops w ops Posix.State.init).addrs)) ∧
    (∀ (w : Windows.World) (ops : List Windows.Op),
      (Windows.run_ops w ops Windows.State.init).nb_sources
        = (Windows.run_ops w ops Windows.State.init).sources.length ∧
      (Windows.run_ops w ops Windows.State.init).nb_sources ≤ Windows.MAX_SOURCES ∧
      (Windows.fill_handles (Windows.run_ops w ops Windows.State.init).nb_sources
        (Windows.run_ops w ops Windows.State.init).sources).length
        = (Windows.run_ops w ops Windows.State.init).nb_sources ∧
      Windows.fill_handles (Windows.run_ops w ops Windows.State.init).nb_sources
        (Windows.run_ops w ops Windows.State.init).sources
        = (Windows.run_ops w ops Windows.State.init).sources.map fun n => n.handle) := by
  constructor
  · intro w ops
    have hcnt := Posix.counted_run w ops Posix.State.init rfl
    unfold Posix.State.counted at hcnt
    refine ⟨hcnt, fun hlt => ?_⟩
    have hnb : (Posix.run_ops w ops Posix.State.init).nb_sources
        = (Posix.run_ops w ops Posix.State.init).sources.length := by
      rw [hcnt]; exact Nat.mod_eq_of_lt hlt
    rw [hnb]
    exact ⟨rfl, (Posix.fill_fds_all _).2, (Posix.fill_fds_all _).1⟩
  · intro w ops
    obtain ⟨h1, h2⟩ := Windows.win_counted_run w ops Windows.State.init ⟨rfl, by decide⟩
    rw [h1, Windows.win_fill_handles_all]
    exact ⟨rfl, h2, by simp, rfl⟩

namespace Windows

/-! ### What each part of the loop writes to the log -/

theorem win_logs_refl (P : Event → Prop) (s : State) : Logs P s s :=
  ⟨[], by simp, by simp⟩

theorem win_logs_same (P : Event → Prop) {s1 s2 : State} (h : s2.trace = s1.trace) :
    Logs P s1 s2 := ⟨[], by simp [h], by simp⟩

theorem win_logs_trans {P : Event → Prop} {s1 s2 s3 : State} (h12 : Logs P s1 s2)
    (h23 : Logs P s2 s3) : Logs P s1 s3 := by
  obtain ⟨e1, h1, p1⟩ := h12
  obtain ⟨e2, h2, p2⟩ := h23
  refine ⟨e1 ++ e2, by rw [h2, h1, List.append_assoc], ?_⟩
  intro e he
  rcases List.mem_append.mp he with h | h
  · exact p1 e h
  · exact p2 e h

theorem win_logs_mono {P Q : Event → Prop} {s1 s2 : State} (hPQ : ∀ e, P e → Q e)
    (h : Logs P s1 s2) : Logs Q s1 s2 := by
  obtain ⟨evs, h1, p1⟩ := h
  exact ⟨evs, h1, fun e he => hPQ e (p1 e he)⟩

theorem win_logs_ext {P : Event → Prop} {s1 s2 : State} (h : Logs P s1 s2) :
    ∃ evs, s2.trace = s1.trace ++ evs := by
  obtain ⟨evs, h1, _⟩ := h
  exact ⟨evs, h1⟩

theorem win_logs_since {P : Event → Prop} {s1 s2 : State} (h : Logs P s1 s2) :
    ∀ e ∈ s2.since s1, P e := by
  obtain ⟨evs, h1, p1⟩ := h
  rw [win_since_of_trace h1]
  exact p1

theorem win_api_unserviced (e : Event) (h : e.api = true) : e.unserviced := by
  cases e <;> first | rfl | cases h

theorem win_api_visit (e : Event) (h : e.api = true) : e.visit? = none := by
  cases e <;> first | rfl | cases h

theorem win_rawinputs_none (evs : List Event) (h : ∀ e ∈ evs, e.unserviced) :
    rawinputs evs = [] := by
  unfold rawinputs
  rw [List.filterMap_eq_nil_iff]
  exact h

theorem win_visits_none (evs : List Event) (h : ∀ e ∈ evs, e.api = true) :
    visits evs = [] := by
  unfold visits
  rw [List.filterMap_eq_nil_iff]
  exact fun e he => win_api_visit e (h e he)

theorem win_rawinputs_append (a b : List Event) :
    rawinputs (a ++ b) = rawinputs a ++ rawinputs b := by
  simp [rawinputs, List.filterMap_append]

theorem win_logs_close (s : State) (x : poll_source) :
    Logs (fun e => e.api = true) s (gpoll_close_internal s x) := by
  unfold gpoll_close_internal
  by_cases h : x.fd ≥ 0
  · rw [if_pos h]
    refine ⟨[Event.WSACloseEvent x.handle], rfl, ?_⟩
    intro e he
    rw [List.mem_singleton.mp he]; rfl
  · rw [if_neg h]
    exact win_logs_same _ rfl

theorem win_logs_found (s : State) (c : poll_source) :
    Logs (fun e => e.api = true) s
      (if s.polling ≠ 0 then
        ({ s with sources := s.sources.replace c { c with removed := 1 } }, (0 : Int))
      else (gpoll_close_internal s c, 0)).1 := by
  by_cases hpol : s.polling ≠ 0
  · rw [if_pos hpol]; exact win_logs_same _ rfl
  · rw [if_neg hpol]; exact win_logs_close s c

theorem win_logs_remove_fd (s : State) (fd : Int) :
    Logs (fun e => e.api = true) s (gpoll_remove_fd s fd).1 := by
  unfold gpoll_remove_fd
  cases s.sources.find? (fun current => fd == current.fd) with
  | none => exact win_logs_refl _ s
  | some c => exact win_logs_found s c

theorem win_logs_remove_handle (s : State) (handle : Int) :
    Logs (fun e => e.api = true) s (gpoll_remove_handle s handle).1 := by
  unfold gpoll_remove_handle
  cases s.sources.find? (fun current => handle == current.handle) with
  | none => exact win_logs_refl _ s
  | some c => exact win_logs_found s c

theorem win_logs_register_fd (w : World) (s : State) (fd : Int) (user : Nat)
    (cbs : GPOLL_CALLBACKS) :
    Logs (fun e => e.api = true) s (gpoll_register_fd w s fd user cbs).1 := by
  rcases win_register_fd_cases w s fd user cbs with h | h
  · exact win_logs_same _ h.2.2.2.1
  · exact win_logs_same _ h.2.2.2.2.1

theorem win_logs_register_handle (w : World) (s : State) (handle : Int) (user : Nat)
    (cbs : GPOLL_CALLBACKS) :
    Logs (fun e => e.api = true) s (gpoll_register_handle w s handle user cbs).1 := by
  rcases win_register_handle_cases w s handle user cbs with h | h
  · exact win_logs_same _ h.2.2.2.1
  · exact win_logs_same _ h.2.2.2.2.1

theorem win_logs_push (s : State) (e : Event) (h : e.api = true) :
    Logs (fun e => e.api = true) s { s with trace := s.trace ++ [e] } := by
  refine ⟨[e], rfl, ?_⟩
  intro e2 he
  rw [List.mem_singleton.mp he]; exact h

/-- Running a callback body appends only API entries to the log. -/
theorem win_logs_run_callback (w : World) (c : Callback) (s : State) :
    Logs (fun e => e.api = true) s (run_callback w c s).1 := by
  induction c generalizing s with
  | ret r => exact win_logs_refl _ s
  | register_fd fd user cbs k ih =>
    rw [win_run_register_fd]
    exact win_logs_trans (win_logs_register_fd w s fd user cbs)
      (win_logs_trans (win_logs_push _ (Event.register_fd _ _) rfl) (ih _ _))
  | register_handle handle user cbs k ih =>
    rw [win_run_register_handle]
    exact win_logs_trans (win_logs_register_handle w s handle user cbs)
      (win_logs_trans (win_logs_push _ (Event.register_handle _ _) rfl) (ih _ _))
  | remove_fd fd k ih =>
    rw [win_run_remove_fd]
    exact win_logs_trans (win_logs_remove_fd s fd)
      (win_logs_trans (win_logs_push _ (Event.remove_fd _ _) rfl) (ih _ _))
  | remove_handle handle k ih =>
    rw [win_run_remove_handle]
    exact win_logs_trans (win_logs_remove_handle s handle)
      (win_logs_trans (win_logs_push _ (Event.remove_handle _ _) rfl) (ih _ _))
  | set_rawinput_callback callback k ih =>
    rw [win_run_set_rawinput]
    exact win_logs_trans (win_logs_push (gpoll_set_rawinput_callback s callback)
      (Event.set_rawinput_callback callback) rfl) (ih _)

/-- A call through a slot of a node appends no call of the raw-input callback
to the log. -/
theorem win_logs_invoke (w : World) (s : State) (p : Nat) (slot : Slot) :
    Logs Event.unserviced s (invoke w s p slot).1 := by
  have h1 := win_logs_run_callback w
    (w.callback s.clock (((deref s p).getD null_source).fp slot)
      ((deref s p).getD null_source).user)
    { s with clock := s.clock + 1,
             fault := s.fault || (deref s p).isNone ||
               ((deref s p).getD null_source).fp slot == NULL }
  have h2 : Logs Event.unserviced
      (run_callback w
        (w.callback s.clock (((deref s p).getD null_source).fp slot)
          ((deref s p).getD null_source).user)
        { s with clock := s.clock + 1,
                 fault := s.fault || (deref s p).isNone ||
                   ((deref s p).getD null_source).fp slot == NULL }).1
      (invoke w s p slot).1 := by
    refine ⟨[Event.call p slot (((deref s p).getD null_source).fp slot)
        ((deref s p).getD null_source).user (invoke w s p slot).2], rfl, ?_⟩
    intro e he
    rw [List.mem_singleton.mp he]; rfl
  exact win_logs_trans (win_logs_trans (win_logs_same _ rfl) (win_logs_mono win_api_unserviced h1)) h2

/-- A call of the raw-input callback appends the API entries of the callback
and then the entry of the call. -/
theorem win_invoke_rawinput_log (w : World) (s : State) :
    ∃ evs, (invoke_rawinput w s).1.trace
        = s.trace ++ (evs ++ [Event.rawinput s.rawinput_callback (invoke_rawinput w s).2]) ∧
      ∀ e ∈ evs, e.api = true := by
  obtain ⟨evs, h1, p1⟩ := win_logs_run_callback w (w.rawinput s.clock s.rawinput_callback)
    { s with clock := s.clock + 1, fault := s.fault || s.rawinput_callback == NULL }
  refine ⟨evs, ?_, p1⟩
  show _ ++ _ = _
  rw [h1, List.append_assoc]
  rfl

theorem win_invoke_rawinput_since (w : World) (s : State) :
    rawinputs ((invoke_rawinput w s).1.since s)
      = [(s.rawinput_callback, (invoke_rawinput w s).2)] ∧
    visits ((invoke_rawinput w s).1.since s) = [] := by
  obtain ⟨evs, h1, p1⟩ := win_invoke_rawinput_log w s
  rw [win_since_of_trace h1, win_rawinputs_append, win_visits_append,
    win_rawinputs_none evs (fun e he => win_api_unserviced e (p1 e he)), win_visits_none evs p1]
  exact ⟨rfl, rfl⟩

end Windows

namespace Windows

theorem win_logs_probe (w : World) (result : Nat) (handles : List Int) (p : Nat)
    (c : poll_source) (s : State) :
    Logs Event.unserviced s (gpoll_probe w result handles p c s).1 := by
  have hst : Logs Event.unserviced s
      { s with clock := s.clock + 1,
               trace := s.trace ++ [Event.probe p (w.WaitForSingleObject s.clock c.handle)] } := by
    refine ⟨[Event.probe p (w.WaitForSingleObject s.clock c.handle)], rfl, ?_⟩
    intro e he
    rw [List.mem_singleton.mp he]; rfl
  unfold gpoll_probe
  by_cases hc : result ≥ handles.length ∨ some c.handle ≠ handles.get? result
  · rw [if_pos hc]
    by_cases h1 : w.WaitForSingleObject s.clock c.handle = WAIT_FAILED
    · simpa [h1] using hst
    · by_cases h2 : w.WaitForSingleObject s.clock c.handle = WAIT_OBJECT_0
      · simpa [h1, h2] using hst
      · simpa [h1, h2] using hst
  · rw [if_neg hc]
    exact win_logs_refl _ s

theorem win_logs_network (w : World) (p : Nat) (c : poll_source) (s : State) (done : Nat) :
    Logs Event.unserviced s (gpoll_network w p c s done).1 := by
  have h0 : Logs Event.unserviced s { s with clock := s.clock + 1 } := win_logs_same _ rfl
  have hclose := win_logs_trans h0 (win_logs_invoke w { s with clock := s.clock + 1 } p Slot.close)
  have hread := win_logs_trans h0 (win_logs_invoke w { s with clock := s.clock + 1 } p Slot.read)
  unfold gpoll_network
  by_cases h1 : (w.WSAEnumNetworkEvents s.clock c.fd c.handle).1 ≠ 0
  · simpa [h1] using hclose
  · by_cases h2 : (w.WSAEnumNetworkEvents s.clock c.fd c.handle).2.1 &&& FD_READ ≠ 0
    · by_cases h3 : (w.WSAEnumNetworkEvents s.clock c.fd c.handle).2.2 ≠ 0
      · simpa [h1, h2, h3] using hclose
      · simpa [h1, h2, h3] using hread
    · simpa [h1, h2] using h0

theorem win_logs_other (w : World) (p : Nat) (c : poll_source) (s : State) (done : Nat) :
    Logs Event.unserviced s (gpoll_other w p c s done).1 := by
  unfold gpoll_other
  by_cases hr : c.fp_read ≠ NULL
  · have h1 := win_logs_invoke w s p Slot.read
    by_cases hw : c.fp_write ≠ NULL
    · simpa [hr, hw] using
        win_logs_trans h1 (win_logs_invoke w (invoke w s p Slot.read).1 p Slot.write)
    · simpa [hr, hw] using h1
  · by_cases hw : c.fp_write ≠ NULL
    · simpa [hr, hw] using win_logs_invoke w s p Slot.write
    · simpa [hr, hw] using win_logs_refl Event.unserviced s

theorem win_logs_body (w : World) (result : Nat) (handles : List Int) (p : Nat) (s : State)
    (done : Nat) : Logs Event.unserviced s (gpoll_body w result handles p s done).1 := by
  have h0 : Logs Event.unserviced s { s with fault := s.fault || (deref s p).isNone } :=
    win_logs_same _ rfl
  have hp := win_logs_trans h0 (win_logs_probe w result handles p ((deref s p).getD null_source)
    { s with fault := s.fault || (deref s p).isNone })
  unfold gpoll_body
  dsimp only
  by_cases hnull : ((deref s p).getD null_source).fp_read = NULL ∧
      ((deref s p).getD null_source).fp_write = NULL
  · rw [if_pos hnull]; exact h0
  · rw [if_neg hnull]
    by_cases hready : (gpoll_probe w result handles p ((deref s p).getD null_source)
        { s with fault := s.fault || (deref s p).isNone }).2 = false
    · rw [if_pos hready]; exact hp
    · rw [if_neg hready]
      by_cases hfd : ((deref s p).getD null_source).fd ≥ 0
      · rw [if_pos hfd]
        exact win_logs_trans hp (win_logs_network w p _ _ done)
      · rw [if_neg hfd]
        exact win_logs_trans hp (win_logs_other w p _ _ done)

/-- The `for` loop appends no call of the raw-input callback to the log. -/
theorem win_logs_walk (w : World) (result : Nat) (handles : List Int) (fuel : Nat) :
    ∀ (cur : Option Nat) (s : State) (done : Nat),
      Logs Event.unserviced s (gpoll_walk w result handles fuel cur s done).1 := by
  induction fuel with
  | zero =>
    intro cur s done
    cases cur <;> exact win_logs_refl _ s
  | succ fuel ih =>
    intro cur s done
    cases cur with
    | none => exact win_logs_refl _ s
    | some p =>
      rw [win_walk_step]
      exact win_logs_trans (win_logs_body w result handles p s done) (ih _ _ _)

theorem win_logs_deferred_fold (l : List poll_source) (st : State) :
    Logs (fun e => e.api = true) st (l.foldl (fun st current =>
        if current.removed ≠ 0 then gpoll_close_internal st current else st) st) := by
  induction l generalizing st with
  | nil => exact win_logs_refl _ st
  | cons x xs ih =>
    simp only [List.foldl_cons]
    by_cases hx : x.removed ≠ 0
    · rw [if_pos hx]
      exact win_logs_trans (win_logs_close st x) (ih _)
    · rw [if_neg hx]
      exact ih st

/-- The deferred-removal pass appends only `WSACloseEvent` entries to the
log. -/
theorem win_logs_deferred (s : State) :
    Logs (fun e => e.api = true) s (gpoll_remove_deferred s) :=
  win_logs_deferred_fold s.sources s

end Windows

namespace Windows

theorem win_iteration_failed (w : World) (s : State) (l : Locals) (h : gpoll_wait w s l = none) :
    gpoll_iteration w s l = ({ s with clock := s.clock + 1 }, l) := by
  simp only [gpoll_iteration, h]

theorem win_iteration_locals (w : World) (s s1 : State) (l l1 : Locals) (result : Nat)
    (handles : List Int) (hwait : gpoll_wait w s l = some (s1, l1, result, handles)) :
    (gpoll_iteration w s l).2
      = { l1 with done := (walked w s1 l1.done result handles).2.1 } := by
  simp only [gpoll_iteration, hwait, walked]

theorem win_loop_succ (w : World) (fuel : Nat) (s : State) (l : Locals) :
    gpoll_loop w (fuel + 1) s l =
      if (gpoll_iteration w s l).2.done = 0 then
        gpoll_loop w fuel (gpoll_iteration w s l).1 (gpoll_iteration w s l).2
      else some (gpoll_iteration w s l) := rfl

/-- The first part of a turn, when the wait did not fail: either the raw-input
callback was called once and `rawinput_processed` is 1, or it was not called
and `rawinput_processed` is unchanged. -/
theorem win_wait_rawinput (w : World) (s s1 : State) (l l1 : Locals) (result : Nat)
    (handles : List Int) (hwait : gpoll_wait w s l = some (s1, l1, result, handles)) :
    (∃ evs, s1.trace = s.trace ++ evs) ∧
    ((l1.rawinput_processed = 1 ∧
        ∃ r, rawinputs (s1.since s) = [(s.rawinput_callback, r)]) ∨
     (l1.rawinput_processed = l.rawinput_processed ∧ rawinputs (s1.since s) = [])) := by
  unfold gpoll_wait at hwait
  dsimp only at hwait
  generalize (if s.rawinput_callback ≠ NULL then QS_RAWINPUT else 0) = mask at hwait
  generalize w.MsgWaitForMultipleObjects s.clock (fill_handles s.nb_sources s.sources) mask
    = res at hwait
  by_cases hf : res = WAIT_FAILED
  · rw [if_pos hf] at hwait
    cases hwait
  · rw [if_neg hf] at hwait
    by_cases hraw : s.rawinput_callback ≠ NULL
    · rw [if_pos hraw] at hwait
      by_cases hq : w.GetQueueStatus (s.clock + 1) ≠ 0
      · rw [if_pos hq] at hwait
        simp only [Option.some.injEq, Prod.mk.injEq] at hwait
        obtain ⟨rfl, rfl, _, _⟩ := hwait
        obtain ⟨evs, h1, p1⟩ := win_invoke_rawinput_log w { s with clock := s.clock + 1 + 1 }
        have h1' : (invoke_rawinput w { s with clock := s.clock + 1 + 1 }).1.trace
            = s.trace ++ (evs ++ [Event.rawinput s.rawinput_callback
                (invoke_rawinput w { s with clock := s.clock + 1 + 1 }).2]) := h1
        refine ⟨⟨_, h1'⟩, Or.inl ⟨rfl,
          (invoke_rawinput w { s with clock := s.clock + 1 + 1 }).2, ?_⟩⟩
        rw [win_since_of_trace h1', win_rawinputs_append,
          win_rawinputs_none evs (fun e he => win_api_unserviced e (p1 e he))]
        rfl
      · rw [if_neg hq] at hwait
        simp only [Option.some.injEq, Prod.mk.injEq] at hwait
        obtain ⟨rfl, rfl, _, _⟩ := hwait
        refine ⟨⟨[], by simp⟩, Or.inr ⟨rfl, ?_⟩⟩
        simp [State.since, rawinputs]
    · rw [if_neg hraw] at hwait
      simp only [Option.some.injEq, Prod.mk.injEq] at hwait
      obtain ⟨rfl, rfl, _, _⟩ := hwait
      refine ⟨⟨[], by simp⟩, Or.inr ⟨rfl, ?_⟩⟩
      simp [State.since, rawinputs]

/-- One turn of the loop: either the raw-input callback was called once and
`rawinput_processed` is 1 after the turn, or it was not called and
`rawinput_processed` is unchanged. -/
theorem win_iteration_rawinput (w : World) (s : State) (l : Locals) :
    (∃ evs, (gpoll_iteration w s l).1.trace = s.trace ++ evs) ∧
    (((gpoll_iteration w s l).2.rawinput_processed = 1 ∧
        ∃ r, rawinputs ((gpoll_iteration w s l).1.since s) = [(s.rawinput_callback, r)]) ∨
     ((gpoll_iteration w s l).2.rawinput_processed = l.rawinput_processed ∧
        rawinputs ((gpoll_iteration w s l).1.since s) = [])) := by
  cases hwait : gpoll_wait w s l with
  | none =>
    rw [win_iteration_failed w s l hwait]
    refine ⟨⟨[], by simp⟩, Or.inr ⟨rfl, ?_⟩⟩
    simp [State.since, rawinputs]
  | some x =>
    obtain ⟨s1, l1, result, handles⟩ := x
    obtain ⟨hext, hcase⟩ := win_wait_rawinput w s s1 l l1 result handles hwait
    have hrest : Logs Event.unserviced s1 (gpoll_iteration w s l).1 := by
      rw [win_iteration_of_wait w s s1 l l1 result handles hwait]
      exact win_logs_trans (win_logs_walk w result handles _ _ s1 l1.done)
        (win_logs_mono win_api_unserviced (win_logs_deferred _))
    have hsince := win_since_trans hext (win_logs_ext hrest)
    have hnone : rawinputs ((gpoll_iteration w s l).1.since s1) = [] :=
      win_rawinputs_none _ (win_logs_since hrest)
    have hl : (gpoll_iteration w s l).2.rawinput_processed = l1.rawinput_processed := by
      rw [win_iteration_locals w s s1 l l1 result handles hwait]
    obtain ⟨e1, he1⟩ := hext
    obtain ⟨e2, he2⟩ := win_logs_ext hrest
    refine ⟨⟨e1 ++ e2, by rw [he2, he1, List.append_assoc]⟩, ?_⟩
    rw [hsince, win_rawinputs_append, hnone, List.append_nil, hl]
    exact hcase

/-- The loop, when it ends: `rawinput_processed` is 0 after it exactly when it
was 0 before it and the raw-input callback was called in no turn. -/
theorem win_loop_rawinput (w : World) (fuel : Nat) :
    ∀ (s s1 : State) (l l1 : Locals), gpoll_loop w fuel s l = some (s1, l1) →
      (∃ evs, s1.trace = s.trace ++ evs) ∧
      (l1.rawinput_processed = 0 ↔
        l.rawinput_processed = 0 ∧ rawinputs (s1.since s) = []) := by
  induction fuel with
  | zero =>
    intro s s1 l l1 h
    cases h
  | succ fuel ih =>
    intro s s1 l l1 h
    rw [win_loop_succ] at h
    obtain ⟨hext, hcase⟩ := win_iteration_rawinput w s l
    have hturn : (gpoll_iteration w s l).2.rawinput_processed = 0 ↔
        l.rawinput_processed = 0 ∧ rawinputs ((gpoll_iteration w s l).1.since s) = [] := by
      rcases hcase with ⟨h1, r, hr⟩ | ⟨h1, hr⟩
      · rw [h1, hr]; simp
      · rw [h1, hr]; simp
    by_cases hd : (gpoll_iteration w s l).2.done = 0
    · rw [if_pos hd] at h
      obtain ⟨hext2, hiff⟩ := ih _ _ _ _ h
      obtain ⟨e1, he1⟩ := hext
      obtain ⟨e2, he2⟩ := hext2
      refine ⟨⟨e1 ++ e2, by rw [he2, he1, List.append_assoc]⟩, ?_⟩
      rw [win_since_trans ⟨e1, he1⟩ ⟨e2, he2⟩, win_rawinputs_append, List.append_eq_nil, hiff,
        hturn]
      tauto
    · rw [if_neg hd] at h
      simp only [Option.some.injEq] at h
      have h1 : (gpoll_iteration w s l).1 = s1 := by rw [h]
      have h2 : (gpoll_iteration w s l).2 = l1 := by rw [h]
      rw [h1] at hext hturn
      rw [h2] at hturn
      exact ⟨hext, hturn⟩

end Windows

/-! ## Theorems: the raw-input callback -/

/-- C14 (as stated, refuted): a run of two turns with the raw-input callback 5
registered.  In the first turn raw input is pending, the callback is serviced
and returns 0, and no source stops the loop; in the second and final turn raw
input is not pending, the callback is not serviced, and the read callback of
the source stops the loop.  `rawinput_processed` is still 1 from the first
turn, so `gpoll` returns without calling the raw-input callback after the
loop: the only raw-input call of the run is that of the first turn. -/
theorem windows_no_fallback_after_earlier_service :
    Scenario.raw_turn1.2.done = 0 ∧
    Windows.rawinputs (Scenario.raw_turn1.1.since Scenario.raw_and_handle) = [(5, 0)] ∧
    Scenario.raw_turn2.2.done = 1 ∧
    Windows.rawinputs (Scenario.raw_turn2.1.since Scenario.raw_turn1.1) = [] ∧
    Scenario.raw_turn2.1.rawinput_callback = 5 ∧
    Windows.gpoll Scenario.raw_once 2 Scenario.raw_and_handle
      = some { Scenario.raw_turn2.1 with polling := 0 } ∧
    Scenario.raw_turn2.1.trace
      = [Windows.Event.rawinput 5 0, Windows.Event.probe 1 0x102,
         Windows.Event.call 1 Slot.read 1 20 1] := by
  decide

/-- C14 (amended): in every run of the wait-based `gpoll` whose loop ends,
from any registry, `gpoll` returns, and the raw-input callback is called after
the loop exactly when it is registered when the loop ends and was serviced in
no turn of the run (not only the final one); it is then called once.
Otherwise nothing is logged after the loop. -/
theorem windows_rawinput_fallback (w : Windows.World) (fuel : Nat) (s s1 : Windows.State)
    (l1 : Windows.Locals)
    (hloop : Windows.gpoll_loop w fuel { s with polling := 1 } Windows.Locals.init
      = some (s1, l1)) :
    ∃ s2, Windows.gpoll w fuel s = some s2 ∧
      (∃ evs, s1.trace = s.trace ++ evs) ∧
      (∃ evs, s2.trace = s1.trace ++ evs) ∧
      ((s1.rawinput_callback ≠ NULL ∧ Windows.rawinputs (s1.since s) = []) →
        ∃ r, Windows.rawinputs (s2.since s1) = [(s1.rawinput_callback, r)]) ∧
      (¬ (s1.rawinput_callback ≠ NULL ∧ Windows.rawinputs (s1.since s) = []) →
        s2.trace = s1.trace) := by
  obtain ⟨hext, hiff⟩ := Windows.win_loop_rawinput w fuel _ _ _ _ hloop
  have hiff' : l1.rawinput_processed = 0 ↔ Windows.rawinputs (s1.since s) = [] := by
    rw [hiff]
    exact ⟨fun h => h.2, fun h => ⟨rfl, h⟩⟩
  have hg : Windows.gpoll w fuel s = some
      { (if l1.rawinput_processed = 0 ∧ s1.rawinput_callback ≠ NULL then
          (Windows.invoke_rawinput w s1).1 else s1) with polling := 0 } := by
    unfold Windows.gpoll
    have hloop' : Windows.gpoll_loop w fuel { s with polling := 1 }
        { done := 0, rawinput_processed := 0 } = some (s1, l1) := hloop
    rw [hloop']
  refine ⟨_, hg, hext, ?_⟩
  by_cases hc : l1.rawinput_processed = 0 ∧ s1.rawinput_callback ≠ NULL
  · rw [if_pos hc]
    obtain ⟨evs, h1, _⟩ := Windows.win_invoke_rawinput_log w s1
    refine ⟨⟨_, h1⟩, fun _ => ⟨(Windows.invoke_rawinput w s1).2, ?_⟩, fun hn => ?_⟩
    · exact (Windows.win_invoke_rawinput_since w s1).1
    · exact absurd ⟨hc.2, hiff'.mp hc.1⟩ hn
  · rw [if_neg hc]
    refine ⟨⟨[], by simp⟩, fun h => ?_, fun _ => rfl⟩
    exact absurd ⟨hiff'.mpr h.2, h.1⟩ hc

/-- C14 (amended) at a concrete input: the raw-input callback 5 is registered
and raw input is never pending; the loop ends in its first turn, and the
callback is called once after it. -/
theorem windows_rawinput_fallback_witness :
    Windows.gpoll_loop Scenario.raw_never 1 { Scenario.raw_and_handle with polling := 1 }
        Windows.Locals.init = some (Scenario.raw_never_turn.1, Scenario.raw_never_turn.2) ∧
    (Scenario.raw_never_turn.1.rawinput_callback ≠ NULL ∧
      Windows.rawinputs (Scenario.raw_never_turn.1.since Scenario.raw_and_handle) = []) ∧
    ∃ s2, Windows.gpoll Scenario.raw_never 1 Scenario.raw_and_handle = some s2 ∧
      (∃ evs, Scenario.raw_never_turn.1.trace = Scenario.raw_and_handle.trace ++ evs) ∧
      (∃ evs, s2.trace = Scenario.raw_never_turn.1.trace ++ evs) ∧
      ((Scenario.raw_never_turn.1.rawinput_callback ≠ NULL ∧
          Windows.rawinputs (Scenario.raw_never_turn.1.since Scenario.raw_and_handle) = []) →
        ∃ r, Windows.rawinputs (s2.since Scenario.raw_never_turn.1)
          = [(Scenario.raw_never_turn.1.rawinput_callback, r)]) ∧
      (¬ (Scenario.raw_never_turn.1.rawinput_callback ≠ NULL ∧
          Windows.rawinputs (Scenario.raw_never_turn.1.since Scenario.raw_and_handle) = []) →
        s2.trace = Scenario.raw_never_turn.1.trace) :=
  ⟨by decide, by decide,
    windows_rawinput_fallback Scenario.raw_never 1 Scenario.raw_and_handle
      Scenario.raw_never_turn.1 Scenario.raw_never_turn.2 (by decide)⟩

namespace Windows

/-! ### The stop signal -/

theorem win_api_stop (e : Event) (h : e.api = true) : e.stop = false := by
  cases e <;> first | rfl | cases h

theorem win_sticks_refl (s : State) (d : Nat) : Sticks s d s d := by
  refine ⟨[], by simp, ?_⟩
  rintro (h | ⟨e, he, _⟩)
  · exact h
  · cases he

theorem win_sticks_trans {s1 s2 s3 : State} {d1 d2 d3 : Nat} (h12 : Sticks s1 d1 s2 d2)
    (h23 : Sticks s2 d2 s3 d3) : Sticks s1 d1 s3 d3 := by
  obtain ⟨e1, h1, p1⟩ := h12
  obtain ⟨e2, h2, p2⟩ := h23
  refine ⟨e1 ++ e2, by rw [h2, h1, List.append_assoc], ?_⟩
  rintro (h | ⟨e, he, hs⟩)
  · exact p2 (Or.inl (p1 (Or.inl h)))
  · rcases List.mem_append.mp he with h | h
    · exact p2 (Or.inl (p1 (Or.inr ⟨e, h, hs⟩)))
    · exact p2 (Or.inr ⟨e, h, hs⟩)

theorem win_sticks_of_logs {s1 s2 : State} (d : Nat) (h : Logs (fun e => e.stop = false) s1 s2) :
    Sticks s1 d s2 d := by
  obtain ⟨evs, h1, p1⟩ := h
  refine ⟨evs, h1, ?_⟩
  rintro (h | ⟨e, he, hs⟩)
  · exact h
  · rw [p1 e he] at hs; cases hs

theorem win_sticks_of_api {s1 s2 : State} (d : Nat) (h : Logs (fun e => e.api = true) s1 s2) :
    Sticks s1 d s2 d :=
  win_sticks_of_logs d (win_logs_mono win_api_stop h)

theorem win_sticks_same {s1 s2 : State} (d : Nat) (h : s2.trace = s1.trace) :
    Sticks s1 d s2 d :=
  win_sticks_of_logs d (win_logs_same _ h)

/-- A call through a slot whose return value the loop tests. -/
theorem win_sticks_invoke (w : World) (s : State) (p : Nat) (slot : Slot) (d : Nat) :
    Sticks s d (invoke w s p slot).1 (if (invoke w s p slot).2 ≠ 0 then 1 else d) := by
  have h1 := win_logs_run_callback w
    (w.callback s.clock (((deref s p).getD null_source).fp slot)
      ((deref s p).getD null_source).user)
    { s with clock := s.clock + 1,
             fault := s.fault || (deref s p).isNone ||
               ((deref s p).getD null_source).fp slot == NULL }
  have h0 : Sticks s d
      (run_callback w
        (w.callback s.clock (((deref s p).getD null_source).fp slot)
          ((deref s p).getD null_source).user)
        { s with clock := s.clock + 1,
                 fault := s.fault || (deref s p).isNone ||
                   ((deref s p).getD null_source).fp slot == NULL }).1 d :=
    win_sticks_trans (win_sticks_same d rfl) (win_sticks_of_api d h1)
  refine win_sticks_trans h0 ?_
  refine ⟨[Event.call p slot (((deref s p).getD null_source).fp slot)
      ((deref s p).getD null_source).user (invoke w s p slot).2], rfl, ?_⟩
  rintro (h | ⟨e, he, hs⟩)
  · by_cases hr : (invoke w s p slot).2 ≠ 0
    · rw [if_pos hr]; exact Nat.one_ne_zero
    · rw [if_neg hr]; exact h
  · rw [List.mem_singleton.mp he] at hs
    have hr : (invoke w s p slot).2 ≠ 0 := by
      simp only [Event.stop, Bool.and_eq_true, bne_iff_ne] at hs
      exact hs.2
    rw [if_pos hr]; exact Nat.one_ne_zero

/-- A call through the close slot, whose return value the loop ignores. -/
theorem win_sticks_close (w : World) (s : State) (p : Nat) (d : Nat) :
    Sticks s d (invoke w s p Slot.close).1 d := by
  have h1 := win_logs_run_callback w
    (w.callback s.clock (((deref s p).getD null_source).fp Slot.close)
      ((deref s p).getD null_source).user)
    { s with clock := s.clock + 1,
             fault := s.fault || (deref s p).isNone ||
               ((deref s p).getD null_source).fp Slot.close == NULL }
  have h0 : Sticks s d
      (run_callback w
        (w.callback s.clock (((deref s p).getD null_source).fp Slot.close)
          ((deref s p).getD null_source).user)
        { s with clock := s.clock + 1,
                 fault := s.fault || (deref s p).isNone ||
                   ((deref s p).getD null_source).fp Slot.close == NULL }).1 d :=
    win_sticks_trans (win_sticks_same d rfl) (win_sticks_of_api d h1)
  refine win_sticks_trans h0 (win_sticks_of_logs d ?_)
  refine ⟨[Event.call p Slot.close (((deref s p).getD null_source).fp Slot.close)
      ((deref s p).getD null_source).user (invoke w s p Slot.close).2], rfl, ?_⟩
  intro e he
  rw [List.mem_singleton.mp he]
  rfl

theorem win_sticks_probe (w : World) (result : Nat) (handles : List Int) (p : Nat)
    (c : poll_source) (s : State) (d : Nat) :
    Sticks s d (gpoll_probe w result handles p c s).1 d := by
  have hst : Sticks s d
      { s with clock := s.clock + 1,
               trace := s.trace ++ [Event.probe p (w.WaitForSingleObject s.clock c.handle)] }
      d := by
    refine win_sticks_of_logs d
      ⟨[Event.probe p (w.WaitForSingleObject s.clock c.handle)], rfl, ?_⟩
    intro e he
    rw [List.mem_singleton.mp he]; rfl
  unfold gpoll_probe
  by_cases hc : result ≥ handles.length ∨ some c.handle ≠ handles.get? result
  · rw [if_pos hc]
    by_cases h1 : w.WaitForSingleObject s.clock c.handle = WAIT_FAILED
    · simpa [h1] using hst
    · by_cases h2 : w.WaitForSingleObject s.clock c.handle = WAIT_OBJECT_0
      · simpa [h1, h2] using hst
      · simpa [h1, h2] using hst
  · rw [if_neg hc]
    exact win_sticks_refl s d

theorem win_sticks_network (w : World) (p : Nat) (c : poll_source) (s : State) (d : Nat) :
    Sticks s d (gpoll_network w p c s d).1 (gpoll_network w p c s d).2 := by
  have h0 : Sticks s d { s with clock := s.clock + 1 } d := win_sticks_same d rfl
  have hclose := win_sticks_trans h0 (win_sticks_close w { s with clock := s.clock + 1 } p d)
  have hread := win_sticks_trans h0
    (win_sticks_invoke w { s with clock := s.clock + 1 } p Slot.read d)
  unfold gpoll_network
  by_cases h1 : (w.WSAEnumNetworkEvents s.clock c.fd c.handle).1 ≠ 0
  · simpa [h1] using hclose
  · by_cases h2 : (w.WSAEnumNetworkEvents s.clock c.fd c.handle).2.1 &&& FD_READ ≠ 0
    · by_cases h3 : (w.WSAEnumNetworkEvents s.clock c.fd c.handle).2.2 ≠ 0
      · simpa [h1, h2, h3] using hclose
      · simpa [h1, h2, h3] using hread
    · simpa [h1, h2] using h0

theorem win_sticks_other (w : World) (p : Nat) (c : poll_source) (s : State) (d : Nat) :
    Sticks s d (gpoll_other w p c s d).1 (gpoll_other w p c s d).2 := by
  unfold gpoll_other
  by_cases hr : c.fp_read ≠ NULL
  · have h1 := win_sticks_invoke w s p Slot.read d
    by_cases hw : c.fp_write ≠ NULL
    · simpa [hr, hw] using
        win_sticks_trans h1 (win_sticks_invoke w (invoke w s p Slot.read).1 p Slot.write _)
    · simpa [hr, hw] using h1
  · by_cases hw : c.fp_write ≠ NULL
    · simpa [hr, hw] using win_sticks_invoke w s p Slot.write d
    · simpa [hr, hw] using win_sticks_refl s d

theorem win_sticks_body (w : World) (result : Nat) (handles : List Int) (p : Nat) (s : State)
    (d : Nat) :
    Sticks s d (gpoll_body w result handles p s d).1 (gpoll_body w result handles p s d).2 := by
  have h0 : Sticks s d { s with fault := s.fault || (deref s p).isNone } d :=
    win_sticks_same d rfl
  have hp := win_sticks_trans h0 (win_sticks_probe w result handles p
    ((deref s p).getD null_source) { s with fault := s.fault || (deref s p).isNone } d)
  unfold gpoll_body
  dsimp only
  by_cases hnull : ((deref s p).getD null_source).fp_read = NULL ∧
      ((deref s p).getD null_source).fp_write = NULL
  · rw [if_pos hnull]; exact h0
  · rw [if_neg hnull]
    by_cases hready : (gpoll_probe w result handles p ((deref s p).getD null_source)
        { s with fault := s.fault || (deref s p).isNone }).2 = false
    · rw [if_pos hready]; exact hp
    · rw [if_neg hready]
      by_cases hfd : ((deref s p).getD null_source).fd ≥ 0
      · rw [if_pos hfd]
        exact win_sticks_trans hp (win_sticks_network w p _ _ d)
      · rw [if_neg hfd]
        exact win_sticks_trans hp (win_sticks_other w p _ _ d)

/-- Through the `for` loop, `done` stays set once it is set, and is set by
every stop signal. -/
theorem win_sticks_walk (w : World) (result : Nat) (handles : List Int) (fuel : Nat) :
    ∀ (cur : Option Nat) (s : State) (d : Nat),
      Sticks s d (gpoll_walk w result handles fuel cur s d).1
        (gpoll_walk w result handles fuel cur s d).2.1 := by
  induction fuel with
  | zero =>
    intro cur s d
    cases cur <;> exact win_sticks_refl s d
  | succ fuel ih =>
    intro cur s d
    cases cur with
    | none => exact win_sticks_refl s d
    | some p =>
      rw [win_walk_step]
      exact win_sticks_trans (win_sticks_body w result handles p s d) (ih _ _ _)

theorem win_sticks_wait (w : World) (s s1 : State) (l l1 : Locals) (result : Nat)
    (handles : List Int) (hwait : gpoll_wait w s l = some (s1, l1, result, handles)) :
    Sticks s l.done s1 l1.done := by
  unfold gpoll_wait at hwait
  dsimp only at hwait
  generalize (if s.rawinput_callback ≠ NULL then QS_RAWINPUT else 0) = mask at hwait
  generalize w.MsgWaitForMultipleObjects s.clock (fill_handles s.nb_sources s.sources) mask
    = res at hwait
  by_cases hf : res = WAIT_FAILED
  · rw [if_pos hf] at hwait
    cases hwait
  · rw [if_neg hf] at hwait
    by_cases hraw : s.rawinput_callback ≠ NULL
    · rw [if_pos hraw] at hwait
      by_cases hq : w.GetQueueStatus (s.clock + 1) ≠ 0
      · rw [if_pos hq] at hwait
        simp only [Option.some.injEq, Prod.mk.injEq] at hwait
        obtain ⟨rfl, rfl, _, _⟩ := hwait
        obtain ⟨evs, h1, p1⟩ := win_invoke_rawinput_log w { s with clock := s.clock + 1 + 1 }
        have h1' : (invoke_rawinput w { s with clock := s.clock + 1 + 1 }).1.trace
            = s.trace ++ (evs ++ [Event.rawinput s.rawinput_callback
                (invoke_rawinput w { s with clock := s.clock + 1 + 1 }).2]) := h1
        refine ⟨_, h1', ?_⟩
        show _ → (if (invoke_rawinput w { s with clock := s.clock + 1 + 1 }).2 ≠ 0 then 1
          else l.done) ≠ 0
        rintro (h | ⟨e, he, hs⟩)
        · by_cases hr : (invoke_rawinput w { s with clock := s.clock + 1 + 1 }).2 ≠ 0
          · rw [if_pos hr]; exact Nat.one_ne_zero
          · rw [if_neg hr]; exact h
        · rcases List.mem_append.mp he with h | h
          · rw [win_api_stop e (p1 e h)] at hs; cases hs
          · rw [List.mem_singleton.mp h] at hs
            have hr : (invoke_rawinput w { s with clock := s.clock + 1 + 1 }).2 ≠ 0 := by
              simpa [Event.stop] using hs
            rw [if_pos hr]; exact Nat.one_ne_zero
      · rw [if_neg hq] at hwait
        simp only [Option.some.injEq, Prod.mk.injEq] at hwait
        obtain ⟨rfl, rfl, _, _⟩ := hwait
        exact win_sticks_same _ rfl
    · rw [if_neg hraw] at hwait
      simp only [Option.some.injEq, Prod.mk.injEq] at hwait
      obtain ⟨rfl, rfl, _, _⟩ := hwait
      exact win_sticks_same _ rfl

/-- Through a turn of the loop, `done` stays set once it is set, and is set by
every stop signal. -/
theorem win_sticks_iteration (w : World) (s : State) (l : Locals) :
    Sticks s l.done (gpoll_iteration w s l).1 (gpoll_iteration w s l).2.done := by
  cases hwait : gpoll_wait w s l with
  | none =>
    rw [win_iteration_failed w s l hwait]
    exact win_sticks_same _ rfl
  | some x =>
    obtain ⟨s1, l1, result, handles⟩ := x
    rw [win_iteration_of_wait w s s1 l l1 result handles hwait,
      win_iteration_locals w s s1 l l1 result handles hwait]
    exact win_sticks_trans (win_sticks_wait w s s1 l l1 result handles hwait)
      (win_sticks_trans (win_sticks_walk w result handles _ _ s1 l1.done)
        (win_sticks_of_api _ (win_logs_deferred _)))

end Windows

namespace Windows

/-- Every node linked when the `for` loop of a turn ends has been served by
it, the nodes registered during the turn included. -/
theorem win_walk_served (w : World) (s1 : State) (done : Nat) (result : Nat)
    (handles : List Int) (hpol1 : s1.polling ≠ 0) (hwf1 : s1.wf) :
    Grows s1.sources (walked w s1 done result handles).1.sources ∧
    ∀ c ∈ (walked w s1 done result handles).1.sources,
      Served result handles c
        (((visits ((walked w s1 done result handles).1.since s1)).filter
          (fun v => v.1 = c.addr)).map Prod.snd) := by
  obtain ⟨_, _, hk, served, hdrop, hall, hvis⟩ :=
    win_walk_spec w result handles (walk_fuel s1) s1 done [] s1.sources hpol1 hwf1 rfl (by simp)
  simp only [List.length_nil, List.drop_zero] at hdrop
  have hwf2 := (hk.2.2.2 hwf1).1
  have hnd : (served.map fun x => x.1.addr).Nodup := by
    have := hwf2.1
    unfold State.addrs at this
    have hsrc : (gpoll_walk w result handles (walk_fuel s1) (GLIST_BEGIN s1.sources) s1
        done).1.sources = served.map Prod.fst := hdrop
    rw [hsrc, List.map_map] at this
    exact this
  refine ⟨hk.2.1, ?_⟩
  intro c hc
  have hc' : c ∈ served.map Prod.fst := by
    rw [← hdrop]; exact hc
  obtain ⟨x, hx, rfl⟩ := List.mem_map.mp hc'
  have hv : visits ((walked w s1 done result handles).1.since s1) = log_of served := hvis
  rw [hv, win_log_filter served hnd x.1 x.2 hx]
  exact hall x hx

/-- When the loop has ended, `gpoll` returns, and visits no node after the
loop. -/
theorem win_gpoll_after_loop (w : World) (fuel : Nat) (s s1 : State) (l1 : Locals)
    (hloop : gpoll_loop w fuel { s with polling := 1 } Locals.init = some (s1, l1)) :
    ∃ s2, gpoll w fuel s = some s2 ∧ visits (s2.since s1) = [] := by
  have hg : gpoll w fuel s = some
      { (if l1.rawinput_processed = 0 ∧ s1.rawinput_callback ≠ NULL then
          (invoke_rawinput w s1).1 else s1) with polling := 0 } := by
    unfold gpoll
    have hloop' : gpoll_loop w fuel { s with polling := 1 }
        { done := 0, rawinput_processed := 0 } = some (s1, l1) := hloop
    rw [hloop']
  refine ⟨_, hg, ?_⟩
  by_cases hc : l1.rawinput_processed = 0 ∧ s1.rawinput_callback ≠ NULL
  · rw [if_pos hc]
    exact (win_invoke_rawinput_since w s1).2
  · rw [if_neg hc]
    exact (by simp [State.since, visits] : visits (s1.since s1) = [])

end Windows

/-! ## Theorems: the stop signal of the wait backend -/

/-- C15 (as stated, refuted): two handle-only sources are registered.  In the
only turn of the run the read callback of the first returns 1, the stop
signal; the read callback of the second, which runs after it, registers a
third source with `gpoll_register_handle(9, 30, late_callbacks)`.  The `for`
loop goes on to the node just linked, probes its handle, finds it signaled and
calls its read callback 4, in that same turn. -/
theorem windows_source_registered_after_stop_dispatched :
    Windows.gpoll Scenario.late_guest 1 Scenario.stopper_and_host
      = some { Scenario.late_turn.1 with polling := 0 } ∧
    Scenario.late_turn.2.done = 1 ∧
    Scenario.late_turn.1.trace
      = [Windows.Event.call 1 Slot.read 1 10 1,
         Windows.Event.probe 2 0,
         Windows.Event.register_handle 9 0,
         Windows.Event.call 2 Slot.read 2 20 0,
         Windows.Event.probe 7 0,
         Windows.Event.call 7 Slot.read 4 30 0] ∧
    Scenario.guest ∈ Scenario.late_turn.1.sources ∧
    Scenario.guest ∉ Scenario.stopper_and_host.sources := by
  decide

/-- C15 (amended): on the wait backend a stop signal ends the loop after the
turn in which it is given, not within it.  In a turn whose wait did not fail:
`done` is set after the turn if it was set before it or if, during it, a read
or a write callback of a source or the raw-input callback returned non-zero;
if `done` is set after the turn, the loop ends with that turn; but the `for`
loop of the turn serves every node linked when it ends, which are the nodes
linked at the wait, in place, followed by the nodes registered during the
turn, before or after the stop signal: a handle-only source registered during
the turn is probed and, when the probe returns `WAIT_OBJECT_0`, each of its
callbacks is called, in that same turn.  Once the loop has ended `gpoll`
returns and no node is visited any more. -/
theorem windows_stop_ends_loop_after_turn (w : Windows.World) (s s1 : Windows.State)
    (l l1 : Windows.Locals) (result : Nat) (handles : List Int)
    (hwait : Windows.gpoll_wait w s l = some (s1, l1, result, handles))
    (hpol : s.polling ≠ 0) (hwf : s.wf) :
    ((l.done ≠ 0 ∨ ∃ e ∈ (Windows.gpoll_iteration w s l).1.since s, e.stop = true) →
      (Windows.gpoll_iteration w s l).2.done ≠ 0) ∧
    ((Windows.gpoll_iteration w s l).2.done ≠ 0 →
      ∀ fuel, Windows.gpoll_loop w (fuel + 1) s l = some (Windows.gpoll_iteration w s l)) ∧
    (Windows.Grows s1.sources (Windows.walked w s1 l1.done result handles).1.sources ∧
      ∀ c ∈ (Windows.walked w s1 l1.done result handles).1.sources,
        Windows.Served result handles c
          (((Windows.visits ((Windows.walked w s1 l1.done result handles).1.since s1)).filter
            (fun v => v.1 = c.addr)).map Prod.snd)) ∧
    (∀ fuel s0 s3 l3,
      Windows.gpoll_loop w fuel { s0 with polling := 1 } Windows.Locals.init = some (s3, l3) →
      ∃ s4, Windows.gpoll w fuel s0 = some s4 ∧ Windows.visits (s4.since s3) = []) := by
  obtain ⟨hk0, _, _⟩ := Windows.win_wait_spec w s s1 l l1 result handles hwait hpol
  have hpol1 : s1.polling ≠ 0 := by rw [hk0.1]; exact hpol
  obtain ⟨hwf1, _⟩ := hk0.2.2.2 hwf
  refine ⟨?_, ?_, Windows.win_walk_served w s1 l1.done result handles hpol1 hwf1,
    fun fuel s0 s3 l3 h => Windows.win_gpoll_after_loop w fuel s0 s3 l3 h⟩
  · obtain ⟨evs, h1, p1⟩ := Windows.win_sticks_iteration w s l
    rw [Windows.win_since_of_trace h1]
    exact p1
  · intro hd fuel
    rw [Windows.win_loop_succ, if_neg hd]

/-- C15 (amended) at a concrete input: the turn of `late_guest`.  The stop
signal of the first source ends the loop with this turn, and the source
registered after it is, in this turn, probed and then read. -/
theorem windows_stop_ends_loop_after_turn_witness :
    Windows.gpoll_loop Scenario.late_guest 1 { Scenario.stopper_and_host with polling := 1 }
      Windows.Locals.init = some Scenario.late_turn ∧
    Scenario.guest ∈ (Windows.walked Scenario.late_guest Scenario.late_waited 0 0
      [7, 8]).1.sources ∧
    ((Windows.visits ((Windows.walked Scenario.late_guest Scenario.late_waited 0 0
        [7, 8]).1.since Scenario.late_waited)).filter
      (fun v => v.1 = Scenario.guest.addr)).map Prod.snd
      = [Windows.Visit.probe 0, Windows.Visit.call Slot.read] ∧
    Windows.Served 0 [7, 8] Scenario.guest
      (((Windows.visits ((Windows.walked Scenario.late_guest Scenario.late_waited 0 0
          [7, 8]).1.since Scenario.late_waited)).filter
        (fun v => v.1 = Scenario.guest.addr)).map Prod.snd) :=
  have h := windows_stop_ends_loop_after_turn Scenario.late_guest
    { Scenario.stopper_and_host with polling := 1 } Scenario.late_waited
    Windows.Locals.init Windows.Locals.init 0 [7, 8] (by decide) (by decide)
    (And.intro (by decide) (And.intro (by decide) (by decide)))
  ⟨h.2.1 (by decide) 0, by decide, by decide, h.2.2.1.2 Scenario.guest (by decide)⟩

/-! ## Theorems: no absent callback on the polling backend -/

namespace Posix

theorem and_two_pow_ne_zero (x k : Nat) : x &&& 2 ^ k ≠ 0 ↔ x.testBit k = true := by
  constructor
  · intro h
    obtain ⟨i, hi⟩ := Nat.ne_zero_implies_bit_true h
    rw [Nat.testBit_and, Nat.testBit_two_pow, Bool.and_eq_true, decide_eq_true_eq] at hi
    rw [hi.2]; exact hi.1
  · intro h h0
    have : (x &&& 2 ^ k).testBit k = true := by
      rw [Nat.testBit_and, Nat.testBit_two_pow_self, h]; rfl
    rw [h0, Nat.zero_testBit] at this
    cases this

theorem bit_within_mask (r ev k : Nat)
    (h : r &&& (ev ||| (POLLERR ||| POLLHUP ||| POLLNVAL)) = r)
    (hk : (POLLERR ||| POLLHUP ||| POLLNVAL).testBit k = false) (hr : r.testBit k = true) :
    ev.testBit k = true := by
  have h2 : (r &&& (ev ||| (POLLERR ||| POLLHUP ||| POLLNVAL))).testBit k = true := by
    rw [h]; exact hr
  rw [Nat.testBit_and, Nat.testBit_or, hk, Bool.or_false, Bool.and_eq_true] at h2
  exact h2.2

theorem has_in_iff (x : Nat) : has_in x = true ↔ x.testBit 0 = true := by
  unfold has_in
  rw [bne_iff_ne]
  exact and_two_pow_ne_zero x 0

theorem has_out_iff (x : Nat) : has_out x = true ↔ x.testBit 2 = true := by
  unfold has_out
  rw [bne_iff_ne]
  exact and_two_pow_ne_zero x 2

/-- A readiness bit `POLLIN` within the mask is a bit of the interest mask. -/
theorem has_in_within (pfd : pollfd) (h : pfd.within_mask) (hin : has_in pfd.revents = true) :
    has_in pfd.events = true :=
  (has_in_iff _).mpr (bit_within_mask _ _ 0 h (by decide) ((has_in_iff _).mp hin))

/-- A readiness bit `POLLOUT` within the mask is a bit of the interest mask. -/
theorem has_out_within (pfd : pollfd) (h : pfd.within_mask) (hout : has_out pfd.revents = true) :
    has_out pfd.events = true :=
  (has_out_iff _).mpr (bit_within_mask _ _ 2 h (by decide) ((has_out_iff _).mp hout))

theorem sound_later {a b : poll_source} (h : a.later b) (ha : a.sound) : b.sound := by
  rcases h with rfl | rfl
  · exact ha
  · exact ha

theorem grows_mem {l1 l2 : List poll_source} (h : Grows l1 l2) {c : poll_source}
    (hc : c ∈ l1) : ∃ c2 ∈ l2, c.later c2 := by
  induction l1 generalizing l2 with
  | nil => cases hc
  | cons a l1 ih =>
    cases l2 with
    | nil => exact absurd h (by simp [Grows])
    | cons b l2 =>
      obtain ⟨h1, h2⟩ := h
      rcases List.mem_cons.mp hc with rfl | hc
      · exact ⟨b, List.mem_cons_self _ _, h1⟩
      · obtain ⟨c2, hc2, hl⟩ := ih h2 hc
        exact ⟨c2, List.mem_cons_of_mem _ hc2, hl⟩

/-- The node that a successful `gpoll_register_fd` appends is as registration
leaves it. -/
theorem register_fd_sound (w : World) (s : State) (fd : Int) (user : Nat)
    (cbs : GPOLL_CALLBACKS) (h : s.sound) : (gpoll_register_fd w s fd user cbs).1.sound := by
  unfold gpoll_register_fd
  by_cases h1 : cbs.fp_close = NULL
  · rw [if_pos h1]; exact h
  · by_cases h2 : cbs.fp_read = NULL ∧ cbs.fp_write = NULL
    · rw [if_neg h1, if_pos h2]; exact h
    · rw [if_neg h1, if_neg h2]
      unfold calloc
      by_cases h3 : w.calloc_fails s.clock = true
      · simp only [h3, if_true]; exact h
      · simp only [h3, if_false]
        intro n hn
        rcases List.mem_append.mp hn with hn | hn
        · exact h n hn
        · rw [List.mem_singleton.mp hn]
          refine ⟨h1, ?_, ?_⟩
          · intro hin hr
            by_cases hw : cbs.fp_write = NULL
            · exact h2 ⟨hr, hw⟩
            · have hin2 : has_in
                  (if cbs.fp_write ≠ NULL then (if cbs.fp_read ≠ NULL then 0 ||| POLLIN else 0)
                    ||| POLLOUT else (if cbs.fp_read ≠ NULL then 0 ||| POLLIN else 0))
                  = true := hin
              rw [if_neg (not_not.mpr hr), if_pos hw] at hin2
              revert hin2
              decide
          · intro hout hw
            by_cases hr : cbs.fp_read = NULL
            · exact h2 ⟨hr, hw⟩
            · have hout2 : has_out
                  (if cbs.fp_write ≠ NULL then (if cbs.fp_read ≠ NULL then 0 ||| POLLIN else 0)
                    ||| POLLOUT else (if cbs.fp_read ≠ NULL then 0 ||| POLLIN else 0))
                  = true := hout
              rw [if_neg (not_not.mpr hw), if_pos hr] at hout2
              revert hout2
              decide

theorem register_fd_fault (w : World) (s : State) (fd : Int) (user : Nat)
    (cbs : GPOLL_CALLBACKS) : (gpoll_register_fd w s fd user cbs).1.fault = s.fault := by
  rcases register_fd_cases w s fd user cbs with h | h
  · exact h.2.2.2.2.2.1
  · exact h.2.2.2.2.2.1

theorem safe_register (w : World) (s : State) (fd : Int) (user : Nat) (cbs : GPOLL_CALLBACKS)
    (h : s.safe) : (gpoll_register_fd w s fd user cbs).1.safe := by
  obtain ⟨hwf, hsound, hfault, hlog⟩ := h
  refine ⟨(keeps_register w s fd user cbs).2.2.2 hwf, register_fd_sound w s fd user cbs hsound,
    ?_, ?_⟩
  · rw [register_fd_fault]; exact hfault
  · rw [register_fd_trace]; exact hlog

theorem remove_fd_fault (s : State) (fd : Int) : (gpoll_remove_fd s fd).1.fault = s.fault := by
  rcases remove_fd_cases s fd with ⟨e, _⟩ | ⟨pre, c, post, _, _, _, e⟩
  · rw [e]
  · rw [e]
    by_cases hpol : s.polling ≠ 0
    · rw [if_pos hpol]
    · rw [if_neg hpol]

theorem safe_remove (s : State) (fd : Int) (hpol : s.polling ≠ 0) (h : s.safe) :
    (gpoll_remove_fd s fd).1.safe := by
  obtain ⟨hwf, hsound, hfault, hlog⟩ := h
  have hk := keeps_remove s fd hpol
  refine ⟨hk.2.2.2 hwf, ?_, ?_, ?_⟩
  · rcases remove_fd_cases s fd with ⟨e, _⟩ | ⟨pre, c, post, hs, _, _, e⟩
    · rw [e]; exact hsound
    · rw [e, if_pos hpol]
      intro n hn
      have hn' : n ∈ pre ++ { c with removed := 1 } :: post := hn
      rcases List.mem_append.mp hn' with hm | hm
      · exact hsound n (by rw [hs]; exact List.mem_append_left _ hm)
      · rcases List.mem_cons.mp hm with rfl | hm
        · exact sound_later (Or.inr rfl) (hsound c (by rw [hs]; simp))
        · exact hsound n (by rw [hs]; simp [hm])
  · rw [remove_fd_fault]; exact hfault
  · rw [remove_fd_trace]; exact hlog

theorem safe_push (s : State) (e : Event) (he : e.fp? ≠ some NULL) (h : s.safe) :
    State.safe { s with trace := s.trace ++ [e] } := by
  obtain ⟨hwf, hsound, hfault, hlog⟩ := h
  refine ⟨hwf, hsound, hfault, ?_⟩
  intro e2 he2
  rcases List.mem_append.mp he2 with hm | hm
  · exact hlog e2 hm
  · rw [List.mem_singleton.mp hm]; exact he

/-- Running a callback body while polling keeps the state safe. -/
theorem safe_run_callback (w : World) (c : Callback) (s : State) (hpol : s.polling ≠ 0)
    (h : s.safe) : (run_callback w c s).1.safe := by
  induction c generalizing s with
  | ret r => exact h
  | register_fd fd user cbs k ih =>
    rw [run_callback_register]
    refine ih _ _ ?_ (safe_push _ _ (by simp [Event.fp?]) (safe_register w s fd user cbs h))
    show (gpoll_register_fd w s fd user cbs).1.polling ≠ 0
    rw [(keeps_register w s fd user cbs).1]; exact hpol
  | remove_fd fd k ih =>
    rw [run_callback_remove]
    refine ih _ _ ?_ (safe_push _ _ (by simp [Event.fp?]) (safe_remove s fd hpol h))
    show (gpoll_remove_fd s fd).1.polling ≠ 0
    rw [(keeps_remove s fd hpol).1]; exact hpol

end Posix

namespace Posix

theorem deref_of_mem (s : State) (c : poll_source) (hnd : s.addrs.Nodup) (hc : c ∈ s.sources) :
    deref s c.addr = some c := by
  unfold deref
  cases hf : s.sources.find? (fun n => n.addr == c.addr) with
  | none =>
    have := List.find?_eq_none.mp hf c hc
    simp at this
  | some d =>
    have hd : d ∈ s.sources := List.mem_of_find?_eq_some hf
    have ha : d.addr = c.addr := by
      have := List.find?_some hf
      simpa using this
    rw [eq_of_addr_eq hnd hd hc ha]

/-- The node of a linked node's address, later in the turn: linked, with the
same callbacks. -/
theorem later_linked {s1 s2 : State} (hk : Keeps s1 s2) {c : poll_source} (hc : c ∈ s1.sources) :
    ∃ c2 ∈ s2.sources, c2.addr = c.addr ∧ c2.events = c.events ∧
      ∀ slot, c2.fp slot = c.fp slot := by
  obtain ⟨c2, hc2, hl⟩ := grows_mem hk.2.1 hc
  refine ⟨c2, hc2, ?_⟩
  rcases hl with rfl | rfl
  · exact ⟨rfl, rfl, fun _ => rfl⟩
  · exact ⟨rfl, rfl, fun slot => by cases slot <;> rfl⟩

/-- A call through a slot of a linked node that holds a callback in that slot
keeps the state safe. -/
theorem safe_invoke (w : World) (s : State) (p : Nat) (slot : Slot) (hpol : s.polling ≠ 0)
    (h : s.safe) (c : poll_source) (hc : c ∈ s.sources) (hp : c.addr = p)
    (hfp : c.fp slot ≠ NULL) : (invoke w s p slot).1.safe := by
  obtain ⟨hwf, hsound, hfault, hlog⟩ := h
  have hd : deref s p = some c := by rw [← hp]; exact deref_of_mem s c hwf.1 hc
  have hb : (c.fp slot == NULL) = false := by simpa using hfp
  have h0 : State.safe
      { s with clock := s.clock + 1, fault := s.fault || (deref s p).isNone ||
          ((deref s p).getD null_source).fp slot == NULL } := by
    refine ⟨⟨hwf.1, fun n hn => Nat.le_succ_of_le (hwf.2 n hn)⟩, hsound, ?_, hlog⟩
    show (s.fault || (deref s p).isNone || ((deref s p).getD null_source).fp slot == NULL)
      = false
    rw [hd, hfault]
    simpa using hfp
  have h1 := safe_run_callback w
    (w.callback s.clock (((deref s p).getD null_source).fp slot)
      ((deref s p).getD null_source).user)
    { s with clock := s.clock + 1, fault := s.fault || (deref s p).isNone ||
        ((deref s p).getD null_source).fp slot == NULL } hpol h0
  refine safe_push _ (Event.call p slot (((deref s p).getD null_source).fp slot)
    ((deref s p).getD null_source).user (invoke w s p slot).2) ?_ h1
  show some (((deref s p).getD null_source).fp slot) ≠ some NULL
  rw [hd]
  intro e
  exact hfp (Option.some.inj e)

theorem invoke_keeps (w : World) (s : State) (p : Nat) (slot : Slot) (hpol : s.polling ≠ 0) :
    Keeps s (invoke w s p slot).1 :=
  (step_invoke w s p slot).1.2.2.1 hpol

/-- The body of the `for` loop for an entry whose node is linked and whose
readiness bits are within the mask keeps the state safe. -/
theorem safe_entry (w : World) (pfd : pollfd) (p : Nat) (s : State) (hpol : s.polling ≠ 0)
    (h : s.safe) (c : poll_source) (hc : c ∈ s.sources) (hp : c.addr = p)
    (hev : c.events = pfd.events) (hmask : pfd.within_mask) :
    (gpoll_entry w pfd p s).1.safe := by
  have hcs : c.sound := h.2.1 c hc
  have hread : has_in pfd.revents = true → c.fp Slot.read ≠ NULL := fun hin =>
    hcs.2.1 (by rw [hev]; exact has_in_within pfd hmask hin)
  have hwrite : has_out pfd.revents = true → c.fp Slot.write ≠ NULL := fun hout =>
    hcs.2.2 (by rw [hev]; exact has_out_within pfd hmask hout)
  by_cases herr : has_error pfd.revents = true
  · rw [entry_error w pfd p s herr]
    have h1 := safe_invoke w s p Slot.close hpol h c hc hp hcs.1
    have hpol1 : (invoke w s p Slot.close).1.polling ≠ 0 := by
      rw [(invoke_keeps w s p Slot.close hpol).1]; exact hpol
    exact safe_remove _ pfd.fd hpol1 h1
  · have herr' : has_error pfd.revents = false := by simpa using herr
    by_cases hin : has_in pfd.revents = true
    · have h1 := safe_invoke w s p Slot.read hpol h c hc hp (hread hin)
      by_cases hr : (invoke w s p Slot.read).2 = 0
      · by_cases hout : has_out pfd.revents = true
        · rw [entry_in_out w pfd p s herr' hin hr hout]
          have hk := invoke_keeps w s p Slot.read hpol
          have hpol1 : (invoke w s p Slot.read).1.polling ≠ 0 := by rw [hk.1]; exact hpol
          obtain ⟨c2, hc2, ha, _, hf⟩ := later_linked hk hc
          exact safe_invoke w _ p Slot.write hpol1 h1 c2 hc2 (by rw [ha, hp])
            (by rw [hf]; exact hwrite hout)
        · rw [entry_in_only w pfd p s herr' hin hr (by simpa using hout)]
          exact h1
      · rw [entry_in_stop w pfd p s herr' hin hr]
        exact h1
    · by_cases hout : has_out pfd.revents = true
      · rw [entry_out_only w pfd p s herr' (by simpa using hin) hout]
        exact safe_invoke w s p Slot.write hpol h c hc hp (hwrite hout)
      · rw [entry_idle w pfd p s herr' (by simpa using hin) (by simpa using hout)]
        exact h

theorem entry_keeps (w : World) (pfd : pollfd) (p : Nat) (s : State) (hpol : s.polling ≠ 0) :
    Keeps s (gpoll_entry w pfd p s).1 :=
  (step_entry w pfd p s).2.2.1 hpol

/-- The `for` loop over a snapshot whose nodes are linked and whose readiness
bits are within the masks keeps the state safe. -/
theorem safe_dispatch (w : World) (snap : List (pollfd × Nat)) (s : State)
    (hpol : s.polling ≠ 0) (h : s.safe)
    (hsnap : ∀ e ∈ snap, e.1.within_mask ∧
      ∃ c ∈ s.sources, c.addr = e.2 ∧ c.events = e.1.events) :
    (gpoll_dispatch w snap s).1.safe := by
  induction snap generalizing s with
  | nil => exact h
  | cons e rest ih =>
    obtain ⟨pfd, p⟩ := e
    rw [dispatch_cons]
    obtain ⟨hmask, c, hc, hp, hev⟩ := hsnap (pfd, p) (List.mem_cons_self _ _)
    have h1 := safe_entry w pfd p s hpol h c hc hp hev hmask
    by_cases hb : (gpoll_entry w pfd p s).2 = true
    · rw [if_pos hb]; exact h1
    · rw [if_neg hb]
      have hk := entry_keeps w pfd p s hpol
      refine ih _ (by rw [hk.1]; exact hpol) h1 ?_
      intro e he
      obtain ⟨hm, d, hd, hdp, hde⟩ := hsnap e (List.mem_cons_of_mem _ he)
      obtain ⟨d2, hd2, ha, hev2, _⟩ := later_linked hk hd
      exact ⟨hm, d2, hd2, by rw [ha, hdp], by rw [hev2, hde]⟩

end Posix

namespace Posix

theorem defered_fault_fold (l : List poll_source) (st : State) :
    (l.foldl (fun st current =>
        if current.removed ≠ 0 then gpoll_close_internal st current else st) st).fault
      = st.fault := by
  induction l generalizing st with
  | nil => rfl
  | cons x xs ih =>
    simp only [List.foldl_cons]
    by_cases hx : x.removed ≠ 0
    · rw [if_pos hx, ih]; rfl
    · rw [if_neg hx, ih]

/-- The deferred-removal pass keeps the state safe. -/
theorem safe_defered (s : State) (h : s.safe) : (gpoll_remove_fd_defered s).safe := by
  obtain ⟨hwf, hsound, hfault, hlog⟩ := h
  have hclk : (gpoll_remove_fd_defered s).clock = s.clock :=
    (defered_fold s.sources [] s rfl (by simp)).2.2.2
  refine ⟨⟨?_, ?_⟩, ?_, ?_, ?_⟩
  · unfold State.addrs
    rw [defered_sources]
    exact List.Nodup.sublist ((List.filter_sublist s.sources).map _) hwf.1
  · intro n hn
    rw [defered_sources] at hn
    rw [hclk]
    exact hwf.2 n (List.mem_filter.mp hn).1
  · intro n hn
    rw [defered_sources] at hn
    exact hsound n (List.mem_filter.mp hn).1
  · have : (gpoll_remove_fd_defered s).fault = s.fault := defered_fault_fold s.sources s
    rw [this]; exact hfault
  · rw [defered_trace]; exact hlog

theorem mem_fill_fds_events {k : Nat} {l : List poll_source} {e : pollfd × Nat}
    (h : e ∈ fill_fds k l) : ∃ n ∈ l, n.addr = e.2 ∧ n.events = e.1.events := by
  induction l generalizing k with
  | nil => cases k <;> simp [fill_fds] at h
  | cons a l ih =>
    cases k with
    | zero => simp [fill_fds] at h
    | succ k =>
      simp only [fill_fds, List.mem_cons] at h
      rcases h with rfl | h
      · exact ⟨a, by simp, rfl, rfl⟩
      · obtain ⟨n, hn, e1, e2⟩ := ih h
        exact ⟨n, List.mem_cons_of_mem _ hn, e1, e2⟩

theorem mem_store_revents_events {snap : List (pollfd × Nat)} {rs : List Nat}
    {e : pollfd × Nat} (h : e ∈ store_revents snap rs) :
    ∃ e0 ∈ snap, e.2 = e0.2 ∧ e.1.events = e0.1.events := by
  induction snap generalizing rs with
  | nil => simp [store_revents] at h
  | cons a snap ih =>
    obtain ⟨pfd, p⟩ := a
    simp only [store_revents, List.mem_cons] at h
    rcases h with rfl | h
    · exact ⟨(pfd, p), by simp, rfl, rfl⟩
    · obtain ⟨e0, h0, e1, e2⟩ := ih h
      exact ⟨e0, List.mem_cons_of_mem _ h0, e1, e2⟩

/-- An entry of the snapshot of a turn points to a linked node and carries its
interest mask. -/
theorem mem_wake_events {w : World} {s : State} {e : pollfd × Nat} (h : e ∈ wake w s) :
    ∃ n ∈ s.sources, n.addr = e.2 ∧ n.events = e.1.events := by
  obtain ⟨e0, h0, e1, e2⟩ := mem_store_revents_events h
  obtain ⟨n, hn, e3, e4⟩ := mem_fill_fds_events h0
  exact ⟨n, hn, by rw [e1, e3], by rw [e2, e4]⟩

theorem iteration_polling (w : World) (s : State) (hpol : s.polling ≠ 0) :
    (gpoll_iteration w s).1.polling ≠ 0 := by
  by_cases hpos : (poll_answer w s).1 > 0
  · rw [iteration_pos w s hpos]
    have h1 : (gpoll_remove_fd_defered (gpoll_dispatch w (wake w s) s.polled).1).polling
        = (gpoll_dispatch w (wake w s) s.polled).1.polling :=
      (defered_fold _ [] _ rfl (by simp)).2.2.1
    have hk := (step_dispatch w (wake w s) s.polled).2.2.1 hpol
    show (gpoll_remove_fd_defered (gpoll_dispatch w (wake w s) s.polled).1).polling ≠ 0
    rw [h1, hk.1]; exact hpol
  · rw [iteration_nonpos w s hpos]; exact hpol

/-- A turn of the loop whose readiness bits are within the masks keeps the
state safe. -/
theorem safe_iteration (w : World) (s : State) (hpol : s.polling ≠ 0) (h : s.safe)
    (hwake : ∀ e ∈ wake w s, e.1.within_mask) : (gpoll_iteration w s).1.safe := by
  have hp : s.polled.safe :=
    ⟨⟨h.1.1, fun n hn => Nat.le_succ_of_le (h.1.2 n hn)⟩, h.2.1, h.2.2.1, h.2.2.2⟩
  by_cases hpos : (poll_answer w s).1 > 0
  · rw [iteration_pos w s hpos]
    refine safe_defered _ (safe_dispatch w (wake w s) s.polled hpol hp ?_)
    intro e he
    obtain ⟨n, hn, e1, e2⟩ := mem_wake_events he
    exact ⟨hwake e he, n, hn, e1, e2⟩
  · rw [iteration_nonpos w s hpos]; exact hp

theorem safe_turns (w : World) (hwake : ∀ s, ∀ e ∈ wake w s, e.1.within_mask) (n : Nat)
    (s : State) (hpol : s.polling ≠ 0) (h : s.safe) : (turns w n s).safe := by
  induction n generalizing s with
  | zero => exact h
  | succ n ih =>
    exact ih _ (iteration_polling w s hpol) (safe_iteration w s hpol h (hwake s))

/-- The state in which the loop ends is the state after some number of
turns. -/
theorem loop_turns (w : World) (fuel : Nat) (s s1 : State) (h : gpoll_loop w fuel s = some s1) :
    ∃ n, s1 = turns w n s := by
  induction fuel generalizing s with
  | zero => cases h
  | succ fuel ih =>
    rw [loop_succ] at h
    by_cases hb : (gpoll_iteration w s).2 = true
    · rw [if_pos hb] at h
      exact ⟨1, (Option.some.inj h).symm⟩
    · rw [if_neg hb] at h
      obtain ⟨n, hn⟩ := ih _ h
      exact ⟨n + 1, hn⟩

theorem register_all_cons (w : World) (fd : Int) (user : Nat) (cbs : GPOLL_CALLBACKS)
    (rest : List (Int × Nat × GPOLL_CALLBACKS)) (s : State) :
    (register_all w ((fd, user, cbs) :: rest) s).1
      = (register_all w rest (gpoll_register_fd w s fd user cbs).1).1 := rfl

/-- A registry built by `gpoll_register_fd` calls from a safe state is safe. -/
theorem safe_register_all (w : World) (regs : List (Int × Nat × GPOLL_CALLBACKS)) (s : State)
    (h : s.safe) : (register_all w regs s).1.safe := by
  induction regs generalizing s with
  | nil => exact h
  | cons r rest ih =>
    obtain ⟨fd, user, cbs⟩ := r
    rw [register_all_cons]
    exact ih _ (safe_register w s fd user cbs h)

theorem safe_init : State.init.safe := by
  refine ⟨⟨List.nodup_nil, ?_⟩, ?_, rfl, ?_⟩
  · intro n hn; cases hn
  · intro n hn; cases hn
  · intro e he; cases he

theorem safe_call (s : State) (h : s.safe) (p : Nat) (slot : Slot) (fp user : Nat) (r : Int)
    (he : Event.call p slot fp user r ∈ s.trace) : fp ≠ NULL := by
  intro e
  exact h.2.2.2 _ he (by rw [e]; rfl)

theorem store_revents_echo (snap : List (pollfd × Nat)) :
    ∀ e ∈ store_revents snap (snap.map fun x => x.1.events), e.1.revents = e.1.events := by
  induction snap with
  | nil => intro e he; cases he
  | cons a snap ih =>
    obtain ⟨pfd, p⟩ := a
    intro e he
    simp only [store_revents, List.map_cons, List.headD_cons, List.tail_cons,
      List.mem_cons] at he
    rcases he with rfl | he
    · rfl
    · exact ih e he

theorem and_or_self_left (a b : Nat) : a &&& (a ||| b) = a := by
  apply Nat.eq_of_testBit_eq
  intro i
  rw [Nat.testBit_and, Nat.testBit_or]
  cases a.testBit i <;> simp

/-- In the world `eager` the readiness bits of every wake are within the
masks. -/
theorem eager_within (s : State) : ∀ e ∈ wake Scenario.eager s, e.1.within_mask := by
  intro e he
  have h : e ∈ store_revents (fill_fds s.nb_sources s.sources)
      ((fill_fds s.nb_sources s.sources).map fun x => x.1.events) := by
    have : wake Scenario.eager s = store_revents (fill_fds s.nb_sources s.sources)
        (((fill_fds s.nb_sources s.sources).map Prod.fst).map fun f => f.events) := rfl
    rw [this, List.map_map] at he
    exact he
  unfold pollfd.within_mask
  rw [store_revents_echo _ e h]
  exact and_or_self_left _ _

end Posix

/-- C20 (polling backend).  Take any registry built from the empty one by
`gpoll_register_fd` calls and any world in which the readiness bits that
`poll` reports for an entry are always among the bits of its interest mask and
`POLLERR`, `POLLHUP`, `POLLNVAL`.  Then after any number of turns of the loop
of `gpoll`, and so when `gpoll` returns: the ghost flag `fault`, which a call
raises when the pointer `sources[i]` it goes through is not the address of a
linked node or when the function pointer it calls is null, is down; and every
call in the log (close on an error bit, read on `POLLIN`, write on `POLLOUT`)
went through a function pointer that is not null. -/
theorem posix_no_absent_callback (w : Posix.World)
    (regs : List (Int × Nat × GPOLL_CALLBACKS))
    (hwake : ∀ s : Posix.State, ∀ e ∈ Posix.wake w s, e.1.within_mask) :
    (∀ n,
      (Posix.turns w n
          { (Posix.register_all w regs Posix.State.init).1 with polling := 1 }).fault = false ∧
      ∀ p slot fp user r,
        Posix.Event.call p slot fp user r ∈
          (Posix.turns w n
            { (Posix.register_all w regs Posix.State.init).1 with polling := 1 }).trace →
        fp ≠ NULL) ∧
    (∀ fuel s1, Posix.gpoll w fuel (Posix.register_all w regs Posix.State.init).1 = some s1 →
      s1.fault = false ∧
      ∀ p slot fp user r, Posix.Event.call p slot fp user r ∈ s1.trace → fp ≠ NULL) := by
  have h0 : Posix.State.safe
      { (Posix.register_all w regs Posix.State.init).1 with polling := 1 } := by
    obtain ⟨a, b, c, d⟩ := Posix.safe_register_all w regs Posix.State.init Posix.safe_init
    exact ⟨a, b, c, d⟩
  have hn : ∀ n, (Posix.turns w n
      { (Posix.register_all w regs Posix.State.init).1 with polling := 1 }).safe :=
    fun n => Posix.safe_turns w hwake n _ Nat.one_ne_zero h0
  refine ⟨fun n => ⟨(hn n).2.2.1, fun p slot fp user r he =>
    Posix.safe_call _ (hn n) p slot fp user r he⟩, ?_⟩
  intro fuel s1 hg
  unfold Posix.gpoll at hg
  cases hl : Posix.gpoll_loop w fuel
      { (Posix.register_all w regs Posix.State.init).1 with polling := 1 } with
  | none => rw [hl] at hg; cases hg
  | some s2 =>
    rw [hl] at hg
    obtain ⟨n, e⟩ := Posix.loop_turns w fuel _ s2 hl
    have hs : s1 = { s2 with polling := 0 } := (Option.some.inj hg).symm
    have h2 : s2.safe := by rw [e]; exact hn n
    rw [hs]
    exact ⟨h2.2.2.1, fun p slot fp user r he => Posix.safe_call s2 h2 p slot fp user r he⟩

/-- C20 at a concrete input: the registry of
`gpoll_register_fd(3, 10, read_close)` in the world `eager`.  `poll` reports
`POLLIN`, the read callback 1 is called through the linked node and stops the
loop, and `gpoll` returns with `fault` down. -/
theorem posix_no_absent_callback_witness :
    (∀ s : Posix.State, ∀ e ∈ Posix.wake Scenario.eager s, e.1.within_mask) ∧
    Posix.gpoll Scenario.eager 1
      (Posix.register_all Scenario.eager [(3, 10, Scenario.read_close)] Posix.State.init).1
      = some Scenario.eager_done ∧
    Scenario.eager_done.fault = false ∧
    Scenario.eager_done.trace = [Posix.Event.call 1 Slot.read 1 10 1] ∧
    (1 : Nat) ≠ NULL :=
  ⟨Posix.eager_within, by decide,
    ((posix_no_absent_callback Scenario.eager [(3, 10, Scenario.read_close)]
      Posix.eager_within).2 1 Scenario.eager_done (by decide)).1,
    by decide,
    ((posix_no_absent_callback Scenario.eager [(3, 10, Scenario.read_close)]
      Posix.eager_within).2 1 Scenario.eager_done (by decide)).2 1 Slot.read 1 10 1
      (by decide)⟩

end Gpoll
